import Mathlib

/-!
# LazyCopy minifilter driver: verification of the specification claims

Shallow embedding of the LazyCopy minifilter driver (`src/Driver/LazyCopyDriver`)
in Lean 4, together with proofs settling the claims of the natural-language
specification.

Modules embedded here:
* `Fetch.c`        - `LcOpenFile`, `LcFetchFileByChunks` and its chunk-list helpers;
* `FileLocks.c`    - `LcGetFileLock` / `LcReleaseFileLock`;
* `ReparsePoints.c`- `LcGetReparsePointData`, `LcUntagFile`;
* `Operations.c`   - `PreReadWriteOperationCallback` (as a concurrent protocol),
                     `PreQueryInformationOperationCallback`,
                     `PostQueryInformationOperationCallback`,
                     `PostCreateOperationCallback`;
* `Configuration.c`/`Communication.c` - watch-path configuration and the
  `SetWatchPaths` command handler.

NTSTATUS values are modelled as their unsigned 32-bit numeric codes (`Nat`);
`NT_SUCCESS(s)` is the signed test `(LONG)s >= 0`, i.e. `s < 0x80000000`.
Machine integers are modelled as `Nat`/`Int` with explicit `% 2 ^ 32` at the
places where the C code truncates (casts to `ULONG`).
-/

deriving instance DecidableEq for Except

namespace LazyCopy

/-- NTSTATUS, as the unsigned 32-bit value of the status code. -/
abbrev NtStatus := Nat

def STATUS_SUCCESS : NtStatus := 0
def STATUS_TIMEOUT : NtStatus := 0x102
def STATUS_PENDING : NtStatus := 0x103
def STATUS_REPARSE : NtStatus := 0x104
def STATUS_BUFFER_OVERFLOW : NtStatus := 0x80000005
def STATUS_END_OF_FILE : NtStatus := 0xC0000011
def STATUS_ACCESS_DENIED : NtStatus := 0xC0000022
def STATUS_PORT_DISCONNECTED : NtStatus := 0xC0000037
def STATUS_INSUFFICIENT_RESOURCES : NtStatus := 0xC000009A
def STATUS_INVALID_PARAMETER_1 : NtStatus := 0xC00000EF
def STATUS_INVALID_PARAMETER_2 : NtStatus := 0xC00000F0
def STATUS_INVALID_BUFFER_SIZE : NtStatus := 0xC0000206
def STATUS_NOT_A_REPARSE_POINT : NtStatus := 0xC0000275
def STATUS_IO_REPARSE_DATA_INVALID : NtStatus := 0xC0000278

/-- `NT_SUCCESS(Status)`: the status, read as a signed 32-bit integer, is `>= 0`. -/
def ntSuccess (s : NtStatus) : Bool := s < 0x80000000

/-- `FlagOn(x, f)`: `(x & f) != 0`. -/
def testFlag (v flag : Nat) : Bool := v &&& flag ≠ 0

/-- `ClearFlag(x, f)`: `x &= ~f`, with a 32-bit-wide complement. -/
def clearFlag (v flag : Nat) : Nat := v &&& (0xFFFFFFFF ^^^ flag)

/-- `SetFlag(x, f)`: `x |= f`. -/
def setFlag (v flag : Nat) : Nat := v ||| flag

-- File attribute bits used by the driver (`FILE_ATTRIBUTE_*`).
def FILE_ATTRIBUTE_READONLY : Nat := 0x1
def FILE_ATTRIBUTE_REPARSE_POINT : Nat := 0x400
def FILE_ATTRIBUTE_OFFLINE : Nat := 0x1000
def FILE_ATTRIBUTE_NOT_CONTENT_INDEXED : Nat := 0x2000

/-- `Globals.h`: `LC_FILE_ATTRIBUTES = FILE_ATTRIBUTE_OFFLINE | FILE_ATTRIBUTE_REPARSE_POINT`. -/
def LC_FILE_ATTRIBUTES : Nat := FILE_ATTRIBUTE_OFFLINE ||| FILE_ATTRIBUTE_REPARSE_POINT

/-- `Globals.h`: `LC_REPARSE_TAG`. -/
def LC_REPARSE_TAG : Nat := 0x340

example : LC_FILE_ATTRIBUTES = 0x1400 := by decide

/-! ## `Fetch.c`: `LcOpenFile` (the fetch engine's source opener) -/

namespace Fetch

/-- Result of `LcOpenFile`: the returned status, and whether the open was
delegated to the user-mode helper (`LcOpenFileInUserMode` was invoked). -/
structure OpenFileResult where
  status : NtStatus
  delegated : Bool
deriving Repr, DecidableEq

/-- `Fetch.c`, `LcOpenFile`: try a direct `ZwOpenFile`; if and only if that
fails with `STATUS_ACCESS_DENIED`, delegate the open to the user-mode client,
and report the original access-denied status when the notification layer
answered `STATUS_PORT_DISCONNECTED` or `STATUS_TIMEOUT`.

`directStatus` is the status of the direct `ZwOpenFile` call, and
`delegationStatus` the status `LcOpenFileInUserMode` would return. -/
def lcOpenFile (directStatus delegationStatus : NtStatus) : OpenFileResult :=
  if ¬ntSuccess directStatus ∧ directStatus = STATUS_ACCESS_DENIED then
    { status :=
        if delegationStatus = STATUS_PORT_DISCONNECTED ∨ delegationStatus = STATUS_TIMEOUT then
          directStatus
        else
          delegationStatus,
      delegated := true }
  else
    { status := directStatus, delegated := false }

end Fetch

/-- C7: the fetch engine's source opener: a direct-open failure of
`STATUS_ACCESS_DENIED` is delegated to the helper; a delegation answer of
`STATUS_PORT_DISCONNECTED` or `STATUS_TIMEOUT` is remapped to the original
access-denied status; any other delegation error is returned as-is; and any
direct-open error other than access-denied is returned without delegating. -/
theorem C7_open_file_error_behavior (d : NtStatus) :
    (d = STATUS_PORT_DISCONNECTED ∨ d = STATUS_TIMEOUT →
      Fetch.lcOpenFile STATUS_ACCESS_DENIED d =
        { status := STATUS_ACCESS_DENIED, delegated := true }) ∧
    (d ≠ STATUS_PORT_DISCONNECTED → d ≠ STATUS_TIMEOUT →
      Fetch.lcOpenFile STATUS_ACCESS_DENIED d = { status := d, delegated := true }) ∧
    (∀ e : NtStatus, e ≠ STATUS_ACCESS_DENIED →
      Fetch.lcOpenFile e d = { status := e, delegated := false }) := by
  refine ⟨fun h => ?_, fun h1 h2 => ?_, fun e he => ?_⟩
  · simp only [Fetch.lcOpenFile, ntSuccess, STATUS_ACCESS_DENIED]
    norm_num
    rcases h with h | h <;> simp [h]
  · simp only [Fetch.lcOpenFile, ntSuccess, STATUS_ACCESS_DENIED]
    norm_num
    simp [h1, h2]
  · simp [Fetch.lcOpenFile, he]

/-- Witness for C7 at concrete inputs. -/
theorem C7_open_file_error_behavior_witness :
    Fetch.lcOpenFile STATUS_ACCESS_DENIED STATUS_TIMEOUT =
        { status := STATUS_ACCESS_DENIED, delegated := true } ∧
    Fetch.lcOpenFile STATUS_ACCESS_DENIED STATUS_INSUFFICIENT_RESOURCES =
        { status := STATUS_INSUFFICIENT_RESOURCES, delegated := true } ∧
    Fetch.lcOpenFile STATUS_END_OF_FILE STATUS_SUCCESS =
        { status := STATUS_END_OF_FILE, delegated := false } :=
  ⟨(C7_open_file_error_behavior STATUS_TIMEOUT).1 (Or.inr rfl),
   (C7_open_file_error_behavior STATUS_INSUFFICIENT_RESOURCES).2.1
     (by decide) (by decide),
   (C7_open_file_error_behavior STATUS_SUCCESS).2.2 STATUS_END_OF_FILE (by decide)⟩

/-! ## `ReparsePoints.c`: `LcGetReparsePointData` -/

namespace ReparsePoints

/-- `wcslen`: number of wide characters before the first nul. `mem` models
the memory starting at the scanned position; the driver reads the reparse
buffer it allocated, so a terminating nul is assumed to occur within `mem`
(`0 ∈ mem`) for the scan to be the real `wcslen`. -/
def wcslen (mem : List Nat) : Nat := (mem.takeWhile (· ≠ 0)).length

/-- The stored reparse data of a stub mark, as handed back by
`FSCTL_GET_REPARSE_POINT` (struct `LC_REPARSE_DATA`).

`reparseDataLength` is the `ReparseDataLength` field (the declared, stored
payload length in bytes); `remoteFileSize` the `ReparseBuffer.RemoteFileSize`
field; `pathMem` the wide characters stored at `ReparseBuffer.RemoteFilePath`
and onward. -/
structure ReparseMark where
  reparseDataLength : Nat
  remoteFileSize : Int
  pathMem : List Nat
deriving Repr, DecidableEq

/-- `sizeof(reparseData->ReparseBuffer)`: a `LONGLONG` (8 bytes, 8-aligned)
followed by `WCHAR[1]` (2 bytes), padded to the 8-byte alignment: 16 bytes. -/
def sizeofReparseBuffer : Nat := 16

/-- `ReparsePoints.c`, `LcGetReparsePointData`.

`hasReparsePoint` models the first `FltFsControlFile` probe: it is `false`
when the probe does not come back with `STATUS_BUFFER_OVERFLOW` (no reparse
point on the file). On the happy path the function computes
`remoteFilePathLength = (wcslen(path) + 1) * sizeof(WCHAR)` and *leaves with
`STATUS_IO_REPARSE_DATA_INVALID` unless
`ReparseDataLength < sizeof(ReparseBuffer) + remoteFilePathLength`*
(the `NT_IF_FALSE_LEAVE` at line 155); otherwise it returns the remote file
size and the nul-terminated remote path. -/
def lcGetReparsePointData (hasReparsePoint : Bool) (mark : ReparseMark) :
    Except NtStatus (Int × List Nat) :=
  if ¬hasReparsePoint then
    .error STATUS_NOT_A_REPARSE_POINT
  else
    let remoteFilePathLength := (wcslen mark.pathMem + 1) * 2
    if ¬(mark.reparseDataLength < sizeofReparseBuffer + remoteFilePathLength) then
      .error STATUS_IO_REPARSE_DATA_INVALID
    else
      .ok (mark.remoteFileSize, mark.pathMem.takeWhile (· ≠ 0))

/-- The claim's notion of validity: the declared length covers both payload
fields, i.e. the 8-byte remote file size plus the nul-terminated remote path
string (`(wcslen + 1) * 2` bytes). -/
def declaredLengthCoversPayload (mark : ReparseMark) : Prop :=
  8 + (wcslen mark.pathMem + 1) * 2 ≤ mark.reparseDataLength

instance (mark : ReparseMark) : Decidable (declaredLengthCoversPayload mark) := by
  unfold declaredLengthCoversPayload; infer_instance

/-- A well-formed mark for the path `"a"` (`[97]`), declared length `0`. -/
def shortMark : ReparseMark :=
  { reparseDataLength := 0, remoteFileSize := 1500, pathMem := [97, 0] }

end ReparsePoints

/-- C6 counterexample: the claim states `LcGetReparsePointData` fails with
`STATUS_IO_REPARSE_DATA_INVALID` *exactly when* the declared length does not
cover both payload fields. For a mark with declared length `0` and path `"a"`
(which needs `8 + 4 = 12` bytes) the declared length does not cover the
payload, yet the function succeeds: the check at `ReparsePoints.c:155` is an
upper bound (`ReparseDataLength < sizeof(ReparseBuffer) + pathBytes`), not a
coverage check. -/
theorem C6_counterexample :
    ¬ReparsePoints.declaredLengthCoversPayload ReparsePoints.shortMark ∧
    ReparsePoints.lcGetReparsePointData true ReparsePoints.shortMark =
      .ok (1500, [97]) := by decide

/-- C6 (amended): `LcGetReparsePointData` fails with
`STATUS_IO_REPARSE_DATA_INVALID` exactly when the declared reparse-data
length is *at least* `sizeof(ReparseBuffer) + path bytes` (16 plus the
nul-terminated path byte count); declared lengths too short to cover the
payload are not rejected. On any other input with a reparse point present it
succeeds and returns the remote size and the remote path parsed from the
payload. -/
theorem C6_reparse_length_validation (mark : ReparsePoints.ReparseMark) :
    (ReparsePoints.lcGetReparsePointData true mark =
        .error STATUS_IO_REPARSE_DATA_INVALID ↔
      ReparsePoints.sizeofReparseBuffer + (ReparsePoints.wcslen mark.pathMem + 1) * 2 ≤
        mark.reparseDataLength) ∧
    (mark.reparseDataLength <
        ReparsePoints.sizeofReparseBuffer + (ReparsePoints.wcslen mark.pathMem + 1) * 2 →
      ReparsePoints.lcGetReparsePointData true mark =
        .ok (mark.remoteFileSize, mark.pathMem.takeWhile (· ≠ 0))) := by
  unfold ReparsePoints.lcGetReparsePointData
  constructor
  · by_cases h : mark.reparseDataLength <
        ReparsePoints.sizeofReparseBuffer + (ReparsePoints.wcslen mark.pathMem + 1) * 2
    · simp [h]
    · simp [h]
      omega
  · intro h
    simp [h]

/-- Witness for the amended C6 theorem at a concrete well-formed mark:
declared length `12` for path `"a"` (present path, covering length). -/
theorem C6_reparse_length_validation_witness :
    (ReparsePoints.lcGetReparsePointData true
        { reparseDataLength := 12, remoteFileSize := 7, pathMem := [97, 0] } =
      .error STATUS_IO_REPARSE_DATA_INVALID ↔
      ReparsePoints.sizeofReparseBuffer + (ReparsePoints.wcslen [97, 0] + 1) * 2 ≤ 12) ∧
    (12 < ReparsePoints.sizeofReparseBuffer + (ReparsePoints.wcslen [97, 0] + 1) * 2 →
      ReparsePoints.lcGetReparsePointData true
          { reparseDataLength := 12, remoteFileSize := 7, pathMem := [97, 0] } =
        .ok (7, [97])) := by
  have h := C6_reparse_length_validation
    { reparseDataLength := 12, remoteFileSize := 7, pathMem := [97, 0] }
  exact ⟨h.1, fun hlt => by simpa using h.2 hlt⟩

/-! ## `ReparsePoints.c`: `LcUntagFile` -/

namespace ReparsePoints

/-- The state of a file as far as `LcUntagFile` observes and mutates it:
its attribute word (`FILE_BASIC_INFORMATION.FileAttributes`, a `ULONG`) and
whether the LazyCopy reparse point is attached. -/
structure FileState where
  attributes : Nat
  hasLcReparsePoint : Bool
deriving Repr, DecidableEq

/-- `ReparsePoints.c`, `LcUntagFile`, on the happy path of the environment
(the attribute query, the re-open and the attribute sets succeed):

1. query the basic information; if `FILE_ATTRIBUTE_READONLY` is set,
   remember that and commit the attributes with the flag cleared;
2. re-open the file for write-attributes and call `FltUntagFile`; a result
   of `STATUS_NOT_A_REPARSE_POINT` (no mark present) is not treated as a
   failure;
3. clear `FILE_ATTRIBUTE_REPARSE_POINT`, `FILE_ATTRIBUTE_OFFLINE` and
   `FILE_ATTRIBUTE_NOT_CONTENT_INDEXED` from the queried attribute word,
   re-set `FILE_ATTRIBUTE_READONLY` if it was originally set, and commit
   the result with `FltSetInformationFile` (which also resets `status` to
   the success of that final call). -/
def lcUntagFile (f : FileState) : NtStatus × FileState :=
  let basicAttributes := f.attributes
  let readOnlyFile := testFlag basicAttributes FILE_ATTRIBUTE_READONLY
  let basicAttributes :=
    if readOnlyFile then clearFlag basicAttributes FILE_ATTRIBUTE_READONLY
    else basicAttributes
  -- FltUntagFile: removes the mark when present; STATUS_NOT_A_REPARSE_POINT
  -- otherwise, which the code lets pass.
  let f := { f with hasLcReparsePoint := false }
  let basicAttributes := clearFlag basicAttributes FILE_ATTRIBUTE_REPARSE_POINT
  let basicAttributes := clearFlag basicAttributes FILE_ATTRIBUTE_OFFLINE
  let basicAttributes := clearFlag basicAttributes FILE_ATTRIBUTE_NOT_CONTENT_INDEXED
  let basicAttributes :=
    if readOnlyFile then setFlag basicAttributes FILE_ATTRIBUTE_READONLY
    else basicAttributes
  (STATUS_SUCCESS, { f with attributes := basicAttributes })

end ReparsePoints

/-- `Nat.testBit 1 k`. -/
theorem testBit_one_eq (k : Nat) : Nat.testBit 1 k = decide (k = 0) := by
  have h : (1 : Nat) = 2 ^ 0 := by norm_num
  rw [h, Nat.testBit_two_pow]
  simp [eq_comm]

/-- The bits of the 32-bit mask complement `0xFFFFFFFF ^^^ flag` below bit 32. -/
theorem testBit_clearFlag (v flag k : Nat) (hk : k < 32) :
    (clearFlag v flag).testBit k = (v.testBit k && !flag.testBit k) := by
  have h : (0xFFFFFFFF : Nat) = 2 ^ 32 - 1 := by norm_num
  rw [clearFlag, Nat.testBit_and, Nat.testBit_xor, h, Nat.testBit_two_pow_sub_one]
  simp [hk]

theorem testBit_setFlag (v flag k : Nat) :
    (setFlag v flag).testBit k = (v.testBit k || flag.testBit k) :=
  Nat.testBit_or v flag k

/-- C8 counterexample: the claim states that `LcUntagFile` on a file whose
stub mark is already absent returns success *and leaves the file's state
(its attributes included) unchanged*. On an unmarked file carrying the
`FILE_ATTRIBUTE_OFFLINE` attribute, the call reports success but clears the
attribute (the attribute-scrubbing step runs even when `FltUntagFile`
reported `STATUS_NOT_A_REPARSE_POINT`). -/
theorem C8_counterexample :
    (ReparsePoints.lcUntagFile
        { attributes := FILE_ATTRIBUTE_OFFLINE, hasLcReparsePoint := false }).1 =
      STATUS_SUCCESS ∧
    (ReparsePoints.lcUntagFile
        { attributes := FILE_ATTRIBUTE_OFFLINE, hasLcReparsePoint := false }).2 ≠
      { attributes := FILE_ATTRIBUTE_OFFLINE, hasLcReparsePoint := false } := by
  decide

/-- C8 (amended): demarking an already-unmarked file is idempotent only up to
attribute scrubbing: `LcUntagFile` returns success and leaves the mark
absent, but the resulting attributes are the original ones with
`FILE_ATTRIBUTE_REPARSE_POINT` (bit 10), `FILE_ATTRIBUTE_OFFLINE` (bit 12)
and `FILE_ATTRIBUTE_NOT_CONTENT_INDEXED` (bit 13) cleared; every other
attribute bit, `FILE_ATTRIBUTE_READONLY` included, is preserved. -/
theorem C8_untag_absent_mark (f : ReparsePoints.FileState)
    (_hmark : f.hasLcReparsePoint = false) :
    (ReparsePoints.lcUntagFile f).1 = STATUS_SUCCESS ∧
    (ReparsePoints.lcUntagFile f).2.hasLcReparsePoint = false ∧
    ∀ k, k < 32 →
      (ReparsePoints.lcUntagFile f).2.attributes.testBit k =
        if k = 10 ∨ k = 12 ∨ k = 13 then false else f.attributes.testBit k := by
  refine ⟨?_, ?_, ?_⟩
  · unfold ReparsePoints.lcUntagFile
    by_cases hro : testFlag f.attributes FILE_ATTRIBUTE_READONLY <;> simp [hro]
  · unfold ReparsePoints.lcUntagFile
    by_cases hro : testFlag f.attributes FILE_ATTRIBUTE_READONLY <;> simp [hro]
  · intro k hk
    have h1 : Nat.testBit FILE_ATTRIBUTE_READONLY k = decide (k = 0) := testBit_one_eq k
    have h10 : Nat.testBit FILE_ATTRIBUTE_REPARSE_POINT k = decide (k = 10) := by
      rw [show FILE_ATTRIBUTE_REPARSE_POINT = 2 ^ 10 by decide, Nat.testBit_two_pow]
      simp [eq_comm]
    have h12 : Nat.testBit FILE_ATTRIBUTE_OFFLINE k = decide (k = 12) := by
      rw [show FILE_ATTRIBUTE_OFFLINE = 2 ^ 12 by decide, Nat.testBit_two_pow]
      simp [eq_comm]
    have h13 : Nat.testBit FILE_ATTRIBUTE_NOT_CONTENT_INDEXED k = decide (k = 13) := by
      rw [show FILE_ATTRIBUTE_NOT_CONTENT_INDEXED = 2 ^ 13 by decide, Nat.testBit_two_pow]
      simp [eq_comm]
    have hro0 : testFlag f.attributes FILE_ATTRIBUTE_READONLY = f.attributes.testBit 0 := by
      rw [testFlag, show FILE_ATTRIBUTE_READONLY = 2 ^ 0 by decide, Nat.and_two_pow]
      rcases hb : f.attributes.testBit 0 <;> simp [hb]
    unfold ReparsePoints.lcUntagFile
    by_cases hro : testFlag f.attributes FILE_ATTRIBUTE_READONLY <;>
      simp only [hro, if_true, if_false, Bool.false_eq_true, testBit_setFlag,
        testBit_clearFlag _ _ k hk, h1, h10, h12, h13]
    · rw [hro0] at hro
      by_cases e0 : k = 0 <;> by_cases e10 : k = 10 <;> by_cases e12 : k = 12 <;>
        by_cases e13 : k = 13 <;> simp_all
    · rw [hro0] at hro
      by_cases e0 : k = 0 <;> by_cases e10 : k = 10 <;> by_cases e12 : k = 12 <;>
        by_cases e13 : k = 13 <;> simp_all

/-- Witness for C8 (amended) at a concrete file: unmarked, attributes
`READONLY | OFFLINE | NOT_CONTENT_INDEXED | ARCHIVE (0x20)`. -/
theorem C8_untag_absent_mark_witness :
    (ReparsePoints.lcUntagFile { attributes := 0x3021, hasLcReparsePoint := false }).1 =
      STATUS_SUCCESS ∧
    (ReparsePoints.lcUntagFile
        { attributes := 0x3021, hasLcReparsePoint := false }).2.hasLcReparsePoint = false ∧
    (ReparsePoints.lcUntagFile { attributes := 0x3021, hasLcReparsePoint := false }).2.attributes.testBit 12 = false ∧
    (ReparsePoints.lcUntagFile { attributes := 0x3021, hasLcReparsePoint := false }).2.attributes.testBit 0 = true := by
  have h := C8_untag_absent_mark { attributes := 0x3021, hasLcReparsePoint := false } rfl
  refine ⟨h.1, h.2.1, ?_, ?_⟩
  · rw [h.2.2 12 (by decide)]
    decide
  · rw [h.2.2 0 (by decide)]
    decide

/-! ## `Operations.c`: query-information callbacks -/

namespace Operations

/-- `FILE_INFORMATION_CLASS` values handled by the query-information callbacks. -/
inductive FileInfoClass where
  | fileAllInformation
  | fileStandardInformation
  | fileEndOfFileInformation
  | fileNetworkOpenInformation
  | fileBasicInformation
  | fileAttributeTagInformation
  | otherClass
deriving Repr, DecidableEq

open FileInfoClass

/-- The information buffer returned by the lower layer, restricted to the
fields the post-callback touches: the end-of-file value of the class (when it
has one) and the basic/tag attribute word of the class (when it has one). -/
structure InfoBuffer where
  endOfFile : Int
  fileAttributes : Nat
deriving Repr, DecidableEq

/-- `Operations.c`, `PreQueryInformationOperationCallback`: the post callback
runs (`FLT_PREOP_SYNCHRONIZE`) only for non-minifilter-generated I/O of the
four size-bearing classes; everything else is
`FLT_PREOP_SUCCESS_NO_CALLBACK`. -/
def preQueryInformationOperationCallback (generatedIo : Bool) (cls : FileInfoClass) : Bool :=
  if generatedIo then false
  else
    match cls with
    | fileAllInformation | fileStandardInformation
    | fileEndOfFileInformation | fileNetworkOpenInformation => true
    | _ => false

/-- `Operations.c`, `PostQueryInformationOperationCallback`: when not
draining, when the lower layer succeeded (or returned
`STATUS_BUFFER_OVERFLOW`), and when the file still has a stream context
(`LcGetStreamContext` succeeds, `context` carries its `RemoteFileSize`),
substitute the remote size for a zero end-of-file and strip
`LC_FILE_ATTRIBUTES` from the attribute fields of the classes that have
one. With no stream context the callback leaves the buffer untouched. -/
def postQueryInformationOperationCallback (draining : Bool) (ioStatus : NtStatus)
    (context : Option Int) (cls : FileInfoClass) (buf : InfoBuffer) : InfoBuffer :=
  if draining then buf
  else if ¬ntSuccess ioStatus ∧ ioStatus ≠ STATUS_BUFFER_OVERFLOW then buf
  else
    match context with
    | none => buf
    | some remoteFileSize =>
      match cls with
      | fileAllInformation =>
        let buf := if buf.endOfFile = 0 then { buf with endOfFile := remoteFileSize } else buf
        { buf with fileAttributes := clearFlag buf.fileAttributes LC_FILE_ATTRIBUTES }
      | fileNetworkOpenInformation =>
        let buf := if buf.endOfFile = 0 then { buf with endOfFile := remoteFileSize } else buf
        { buf with fileAttributes := clearFlag buf.fileAttributes LC_FILE_ATTRIBUTES }
      | fileBasicInformation =>
        { buf with fileAttributes := clearFlag buf.fileAttributes LC_FILE_ATTRIBUTES }
      | fileAttributeTagInformation =>
        { buf with fileAttributes := clearFlag buf.fileAttributes LC_FILE_ATTRIBUTES }
      | fileStandardInformation =>
        if buf.endOfFile = 0 then { buf with endOfFile := remoteFileSize } else buf
      | fileEndOfFileInformation =>
        if buf.endOfFile = 0 then { buf with endOfFile := remoteFileSize } else buf
      | otherClass => buf

/-- A query-information operation end to end: the post callback runs only
when the pre callback asked for synchronization. -/
def queryInformationOperation (generatedIo draining : Bool) (ioStatus : NtStatus)
    (context : Option Int) (cls : FileInfoClass) (buf : InfoBuffer) : InfoBuffer :=
  if preQueryInformationOperationCallback generatedIo cls then
    postQueryInformationOperationCallback draining ioStatus context cls buf
  else buf

/-- The size-bearing classes named by the claim. -/
def sizeBearingClass (cls : FileInfoClass) : Prop :=
  cls = fileAllInformation ∨ cls = fileStandardInformation ∨
  cls = fileEndOfFileInformation ∨ cls = fileNetworkOpenInformation

end Operations

/-- C5 counterexample: the claim states that for the size-bearing classes the
`OFFLINE` and `REPARSE_POINT` bits are *always* stripped from the returned
basic/tag attribute fields. When the opened file no longer has a stream
context, `PostQueryInformationOperationCallback` leaves the buffer untouched
(`NT_IF_FAIL_LEAVE(LcGetStreamContext(...))`), so a `FileAllInformation`
query on a context-free file keeps both bits. -/
theorem C5_counterexample :
    Operations.queryInformationOperation false false STATUS_SUCCESS none
        .fileAllInformation { endOfFile := 0, fileAttributes := LC_FILE_ATTRIBUTES } =
      { endOfFile := 0, fileAttributes := LC_FILE_ATTRIBUTES } ∧
    testFlag LC_FILE_ATTRIBUTES FILE_ATTRIBUTE_OFFLINE = true ∧
    testFlag LC_FILE_ATTRIBUTES FILE_ATTRIBUTE_REPARSE_POINT = true := by
  decide

/-- C5 (amended): for a query-information operation of a size-bearing class
that is not minifilter-generated, not draining, whose lower-layer status is a
success or `STATUS_BUFFER_OVERFLOW`, and *whose file still has a stream
context*: a zero end-of-file is replaced by the context's remote file size (a
nonzero one is kept), and for the classes that carry an attribute field
(`FileAllInformation`, `FileNetworkOpenInformation`) the `OFFLINE` and
`REPARSE_POINT` bits are stripped while all other attribute bits below bit 32
are preserved. Without a stream context the buffer is returned unmodified. -/
theorem C5_query_information (cls : Operations.FileInfoClass)
    (hcls : Operations.sizeBearingClass cls)
    (ioStatus : NtStatus) (hio : ntSuccess ioStatus ∨ ioStatus = STATUS_BUFFER_OVERFLOW)
    (remoteFileSize : Int) (buf : Operations.InfoBuffer) :
    (let out := Operations.queryInformationOperation false false ioStatus
        (some remoteFileSize) cls buf
     (buf.endOfFile = 0 → out.endOfFile = remoteFileSize) ∧
     (buf.endOfFile ≠ 0 → out.endOfFile = buf.endOfFile) ∧
     ((cls = .fileAllInformation ∨ cls = .fileNetworkOpenInformation) →
        testFlag out.fileAttributes FILE_ATTRIBUTE_OFFLINE = false ∧
        testFlag out.fileAttributes FILE_ATTRIBUTE_REPARSE_POINT = false ∧
        ∀ k, k < 32 → k ≠ 10 → k ≠ 12 →
          out.fileAttributes.testBit k = buf.fileAttributes.testBit k) ∧
     ((cls = .fileStandardInformation ∨ cls = .fileEndOfFileInformation) →
        out.fileAttributes = buf.fileAttributes)) ∧
    Operations.queryInformationOperation false false ioStatus none cls buf = buf := by
  have hguard : ¬(ntSuccess ioStatus = false ∧ ¬ioStatus = STATUS_BUFFER_OVERFLOW) := by
    rcases hio with h | h <;> simp [h]
  have hstripOff : ∀ v : Nat, testFlag (clearFlag v LC_FILE_ATTRIBUTES) FILE_ATTRIBUTE_OFFLINE = false := by
    intro v
    have : clearFlag v LC_FILE_ATTRIBUTES &&& FILE_ATTRIBUTE_OFFLINE =
        v &&& ((0xFFFFFFFF ^^^ LC_FILE_ATTRIBUTES) &&& FILE_ATTRIBUTE_OFFLINE) := by
      rw [clearFlag, Nat.land_assoc]
    simp only [testFlag, this]
    norm_num [show ((0xFFFFFFFF ^^^ LC_FILE_ATTRIBUTES) &&& FILE_ATTRIBUTE_OFFLINE : Nat) = 0 by decide]
  have hstripRep : ∀ v : Nat, testFlag (clearFlag v LC_FILE_ATTRIBUTES) FILE_ATTRIBUTE_REPARSE_POINT = false := by
    intro v
    have : clearFlag v LC_FILE_ATTRIBUTES &&& FILE_ATTRIBUTE_REPARSE_POINT =
        v &&& ((0xFFFFFFFF ^^^ LC_FILE_ATTRIBUTES) &&& FILE_ATTRIBUTE_REPARSE_POINT) := by
      rw [clearFlag, Nat.land_assoc]
    simp only [testFlag, this]
    norm_num [show ((0xFFFFFFFF ^^^ LC_FILE_ATTRIBUTES) &&& FILE_ATTRIBUTE_REPARSE_POINT : Nat) = 0 by decide]
  have hkeep : ∀ (v k : Nat), k < 32 → k ≠ 10 → k ≠ 12 →
      (clearFlag v LC_FILE_ATTRIBUTES).testBit k = v.testBit k := by
    intro v k hk h10 h12
    rw [testBit_clearFlag v _ k hk]
    have : Nat.testBit LC_FILE_ATTRIBUTES k = (decide (k = 10) || decide (k = 12)) := by
      rw [show LC_FILE_ATTRIBUTES = 2 ^ 10 ||| 2 ^ 12 by decide, Nat.testBit_or,
        Nat.testBit_two_pow, Nat.testBit_two_pow]
      simp [eq_comm]
    simp [this, h10, h12]
  rcases hcls with h | h | h | h <;> subst h <;>
    constructor <;>
    · simp only [Operations.queryInformationOperation,
        Operations.preQueryInformationOperationCallback,
        Operations.postQueryInformationOperationCallback, if_true, if_false]
      by_cases he : buf.endOfFile = 0 <;>
        simp_all [hstripOff, hstripRep, hkeep, if_neg hguard]

/-- Witness for C5 at a concrete input: `FileAllInformation`, zero reported
end-of-file, attributes `OFFLINE | REPARSE_POINT | ARCHIVE`, remote size
`4096`. -/
theorem C5_query_information_witness :
    Operations.sizeBearingClass .fileAllInformation ∧
    (ntSuccess STATUS_SUCCESS ∨ STATUS_SUCCESS = STATUS_BUFFER_OVERFLOW) ∧
    (Operations.queryInformationOperation false false STATUS_SUCCESS (some 4096)
        .fileAllInformation { endOfFile := 0, fileAttributes := 0x1420 }).endOfFile = 4096 ∧
    (Operations.queryInformationOperation false false STATUS_SUCCESS (some 4096)
        .fileAllInformation { endOfFile := 0, fileAttributes := 0x1420 }).fileAttributes = 0x20 := by
  have h := C5_query_information .fileAllInformation (Or.inl rfl) STATUS_SUCCESS
    (Or.inl (by decide)) 4096 { endOfFile := 0, fileAttributes := 0x1420 }
  refine ⟨Or.inl rfl, Or.inl (by decide), ?_, by decide⟩
  exact h.1.1 rfl

/-! ## `FileLocks.c`: the per-file lock registry -/

namespace FileLocks

/-- ASCII upcase-to-downcase, the effect of `RtlUpcaseUnicodeChar`-based
comparison restricted to the ASCII range. -/
def lowerChar (c : Char) : Char :=
  if 'A' ≤ c ∧ c ≤ 'Z' then Char.ofNat (c.toNat + 32) else c

/-- `RtlCompareUnicodeString(a, b, TRUE) == 0`: case-insensitive equality. -/
def ciEq (a b : String) : Bool := a.data.map lowerChar == b.data.map lowerChar

/-- A `FILE_LOCK_ENTRY`. `id` models the identity (address) of the entry and
of its embedded `KEVENT`; `signaled` is the state of the event (a
`SynchronizationEvent`, i.e. auto-reset); `refCount` is the `LONG` reference
count. -/
structure FileLockEntry where
  id : Nat
  fileName : String
  signaled : Bool
  refCount : Int
deriving Repr, DecidableEq

/-- The registry: `FileLocksList` (in list order, head = most recently
inserted) plus a counter supplying fresh entry identities. -/
structure LockList where
  entries : List FileLockEntry
  nextId : Nat
deriving Repr, DecidableEq

/-- Update the first entry with the given id (entry identities are unique,
like the addresses they model). -/
def updateById (l : List FileLockEntry) (i : Nat) (f : FileLockEntry → FileLockEntry) :
    List FileLockEntry :=
  match l with
  | [] => []
  | e :: rest => if e.id = i then f e :: rest else e :: updateById rest i f

/-- Remove the first entry with the given id. -/
def removeById (l : List FileLockEntry) (i : Nat) : List FileLockEntry :=
  match l with
  | [] => []
  | e :: rest => if e.id = i then rest else e :: removeById rest i

/-- `FileLocks.c`, `LcGetFileLock` (happy path of the allocator): look for an
entry with the same file name (case-insensitively); if none exists, create
one with the event initialized signaled (`KeInitializeEvent(..., TRUE)`) and
`RefCount = 0` and insert it at the head (`InsertHeadList`); then increment
`RefCount` and return (the identity of) the entry's event. -/
def lcGetFileLock (locks : LockList) (fileName : String) : LockList × Nat :=
  match locks.entries.find? (fun e => ciEq fileName e.fileName) with
  | some e =>
    ({ locks with entries := (updateById locks.entries e.id
        (fun x => { x with refCount := x.refCount + 1 })) }, e.id)
  | none =>
    let fresh : FileLockEntry :=
      { id := locks.nextId, fileName := fileName, signaled := true, refCount := 0 }
    ({ entries := { fresh with refCount := fresh.refCount + 1 } :: locks.entries,
       nextId := locks.nextId + 1 }, fresh.id)

/-- `FileLocks.c`, `LcReleaseFileLock`: find the entry owning the given event
(by identity); decrement its `RefCount`; if the count is now `<= 0`, remove
and free the entry, otherwise set the event to the signaled state. An event
that matches no entry is ignored. -/
def lcReleaseFileLock (locks : LockList) (event : Nat) : LockList :=
  match locks.entries.find? (fun e => e.id == event) with
  | none => locks
  | some e =>
    if e.refCount - 1 ≤ 0 then
      { locks with entries := removeById locks.entries e.id }
    else
      { locks with entries := (updateById locks.entries e.id
          (fun x => { x with refCount := x.refCount - 1, signaled := true })) }

end FileLocks

/-- C3: the acquire/release contract of the per-file lock registry.

Acquire: when no entry exists for the path (case-insensitively), a new entry
is created whose event is initially signaled and whose refcount is 0; the
refcount is then incremented (so the entry is stored with refcount 1) and
the new entry's event is returned. When an entry exists, its refcount is
incremented, the rest of the registry is unchanged, and its event is
returned.

Release: the matching entry's refcount is decremented; the entry is removed
exactly when the refcount reaches zero, and otherwise the event is set to
the signaled state (refcount and name preserved). -/
theorem C3_file_lock_registry (locks : FileLocks.LockList) (fileName : String) :
    (locks.entries.find? (fun e => FileLocks.ciEq fileName e.fileName) = none →
      FileLocks.lcGetFileLock locks fileName =
        ({ entries :=
             { id := locks.nextId, fileName := fileName, signaled := true, refCount := 0 + 1 } ::
               locks.entries,
           nextId := locks.nextId + 1 }, locks.nextId)) ∧
    (∀ e, locks.entries.find? (fun x => FileLocks.ciEq fileName x.fileName) = some e →
      FileLocks.lcGetFileLock locks fileName =
        ({ locks with entries := (FileLocks.updateById locks.entries e.id
            (fun x => { x with refCount := x.refCount + 1 })) }, e.id)) ∧
    (∀ ev e, locks.entries.find? (fun x => x.id == ev) = some e →
      (e.refCount = 1 →
        FileLocks.lcReleaseFileLock locks ev =
          { locks with entries := FileLocks.removeById locks.entries e.id }) ∧
      (1 < e.refCount →
        FileLocks.lcReleaseFileLock locks ev =
          { locks with entries := (FileLocks.updateById locks.entries e.id
              (fun x => { x with refCount := x.refCount - 1, signaled := true })) })) := by
  refine ⟨fun hnone => ?_, fun e hsome => ?_, fun ev e hfind => ⟨fun h1 => ?_, fun hgt => ?_⟩⟩
  · simp [FileLocks.lcGetFileLock, hnone]
  · simp [FileLocks.lcGetFileLock, hsome]
  · simp [FileLocks.lcReleaseFileLock, hfind, h1]
  · rw [FileLocks.lcReleaseFileLock, hfind]
    have : ¬(e.refCount - 1 ≤ 0) := by omega
    simp [this]

/-- Witness for C3 at a concrete registry: one entry for `"\\v\\b.bin"` with
refcount 2 and id 7; acquiring `"\\v\\a.bin"` creates a fresh signaled entry
with refcount 1; releasing event 7 keeps the entry, decremented and
signaled. -/
theorem C3_file_lock_registry_witness :
    (FileLocks.lcGetFileLock
        { entries := [{ id := 7, fileName := "\\v\\b.bin", signaled := false, refCount := 2 }],
          nextId := 8 } "\\v\\a.bin" =
      ({ entries :=
           [{ id := 8, fileName := "\\v\\a.bin", signaled := true, refCount := 0 + 1 },
            { id := 7, fileName := "\\v\\b.bin", signaled := false, refCount := 2 }],
         nextId := 9 }, 8)) ∧
    (FileLocks.lcReleaseFileLock
        { entries := [{ id := 7, fileName := "\\v\\b.bin", signaled := false, refCount := 2 }],
          nextId := 8 } 7 =
      { entries := [{ id := 7, fileName := "\\v\\b.bin", signaled := true, refCount := 1 }],
        nextId := 8 }) := by
  constructor
  · have h := (C3_file_lock_registry
      { entries := [{ id := 7, fileName := "\\v\\b.bin", signaled := false, refCount := 2 }],
        nextId := 8 } "\\v\\a.bin").1 (by decide)
    rw [h]
  · have h := ((C3_file_lock_registry
      { entries := [{ id := 7, fileName := "\\v\\b.bin", signaled := false, refCount := 2 }],
        nextId := 8 } "\\v\\a.bin").2.2 7
      { id := 7, fileName := "\\v\\b.bin", signaled := false, refCount := 2 }
      (by decide)).2 (by decide)
    rw [h]
    decide

/-! ## `Configuration.c` / `Communication.c`: watch paths and `SetWatchPaths` -/

namespace Config

/-- Wide characters (`WCHAR`) as their numeric values. A watched path is a
nul-free list of wide characters. -/
abbrev WString := List Nat

/-- The backslash path separator. -/
def pathSeparator : Nat := 92

/-- ASCII-range case folding of `RtlPrefixUnicodeString(..., TRUE)` and
friends, on numeric wide characters. -/
def lowerW (c : Nat) : Nat := if 65 ≤ c ∧ c ≤ 90 then c + 32 else c

/-- Boolean list-prefix test. -/
def listPrefix : List Nat → List Nat → Bool
  | [], _ => true
  | _ :: _, [] => false
  | a :: as, b :: bs => a = b && listPrefix as bs

/-- `Configuration.c`, `LcValidatePath`: the path must be nonempty and its
last path separator must be the last character of the string (for the
nul-terminated strings built by `RtlInitUnicodeStringEx` this is exactly
"the string ends with the separator"). -/
def lcValidatePath (s : WString) : Bool :=
  s ≠ [] ∧ s.getLast? = some pathSeparator

/-- `Configuration.c`, `LcIsPathWatched`: some entry of the watch list is a
case-insensitive prefix of the path. -/
def lcIsPathWatched (paths : List WString) (p : WString) : Bool :=
  paths.any (fun e => listPrefix (e.map lowerW) (p.map lowerW))

/-- `Configuration.c`, `LcAddPathToWatch`: validate the path; if it (or a
prefix of it) is already watched, do nothing; otherwise insert a copy at the
head of the list (`InsertHeadList`). `allocOk` models the two allocations
(`LcAllocateNonPagedBuffer` / `LcCopyUnicodeString`) succeeding. -/
def lcAddPathToWatch (allocOk : Bool) (paths : List WString) (p : WString) :
    NtStatus × List WString :=
  if ¬lcValidatePath p then (STATUS_INVALID_PARAMETER_1, paths)
  else if lcIsPathWatched paths p then (STATUS_SUCCESS, paths)
  else if ¬allocOk then (STATUS_INSUFFICIENT_RESOURCES, paths)
  else (STATUS_SUCCESS, p :: paths)

/-- `Configuration.c`, `LcClearPathsToWatch`. -/
def lcClearPathsToWatch (_paths : List WString) : List WString := []

/-- The `WATCH_PATHS` input buffer of the `SetWatchPaths` command:
`PathCount` followed by packed nul-terminated wide strings. `mem` is the
memory starting at the `Data` field; `inputBufferSize` is the byte size of
the whole buffer (the `PathCount` `ULONG` is 4 bytes:
`FIELD_OFFSET(WATCH_PATHS, Data) = 4`). -/
structure WirePaths where
  pathCount : Nat
  inputBufferSize : Nat
  mem : List Nat
deriving Repr, DecidableEq

/-- `wcslen` at a wide-character offset of the buffer memory. -/
def wcslenAt (mem : List Nat) (off : Nat) : Nat :=
  ((mem.drop off).takeWhile (· ≠ 0)).length

/-- The nul-terminated string at a wide-character offset. -/
def stringAt (mem : List Nat) (off : Nat) : WString :=
  (mem.drop off).takeWhile (· ≠ 0)

/-- The loop of `LcSetWatchPathsHandler`: for each of the `count` remaining
declared paths, measure the string at `off`, check it fits inside the input
buffer (`bufferEnd >= buffer + (len + 1) * sizeof(WCHAR)`), add it to the
watch list, and advance past its terminator. Any failure leaves immediately
with the watch list as accumulated so far. -/
def setWatchPathsLoop (w : WirePaths) (allocOk : Nat → Bool) :
    Nat → Nat → Nat → List WString → NtStatus × List WString
  | _idx, _off, 0, paths => (STATUS_SUCCESS, paths)
  | idx, off, count + 1, paths =>
    let len := wcslenAt w.mem off
    if ¬(4 + 2 * (off + len + 1) ≤ w.inputBufferSize) then
      (STATUS_INVALID_BUFFER_SIZE, paths)
    else
      match lcAddPathToWatch (allocOk idx) paths (stringAt w.mem off) with
      | (st, paths2) =>
        if ¬ntSuccess st then (st, paths2)
        else setWatchPathsLoop w allocOk (idx + 1) (off + len + 1) count paths2

/-- `Communication.c`, `LcSetWatchPathsHandler`: reject a buffer that cannot
hold `PathCount`; otherwise clear the previous watch list
(`LcClearPathsToWatch`) and repopulate it entry by entry. -/
def lcSetWatchPathsHandler (oldPaths : List WString) (w : WirePaths)
    (allocOk : Nat → Bool) : NtStatus × List WString :=
  if w.inputBufferSize < 4 then (STATUS_INVALID_PARAMETER_2, oldPaths)
  else setWatchPathsLoop w allocOk 0 0 w.pathCount (lcClearPathsToWatch oldPaths)

/-- Specification-side view: the declared strings of the wire buffer, in
order. -/
def parsedStrings (mem : List Nat) (off : Nat) : Nat → List WString
  | 0 => []
  | count + 1 =>
    stringAt mem off :: parsedStrings mem (off + wcslenAt mem off + 1) count

/-- Specification-side view: add a list of paths to an empty watch list,
left to right, ignoring failures. -/
def addAll (allocOk : Nat → Bool) (idx : Nat) (paths : List WString) :
    List WString → List WString
  | [] => paths
  | s :: rest => addAll allocOk (idx + 1) (lcAddPathToWatch (allocOk idx) paths s).2 rest

/-- The loop result's path list is always the fold of some prefix of the
declared strings over the empty-start accumulator, and the whole input is
consumed exactly on success. -/
theorem setWatchPathsLoop_prefix (w : WirePaths) (allocOk : Nat → Bool) :
    ∀ count idx off paths,
      ∃ k ≤ count,
        (setWatchPathsLoop w allocOk idx off count paths).2 =
          addAll allocOk idx paths ((parsedStrings w.mem off count).take k) ∧
        (ntSuccess (setWatchPathsLoop w allocOk idx off count paths).1 → k = count) := by
  intro count
  induction count with
  | zero =>
    intro idx off paths
    exact ⟨0, le_refl 0, rfl, fun _ => rfl⟩
  | succ n ih =>
    intro idx off paths
    rw [setWatchPathsLoop]
    by_cases hfit : ¬(4 + 2 * (off + wcslenAt w.mem off + 1) ≤ w.inputBufferSize)
    · refine ⟨0, Nat.zero_le _, ?_, ?_⟩
      · simp [hfit, addAll]
      · simp [hfit, ntSuccess, STATUS_INVALID_BUFFER_SIZE]
    · by_cases hst : ntSuccess (lcAddPathToWatch (allocOk idx) paths (stringAt w.mem off)).1
      · obtain ⟨k, hk, heq, hsucc⟩ := ih (idx + 1) (off + wcslenAt w.mem off + 1)
          (lcAddPathToWatch (allocOk idx) paths (stringAt w.mem off)).2
        refine ⟨k + 1, by omega, ?_, ?_⟩
        · simp only [hfit, if_false, hst]
          simp only [parsedStrings, List.take_succ_cons, addAll]
          simpa using heq
        · intro hs
          simp only [hfit, if_false, hst] at hs
          have := hsucc (by simpa using hs)
          omega
      · refine ⟨1, by omega, ?_, ?_⟩
        · simp only [hfit, if_false, hst]
          simp [parsedStrings, addAll, hst]
        · intro hs
          simp only [hfit, if_false, hst] at hs
          simp_all

end Config

/-- C9: the `SetWatchPaths` command is not atomic on error. Once the input
buffer is large enough to hold the path count (the only precondition checked
before any mutation), the handler clears the entire previous watched-path
set before adding anything — the outcome, status and final list alike, is
independent of the previous set — and each new path is validated only as it
is added: the final watched-path set is the left-to-right fold of a prefix
of the declared path list over the empty set, the whole list being consumed
exactly when the handler succeeds. On failure the error status is returned
with exactly the successfully added prefix in place and none of the
previously watched paths restored. -/
theorem C9_set_watch_paths_not_atomic (oldPaths : List Config.WString)
    (w : Config.WirePaths) (allocOk : Nat → Bool) (hsize : 4 ≤ w.inputBufferSize) :
    Config.lcSetWatchPathsHandler oldPaths w allocOk =
      Config.lcSetWatchPathsHandler [] w allocOk ∧
    ∃ k ≤ w.pathCount,
      (Config.lcSetWatchPathsHandler oldPaths w allocOk).2 =
        Config.addAll allocOk 0 []
          ((Config.parsedStrings w.mem 0 w.pathCount).take k) ∧
      (ntSuccess (Config.lcSetWatchPathsHandler oldPaths w allocOk).1 →
        k = w.pathCount) := by
  have hge : ¬w.inputBufferSize < 4 := by omega
  constructor
  · rw [Config.lcSetWatchPathsHandler, Config.lcSetWatchPathsHandler, if_neg hge, if_neg hge]
    rfl
  · obtain ⟨k, hk, heq, hsucc⟩ :=
      Config.setWatchPathsLoop_prefix w allocOk w.pathCount 0 0
        (Config.lcClearPathsToWatch oldPaths)
    refine ⟨k, hk, ?_, ?_⟩
    · rw [Config.lcSetWatchPathsHandler, if_neg hge]
      exact heq
    · rw [Config.lcSetWatchPathsHandler, if_neg hge]
      exact hsucc

/-- Witness for C9: previous set `{"\\q\\"}`; the new list declares the paths
`"\\a\\"` and `"bad"` (`[92,97,92]` and `[98,97,100]`, the second not ending
with a separator). The handler fails with `STATUS_INVALID_PARAMETER_1` and
leaves exactly `{"\\a\\"}` — the successfully added prefix — with the old
entry gone. -/
theorem C9_set_watch_paths_not_atomic_witness :
    Config.lcSetWatchPathsHandler [[92, 113, 92]]
        { pathCount := 2, inputBufferSize := 20, mem := [92, 97, 92, 0, 98, 97, 100, 0] }
        (fun _ => true) =
      (STATUS_INVALID_PARAMETER_1, [[92, 97, 92]]) ∧
    4 ≤ (20 : Nat) ∧
    Config.lcSetWatchPathsHandler [[92, 113, 92]]
        { pathCount := 2, inputBufferSize := 20, mem := [92, 97, 92, 0, 98, 97, 100, 0] }
        (fun _ => true) =
      Config.lcSetWatchPathsHandler []
        { pathCount := 2, inputBufferSize := 20, mem := [92, 97, 92, 0, 98, 97, 100, 0] }
        (fun _ => true) := by
  refine ⟨by decide, by decide, ?_⟩
  exact (C9_set_watch_paths_not_atomic [[92, 113, 92]]
    { pathCount := 2, inputBufferSize := 20, mem := [92, 97, 92, 0, 98, 97, 100, 0] }
    (fun _ => true) (by decide)).1

/-! ## `Operations.c`: `PostCreateOperationCallback` -/

namespace Operations

-- `Data->IoStatus.Information` dispositions checked by the callback.
def FILE_SUPERSEDED : Nat := 0
def FILE_CREATED : Nat := 2
def FILE_OVERWRITTEN : Nat := 3

-- `DRIVER_OPERATION_MODE` bits (`Configuration.h`).
def FetchEnabled : Nat := 1
def WatchEnabled : Nat := 2

/-- The environment of one `PostCreateOperationCallback` invocation (with a
completion context from the pre callback, as scheduled): the completed
create's results, the configuration snapshot, and the statuses the called
helpers would return.

`ioInformation` is the `Data->IoStatus.Information` value observed at the
created/overwritten/superseded check (after a re-issue, the re-issued one).
`needsReissue` is whether the create options and sharing differ from the
canonical `DefaultCreateOptions`/`DefaultShareAccess` set, in which case the
open is re-issued and `reissueStatus` is its resulting
`Data->IoStatus.Status`. -/
structure CreateEnv where
  draining : Bool
  ioStatus : NtStatus
  ioInformation : Nat
  deletePending : Bool
  tagData : Option Nat
  operationMode : Nat
  defaultStream : Bool
  needsReissue : Bool
  reissueStatus : NtStatus
  untagStatus : NtStatus
  reparseDataStatus : NtStatus
  findOrCreateStatus : NtStatus
  contextCreated : Bool
deriving Repr, DecidableEq

/-- What the caller of the create observes after the post callback: whether
`FltCancelFileOpen` was invoked, and the final `Data->IoStatus` pair. -/
structure CreateOut where
  cancelled : Bool
  ioStatus : NtStatus
  ioInformation : Nat
deriving Repr, DecidableEq

/-- The `status` local variable at the end of the `__try` body of
`PostCreateOperationCallback`: each `__leave` path recorded in order. -/
def postCreateBodyStatus (e : CreateEnv) : NtStatus :=
  if e.draining ∨ ¬ntSuccess e.ioStatus ∨ e.deletePending then STATUS_SUCCESS
  else if e.ioStatus ≠ STATUS_REPARSE ∨ e.tagData ≠ some LC_REPARSE_TAG then STATUS_SUCCESS
  else if ¬testFlag e.operationMode FetchEnabled then STATUS_SUCCESS
  else if ¬e.defaultStream then STATUS_SUCCESS
  else if e.needsReissue ∧ ¬ntSuccess e.reissueStatus then e.reissueStatus
  else if e.ioInformation = FILE_CREATED ∨ e.ioInformation = FILE_OVERWRITTEN ∨
      e.ioInformation = FILE_SUPERSEDED then e.untagStatus
  else if ¬ntSuccess e.reparseDataStatus then e.reparseDataStatus
  else e.findOrCreateStatus

/-- `Operations.c`, `PostCreateOperationCallback`: run the body; in the
`__finally` block, when the body's status is a failure other than
`STATUS_NOT_A_REPARSE_POINT`, cancel the file open (`FltCancelFileOpen`) and
fail the create with that status and an information value of zero. -/
def postCreateOperationCallback (e : CreateEnv) : CreateOut :=
  let status := postCreateBodyStatus e
  if ¬ntSuccess status ∧ status ≠ STATUS_NOT_A_REPARSE_POINT then
    { cancelled := true, ioStatus := status, ioInformation := 0 }
  else
    { cancelled := false, ioStatus := e.ioStatus, ioInformation := e.ioInformation }

/-- The guards under which the interesting part of the post-create body runs:
the create completed successfully with our reparse tag, fetching is enabled,
the default stream was opened, and the callback is not draining. -/
def postCreateReachesSteps (e : CreateEnv) : Prop :=
  e.draining = false ∧ ntSuccess e.ioStatus = true ∧ e.deletePending = false ∧
  e.ioStatus = STATUS_REPARSE ∧ e.tagData = some LC_REPARSE_TAG ∧
  testFlag e.operationMode FetchEnabled = true ∧ e.defaultStream = true

/-- "One of the four post-create steps fails with status `s`": the re-issued
open, the untagging of a created/overwritten/superseded file, the read of
the reparse-point data, or the attach of the stream context; each taken with
the guards that make the callback reach that step. -/
def postCreateStepFails (e : CreateEnv) (s : NtStatus) : Prop :=
  postCreateReachesSteps e ∧
  ((e.needsReissue = true ∧ s = e.reissueStatus) ∨
   ((e.needsReissue = true → ntSuccess e.reissueStatus = true) ∧
    (e.ioInformation = FILE_CREATED ∨ e.ioInformation = FILE_OVERWRITTEN ∨
     e.ioInformation = FILE_SUPERSEDED) ∧
    s = e.untagStatus) ∨
   ((e.needsReissue = true → ntSuccess e.reissueStatus = true) ∧
    ¬(e.ioInformation = FILE_CREATED ∨ e.ioInformation = FILE_OVERWRITTEN ∨
      e.ioInformation = FILE_SUPERSEDED) ∧
    (s = e.reparseDataStatus ∨
     (ntSuccess e.reparseDataStatus = true ∧ s = e.findOrCreateStatus))))

end Operations

/-- C10: if, after an open that hit this driver's reparse tag, any of the
post-create steps (re-issuing the open with the canonical flags, untagging a
created/overwritten/superseded file, reading the reparse-point data, or
attaching the stream context) fails with a status other than
`STATUS_NOT_A_REPARSE_POINT`, the driver cancels the file open and the
caller's create fails with that same status and an information value of
zero. -/
theorem C10_post_create_cancels_on_error (e : Operations.CreateEnv) (s : NtStatus)
    (hfail : Operations.postCreateStepFails e s) (herr : ntSuccess s = false)
    (hnrp : s ≠ STATUS_NOT_A_REPARSE_POINT) :
    Operations.postCreateOperationCallback e =
      { cancelled := true, ioStatus := s, ioInformation := 0 } := by
  obtain ⟨⟨hd, hio, hdp, hrep, htag, hmode, hstream⟩, hcase⟩ := hfail
  have hbody : Operations.postCreateBodyStatus e = s := by
    rw [Operations.postCreateBodyStatus]
    rw [if_neg (by simp [hd, hio, hdp])]
    rw [if_neg (by simp [hrep, htag])]
    rw [if_neg (by simp [hmode])]
    rw [if_neg (by simp [hstream])]
    rcases hcase with ⟨hre, hs⟩ | ⟨hre, hinfo, hs⟩ | ⟨hre, hinfo, hs⟩
    · rw [if_pos ⟨hre, by rw [← hs]; simp [herr]⟩, hs]
    · rw [if_neg ?_, if_pos hinfo, hs]
      intro ⟨h1, h2⟩
      exact absurd (hre h1) (by simp [h2])
    · rw [if_neg ?_, if_neg hinfo]
      · rcases hs with hs | ⟨hrd, hs⟩
        · rw [if_pos (by rw [← hs]; simp [herr]), hs]
        · rw [if_neg (by simp [hrd]), hs]
      · intro ⟨h1, h2⟩
        exact absurd (hre h1) (by simp [h2])
  rw [Operations.postCreateOperationCallback, hbody, if_pos ⟨by simp [herr], hnrp⟩]

/-- Witness for C10: a reparse-tagged create whose reparse-point data read
fails with `STATUS_IO_REPARSE_DATA_INVALID` is cancelled with that status. -/
theorem C10_post_create_cancels_on_error_witness :
    Operations.postCreateOperationCallback
        { draining := false, ioStatus := STATUS_REPARSE, ioInformation := 1,
          deletePending := false, tagData := some LC_REPARSE_TAG,
          operationMode := 1, defaultStream := true, needsReissue := true,
          reissueStatus := STATUS_REPARSE, untagStatus := STATUS_SUCCESS,
          reparseDataStatus := STATUS_IO_REPARSE_DATA_INVALID,
          findOrCreateStatus := STATUS_SUCCESS, contextCreated := true } =
      { cancelled := true, ioStatus := STATUS_IO_REPARSE_DATA_INVALID,
        ioInformation := 0 } := by
  apply C10_post_create_cancels_on_error _ STATUS_IO_REPARSE_DATA_INVALID
  · exact ⟨⟨rfl, by decide, rfl, rfl, rfl, by decide, rfl⟩,
      Or.inr (Or.inr ⟨fun _ => by decide, by decide, Or.inl rfl⟩)⟩
  · decide
  · decide

/-! ## Helper lemmas about `updateById` / `removeById` / `List.set` counts -/

namespace FileLocks

/-- Entry identities (modelled addresses) are pairwise distinct. -/
def IdsNodup (l : List FileLockEntry) : Prop := (l.map (·.id)).Nodup

theorem countP_set {α : Type _} (l : List α) (i : Nat) (a t : α) (p : α → Bool)
    (hget : l[i]? = some t) :
    (l.set i a).countP p + (if p t then 1 else 0) =
      l.countP p + (if p a then 1 else 0) := by
  induction l generalizing i with
  | nil => simp at hget
  | cons x rest ih =>
    cases i with
    | zero =>
      simp only [List.getElem?_cons_zero, Option.some.injEq] at hget
      subst hget
      simp only [List.set_cons_zero, List.countP_cons]
      omega
    | succ n =>
      simp only [List.getElem?_cons_succ] at hget
      simp only [List.set_cons_succ, List.countP_cons]
      have := ih n hget
      omega

theorem mem_set_elim {α : Type _} {l : List α} {i : Nat} {a x : α}
    (hx : x ∈ l.set i a) : x = a ∨ x ∈ l := by
  induction l generalizing i with
  | nil => simp at hx
  | cons y rest ih =>
    cases i with
    | zero =>
      rcases List.mem_cons.mp hx with h | h
      · exact Or.inl h
      · exact Or.inr (List.mem_cons_of_mem _ h)
    | succ n =>
      rcases List.mem_cons.mp hx with h | h
      · exact Or.inr (h ▸ List.mem_cons_self _ _)
      · rcases ih h with h | h
        · exact Or.inl h
        · exact Or.inr (List.mem_cons_of_mem _ h)

theorem getElem?_mem {α : Type _} {l : List α} {i : Nat} {t : α}
    (h : l[i]? = some t) : t ∈ l := by
  induction l generalizing i with
  | nil => simp at h
  | cons x rest ih =>
    cases i with
    | zero =>
      simp only [List.getElem?_cons_zero, Option.some.injEq] at h
      exact h ▸ List.mem_cons_self _ _
    | succ n =>
      simp only [List.getElem?_cons_succ] at h
      exact List.mem_cons_of_mem _ (ih h)

theorem countP_updateById (l : List FileLockEntry) (e : FileLockEntry)
    (f : FileLockEntry → FileLockEntry) (p : FileLockEntry → Bool)
    (hnd : IdsNodup l) (he : e ∈ l) :
    (updateById l e.id f).countP p + (if p e then 1 else 0) =
      l.countP p + (if p (f e) then 1 else 0) := by
  induction l with
  | nil => simp at he
  | cons x rest ih =>
    rw [IdsNodup, List.map_cons, List.nodup_cons] at hnd
    by_cases hx : x.id = e.id
    · have hxe : x = e := by
        rcases List.mem_cons.mp he with h | h
        · exact h.symm
        · exact absurd (hx ▸ List.mem_map_of_mem (·.id) h) hnd.1
      rw [updateById, if_pos hx, hxe]
      simp only [List.countP_cons]
      omega
    · have he' : e ∈ rest := by
        rcases List.mem_cons.mp he with h | h
        · exact absurd (h ▸ rfl) hx
        · exact h
      rw [updateById, if_neg hx]
      simp only [List.countP_cons]
      have := ih hnd.2 he'
      omega

theorem countP_removeById (l : List FileLockEntry) (e : FileLockEntry)
    (p : FileLockEntry → Bool) (hnd : IdsNodup l) (he : e ∈ l) :
    (removeById l e.id).countP p + (if p e then 1 else 0) = l.countP p := by
  induction l with
  | nil => simp at he
  | cons x rest ih =>
    rw [IdsNodup, List.map_cons, List.nodup_cons] at hnd
    by_cases hx : x.id = e.id
    · have hxe : x = e := by
        rcases List.mem_cons.mp he with h | h
        · exact h.symm
        · exact absurd (hx ▸ List.mem_map_of_mem (·.id) h) hnd.1
      rw [removeById, if_pos hx, hxe]
      simp only [List.countP_cons]
    · have he' : e ∈ rest := by
        rcases List.mem_cons.mp he with h | h
        · exact absurd (h ▸ rfl) hx
        · exact h
      rw [removeById, if_neg hx]
      simp only [List.countP_cons]
      have := ih hnd.2 he'
      omega

theorem removeById_sublist (l : List FileLockEntry) (i : Nat) :
    (removeById l i).Sublist l := by
  induction l with
  | nil => simp [removeById]
  | cons x rest ih =>
    rw [removeById]
    by_cases hx : x.id = i
    · simp only [hx, if_true]
      exact (List.sublist_cons_self x rest)
    · simp only [hx, if_false]
      exact List.Sublist.cons₂ x ih

theorem map_updateById {β : Type _} (l : List FileLockEntry) (i : Nat)
    (f : FileLockEntry → FileLockEntry) (g : FileLockEntry → β)
    (hg : ∀ e, g (f e) = g e) :
    (updateById l i f).map g = l.map g := by
  induction l with
  | nil => rfl
  | cons x rest ih =>
    rw [updateById]
    by_cases hx : x.id = i
    · simp [hx, hg]
    · simp [hx, ih]

theorem mem_updateById_elim {l : List FileLockEntry} {i : Nat}
    {f : FileLockEntry → FileLockEntry} {x : FileLockEntry}
    (hx : x ∈ updateById l i f) : x ∈ l ∨ ∃ y ∈ l, y.id = i ∧ x = f y := by
  induction l with
  | nil => simp [updateById] at hx
  | cons y rest ih =>
    rw [updateById] at hx
    by_cases hy : y.id = i
    · simp only [hy, if_true] at hx
      rcases List.mem_cons.mp hx with h | h
      · exact Or.inr ⟨y, List.mem_cons_self _ _, hy, h⟩
      · exact Or.inl (List.mem_cons_of_mem _ h)
    · simp only [hy, if_false] at hx
      rcases List.mem_cons.mp hx with h | h
      · exact Or.inl (h ▸ List.mem_cons_self _ _)
      · rcases ih h with h | ⟨z, hz, hzi, hzf⟩
        · exact Or.inl (List.mem_cons_of_mem _ h)
        · exact Or.inr ⟨z, List.mem_cons_of_mem _ hz, hzi, hzf⟩

theorem mem_updateById_self {l : List FileLockEntry} {e : FileLockEntry}
    {f : FileLockEntry → FileLockEntry} (hnd : IdsNodup l) (he : e ∈ l) :
    f e ∈ updateById l e.id f := by
  induction l with
  | nil => simp at he
  | cons x rest ih =>
    rw [IdsNodup, List.map_cons, List.nodup_cons] at hnd
    rw [updateById]
    by_cases hx : x.id = e.id
    · have hxe : x = e := by
        rcases List.mem_cons.mp he with h | h
        · exact h.symm
        · exact absurd (hx ▸ List.mem_map_of_mem (·.id) h) hnd.1
      simp [hx, hxe]
    · have he' : e ∈ rest := by
        rcases List.mem_cons.mp he with h | h
        · exact absurd (h ▸ rfl) hx
        · exact h
      simp only [hx, if_false]
      exact List.mem_cons_of_mem _ (ih hnd.2 he')

theorem mem_updateById_of_ne {l : List FileLockEntry} {i : Nat}
    {f : FileLockEntry → FileLockEntry} {x : FileLockEntry}
    (hx : x ∈ l) (hne : x.id ≠ i) : x ∈ updateById l i f := by
  induction l with
  | nil => simp at hx
  | cons y rest ih =>
    rw [updateById]
    rcases List.mem_cons.mp hx with h | h
    · subst h
      simp [hne]
    · by_cases hy : y.id = i
      · simp only [hy, if_true]
        exact List.mem_cons_of_mem _ h
      · simp only [hy, if_false]
        exact List.mem_cons_of_mem _ (ih h)

theorem countP_set_eq {α : Type _} (l : List α) (i : Nat) (a t : α) (p : α → Bool)
    (hget : l[i]? = some t) (hp : p a = p t) :
    (l.set i a).countP p = l.countP p := by
  have := countP_set l i a t p hget
  rw [hp] at this
  omega

theorem countP_set_add {α : Type _} (l : List α) (i : Nat) (a t : α) (p : α → Bool)
    (hget : l[i]? = some t) (hpt : p t = false) (hpa : p a = true) :
    (l.set i a).countP p = l.countP p + 1 := by
  have := countP_set l i a t p hget
  rw [hpt, hpa] at this
  simp at this
  omega

theorem countP_set_sub {α : Type _} (l : List α) (i : Nat) (a t : α) (p : α → Bool)
    (hget : l[i]? = some t) (hpt : p t = true) (hpa : p a = false) :
    (l.set i a).countP p + 1 = l.countP p := by
  have := countP_set l i a t p hget
  rw [hpt, hpa] at this
  simp at this
  omega

theorem mem_updateById_elim_nodup {l : List FileLockEntry} {e : FileLockEntry}
    {f : FileLockEntry → FileLockEntry} {x : FileLockEntry}
    (hnd : IdsNodup l) (he : e ∈ l) (hx : x ∈ updateById l e.id f) :
    x = f e ∨ (x ∈ l ∧ x.id ≠ e.id) := by
  induction l with
  | nil => simp at he
  | cons y rest ih =>
    rw [IdsNodup, List.map_cons, List.nodup_cons] at hnd
    rw [updateById] at hx
    by_cases hy : y.id = e.id
    · have hye : y = e := by
        rcases List.mem_cons.mp he with h | h
        · exact h.symm
        · exact absurd (hy ▸ List.mem_map_of_mem (·.id) h) hnd.1
      simp only [hy, if_true] at hx
      rcases List.mem_cons.mp hx with h | h
      · exact Or.inl (hye ▸ h)
      · refine Or.inr ⟨List.mem_cons_of_mem _ h, fun hc => ?_⟩
        have hmem : x.id ∈ List.map (fun z => z.id) rest := List.mem_map_of_mem _ h
        rw [hc, ← hye] at hmem
        exact hnd.1 hmem
    · have he' : e ∈ rest := by
        rcases List.mem_cons.mp he with h | h
        · exact absurd (h ▸ rfl) hy
        · exact h
      simp only [hy, if_false] at hx
      rcases List.mem_cons.mp hx with h | h
      · exact Or.inr ⟨h ▸ List.mem_cons_self _ _, h ▸ hy⟩
      · rcases ih hnd.2 he' h with h | ⟨hm, hne⟩
        · exact Or.inl h
        · exact Or.inr ⟨List.mem_cons_of_mem _ hm, hne⟩

theorem mem_removeById_elim_nodup {l : List FileLockEntry} {e : FileLockEntry}
    {x : FileLockEntry} (hnd : IdsNodup l) (he : e ∈ l)
    (hx : x ∈ removeById l e.id) : x ∈ l ∧ x.id ≠ e.id := by
  induction l with
  | nil => simp at he
  | cons y rest ih =>
    rw [IdsNodup, List.map_cons, List.nodup_cons] at hnd
    rw [removeById] at hx
    by_cases hy : y.id = e.id
    · have hye : y = e := by
        rcases List.mem_cons.mp he with h | h
        · exact h.symm
        · exact absurd (hy ▸ List.mem_map_of_mem (·.id) h) hnd.1
      simp only [hy, if_true] at hx
      refine ⟨List.mem_cons_of_mem _ hx, fun hc => ?_⟩
      have hmem : x.id ∈ List.map (fun z => z.id) rest := List.mem_map_of_mem _ hx
      rw [hc, ← hye] at hmem
      exact hnd.1 hmem
    · have he' : e ∈ rest := by
        rcases List.mem_cons.mp he with h | h
        · exact absurd (h ▸ rfl) hy
        · exact h
      simp only [hy, if_false] at hx
      rcases List.mem_cons.mp hx with h | h
      · exact ⟨h ▸ List.mem_cons_self _ _, h ▸ hy⟩
      · obtain ⟨hm, hne⟩ := ih hnd.2 he' h
        exact ⟨List.mem_cons_of_mem _ hm, hne⟩

theorem two_le_countP_of_mem_set {α : Type _} {l : List α} {i : Nat} {t a x : α}
    {p : α → Bool} (hget : l[i]? = some t) (hx : x ∈ l.set i a) (hxa : x ≠ a)
    (hpt : p t = true) (hpx : p x = true) : 2 ≤ l.countP p := by
  induction l generalizing i with
  | nil => simp at hget
  | cons y rest ih =>
    cases i with
    | zero =>
      simp only [List.getElem?_cons_zero, Option.some.injEq] at hget
      subst hget
      rw [List.set_cons_zero] at hx
      have hxr : x ∈ rest := by
        rcases List.mem_cons.mp hx with h | h
        · exact absurd h hxa
        · exact h
      have h1 : 0 < rest.countP p := List.countP_pos_iff.mpr ⟨x, hxr, hpx⟩
      rw [List.countP_cons, if_pos hpt]
      omega
    | succ n =>
      simp only [List.getElem?_cons_succ] at hget
      rw [List.set_cons_succ] at hx
      rcases List.mem_cons.mp hx with h | h
      · have h1 : 0 < rest.countP p :=
          List.countP_pos_iff.mpr ⟨t, getElem?_mem hget, hpt⟩
        rw [List.countP_cons, if_pos (h ▸ hpx)]
        omega
      · have := ih hget h
        rw [List.countP_cons]
        omega

theorem mem_removeById_of_ne {l : List FileLockEntry} {i : Nat} {x : FileLockEntry}
    (hx : x ∈ l) (hne : x.id ≠ i) : x ∈ removeById l i := by
  induction l with
  | nil => simp at hx
  | cons y rest ih =>
    rw [removeById]
    rcases List.mem_cons.mp hx with h | h
    · subst h
      simp [hne]
    · by_cases hy : y.id = i
      · simp only [hy, if_true]
        exact h
      · simp only [hy, if_false]
        exact List.mem_cons_of_mem _ (ih h)

theorem find?_id_of_nodup {l : List FileLockEntry} {e : FileLockEntry}
    (hnd : IdsNodup l) (he : e ∈ l) :
    l.find? (fun x => x.id == e.id) = some e := by
  induction l with
  | nil => simp at he
  | cons x rest ih =>
    rw [IdsNodup, List.map_cons, List.nodup_cons] at hnd
    by_cases hx : x.id = e.id
    · have hxe : x = e := by
        rcases List.mem_cons.mp he with h | h
        · exact h.symm
        · exact absurd (hx ▸ List.mem_map_of_mem (·.id) h) hnd.1
      have hb : (x.id == e.id) = true := by simp [hx]
      simp [List.find?_cons, hb, hxe]
    · have he' : e ∈ rest := by
        rcases List.mem_cons.mp he with h | h
        · exact absurd (h ▸ rfl) hx
        · exact h
      have hb : (x.id == e.id) = false := by simp [hx]
      rw [List.find?_cons, hb]
      exact ih hnd.2 he'

end FileLocks

/-! ## `Operations.c` + `FileLocks.c`: the read/write interception protocol

`PreReadWriteOperationCallback` (the shared pre-handler of `IRP_MJ_READ`,
`IRP_MJ_WRITE` and `IRP_MJ_ACQUIRE_FOR_SECTION_SYNCHRONIZATION`) is modelled
as a small-step transition system over a set of threads whose opens carry a
stream context, the per-file lock registry of `FileLocks.c`, and the set of
files still carrying the stub mark. Each atomic step of a thread mirrors one
synchronization-relevant statement of the callback:

1. `LcGetFileLock` (atomic under the `FileLocksResource` exclusive lock);
2. the zero-timeout `KeWaitForSingleObject` on the entry's
   `SynchronizationEvent`: consuming the signal (auto-reset) on success,
   parking on failure;
3. a parked thread resumes only by consuming a signal set by a release;
4. `FltQueryInformationFile`: re-check the reparse tag under the consumed
   signal;
5. `LcFetchRemoteFile` (the fetching phase), then `LcUntagFile` on success
   (which removes the mark before the lock is released);
6. `LcReleaseFileLock` in the `__finally` block.
-/

namespace LockProtocol

open FileLocks

/-- The per-path registry key: paths compare case-insensitively
(`RtlCompareUnicodeString(..., TRUE)`). -/
def keyOf (p : String) : List Char := p.data.map lowerChar

/-- Where a thread stands inside `PreReadWriteOperationCallback`. -/
inductive Phase where
  | start      -- before the callback body (trusted/context checks done)
  | tryWait    -- holds a lock reference; about to zero-timeout-wait
  | parked     -- zero-timeout wait failed; blocked on the event
  | checkMark  -- consumed the signal; about to re-check the reparse tag
  | fetching   -- invoking the fetch engine
  | releasing  -- about to call LcReleaseFileLock in the __finally block
  | finished
deriving Repr, DecidableEq

structure Thread where
  path : String
  eventRef : Option Nat
  phase : Phase
deriving Repr, DecidableEq

/-- The global state: the lock registry, the set of marked files (by key),
and the threads. -/
structure Sys where
  locks : LockList
  marked : List (List Char)
  threads : List Thread
deriving Repr, DecidableEq

/-- Read the state of an entry's event. -/
def eventSignaled (locks : LockList) (ev : Nat) : Bool :=
  match locks.entries.find? (fun e => e.id == ev) with
  | some e => e.signaled
  | none => false

/-- Set the state of an entry's event (`KeClearEvent` / satisfied wait /
`KeSetEvent`). -/
def setEvent (locks : LockList) (ev : Nat) (b : Bool) : LockList :=
  { locks with entries := updateById locks.entries ev (fun e => { e with signaled := b }) }

/-- One atomic step of some thread `i` of the protocol. -/
inductive Step : Sys → Sys → Prop where
  | acquire (s : Sys) (i : Nat) (t : Thread)
      (hget : s.threads[i]? = some t) (hph : t.phase = .start) :
      Step s { s with
        locks := (lcGetFileLock s.locks t.path).1,
        threads := s.threads.set i
          { t with phase := .tryWait,
                   eventRef := some (lcGetFileLock s.locks t.path).2 } }
  | tryWaitHit (s : Sys) (i : Nat) (t : Thread) (ev : Nat)
      (hget : s.threads[i]? = some t) (hph : t.phase = .tryWait)
      (hev : t.eventRef = some ev) (hsig : eventSignaled s.locks ev = true) :
      Step s { s with
        locks := setEvent s.locks ev false,
        threads := s.threads.set i { t with phase := .checkMark } }
  | tryWaitMiss (s : Sys) (i : Nat) (t : Thread) (ev : Nat)
      (hget : s.threads[i]? = some t) (hph : t.phase = .tryWait)
      (hev : t.eventRef = some ev) (hsig : eventSignaled s.locks ev = false) :
      Step s { s with threads := s.threads.set i { t with phase := .parked } }
  | wake (s : Sys) (i : Nat) (t : Thread) (ev : Nat)
      (hget : s.threads[i]? = some t) (hph : t.phase = .parked)
      (hev : t.eventRef = some ev) (hsig : eventSignaled s.locks ev = true) :
      Step s { s with
        locks := setEvent s.locks ev false,
        threads := s.threads.set i { t with phase := .releasing } }
  | markAbsent (s : Sys) (i : Nat) (t : Thread)
      (hget : s.threads[i]? = some t) (hph : t.phase = .checkMark)
      (hm : keyOf t.path ∉ s.marked) :
      Step s { s with threads := s.threads.set i { t with phase := .releasing } }
  | markPresent (s : Sys) (i : Nat) (t : Thread)
      (hget : s.threads[i]? = some t) (hph : t.phase = .checkMark)
      (hm : keyOf t.path ∈ s.marked) :
      Step s { s with threads := s.threads.set i { t with phase := .fetching } }
  | fetchSucceeded (s : Sys) (i : Nat) (t : Thread)
      (hget : s.threads[i]? = some t) (hph : t.phase = .fetching) :
      Step s { s with
        marked := s.marked.filter (fun k => k ≠ keyOf t.path),
        threads := s.threads.set i { t with phase := .releasing } }
  | fetchFailed (s : Sys) (i : Nat) (t : Thread)
      (hget : s.threads[i]? = some t) (hph : t.phase = .fetching) :
      Step s { s with threads := s.threads.set i { t with phase := .releasing } }
  | release (s : Sys) (i : Nat) (t : Thread) (ev : Nat)
      (hget : s.threads[i]? = some t) (hph : t.phase = .releasing)
      (hev : t.eventRef = some ev) :
      Step s { s with
        locks := lcReleaseFileLock s.locks ev,
        threads := s.threads.set i { t with phase := .finished, eventRef := none } }

/-- Reachability from a start state by interleaved protocol steps. -/
def Reachable (s₀ s : Sys) : Prop := Relation.ReflTransGen Step s₀ s

/-- A start state: an empty registry, an arbitrary set of marked files, and
one thread per access, each at the start of the callback. -/
def initSys (accesses : List String) (marked : List (List Char)) : Sys :=
  { locks := { entries := [], nextId := 0 },
    marked := marked,
    threads := accesses.map (fun p => { path := p, eventRef := none, phase := .start }) }

/-- Phases between `LcGetFileLock` and `LcReleaseFileLock` (those counted by
the entry's reference count). -/
def inProtoB (t : Thread) : Bool :=
  match t.phase with
  | .tryWait | .parked | .checkMark | .fetching | .releasing => true
  | _ => false

/-- Phases holding the consumed event signal (after a successful zero-timeout
wait, before the release). -/
def holderB (t : Thread) : Bool :=
  match t.phase with
  | .checkMark | .fetching => true
  | _ => false

def releasingB (t : Thread) : Bool := t.phase == .releasing

def fetchingB (t : Thread) : Bool := t.phase == .fetching

/-- Number of threads currently inside the fetch engine for key `k`. -/
def fetchersOn (s : Sys) (k : List Char) : Nat :=
  s.threads.countP (fun t => fetchingB t && (keyOf t.path == k))

/-- The inductive invariant of the protocol. -/
structure Inv (s : Sys) : Prop where
  idsNodup : IdsNodup s.locks.entries
  keysNodup : (s.locks.entries.map (fun e => keyOf e.fileName)).Nodup
  idsLt : ∀ e ∈ s.locks.entries, e.id < s.locks.nextId
  refCounts : ∀ e ∈ s.locks.entries,
    e.refCount =
      (s.threads.countP (fun t => inProtoB t && (keyOf t.path == keyOf e.fileName)) : Int)
  eventRefs : ∀ t ∈ s.threads, inProtoB t = true →
    ∃ ev, t.eventRef = some ev ∧
      ∃ e ∈ s.locks.entries, e.id = ev ∧ keyOf e.fileName = keyOf t.path
  exclusion : ∀ k : List Char,
    s.locks.entries.countP (fun e => (keyOf e.fileName == k) && e.signaled) +
      s.threads.countP (fun t => holderB t && (keyOf t.path == k)) +
      s.threads.countP (fun t => releasingB t && (keyOf t.path == k)) ≤ 1

/-- Steps that only move one thread between two in-protocol phases (and
possibly change the marked set) preserve the invariant, provided the pair
(holder, releasing) either stays the same or moves from holder to
releasing. -/
theorem inv_phase_step {s : Sys} (hinv : Inv s) {i : Nat} {t t' : Thread}
    (marked' : List (List Char))
    (hget : s.threads[i]? = some t)
    (hpath : t'.path = t.path) (hev : t'.eventRef = t.eventRef)
    (hin : inProtoB t = true) (hin' : inProtoB t' = true)
    (hHR : (holderB t' = holderB t ∧ releasingB t' = releasingB t) ∨
           (holderB t = true ∧ holderB t' = false ∧
            releasingB t = false ∧ releasingB t' = true)) :
    Inv { s with marked := marked', threads := s.threads.set i t' } := by
  obtain ⟨nd, knd, lt, rc, er, ex⟩ := hinv
  refine ⟨nd, knd, lt, ?_, ?_, ?_⟩
  · intro e he
    rw [countP_set_eq s.threads i t' t _ hget (by simp [hin, hin', hpath])]
    exact rc e he
  · intro u hu hup
    rcases mem_set_elim hu with h | h
    · subst h
      obtain ⟨ev0, hevt, e, he, hid, hkey⟩ := er t (getElem?_mem hget) hin
      exact ⟨ev0, hev ▸ hevt, e, he, hid, hpath ▸ hkey⟩
    · exact er u h hup
  · intro k
    dsimp only
    rcases hHR with ⟨hH, hR⟩ | ⟨h1, h2, h3, h4⟩
    · rw [countP_set_eq s.threads i t' t _ hget (by simp [hH, hpath]),
        countP_set_eq s.threads i t' t _ hget (by simp [hR, hpath])]
      exact ex k
    · by_cases hk : (keyOf t.path == k) = true
      · have hHH := countP_set_sub s.threads i t' t
          (fun u => holderB u && (keyOf u.path == k)) hget
          (by simp [h1, hk]) (by simp [h2])
        have hRl := countP_set_add s.threads i t' t
          (fun u => releasingB u && (keyOf u.path == k)) hget
          (by simp [h3]) (by simp [h4, hpath, hk])
        have := ex k
        omega
      · rw [Bool.not_eq_true] at hk
        rw [countP_set_eq s.threads i t' t _ hget (by simp [hpath, hk]),
          countP_set_eq s.threads i t' t _ hget (by simp [hpath, hk])]
        exact ex k

/-- Consuming the entry's signal with a satisfied wait (the zero-timeout
wait of a `tryWait` thread, or the blocking wait of a parked thread)
preserves the invariant: the signal turns into a holder (or into a departing
releaser). -/
theorem inv_consume {s : Sys} (hinv : Inv s) {i : Nat} {t t' : Thread} {ev : Nat}
    (hget : s.threads[i]? = some t)
    (hin : inProtoB t = true) (hHold : holderB t = false) (hRel : releasingB t = false)
    (hev : t.eventRef = some ev) (hsig : eventSignaled s.locks ev = true)
    (hpath : t'.path = t.path) (hev' : t'.eventRef = t.eventRef)
    (hin' : inProtoB t' = true)
    (hHR : (holderB t' = true ∧ releasingB t' = false) ∨
           (holderB t' = false ∧ releasingB t' = true)) :
    Inv { s with locks := setEvent s.locks ev false,
                 threads := s.threads.set i t' } := by
  obtain ⟨nd, knd, lt, rc, er, ex⟩ := hinv
  obtain ⟨ev0, hevt, e, he, hid, hkey⟩ := er t (getElem?_mem hget) hin
  rw [hev] at hevt
  injection hevt with hevt
  subst hevt
  subst hid
  have hesig : e.signaled = true := by
    rw [eventSignaled, find?_id_of_nodup nd he] at hsig
    exact hsig
  refine ⟨?_, ?_, ?_, ?_, ?_, ?_⟩
  · rw [IdsNodup]
    dsimp only [setEvent]
    rw [map_updateById s.locks.entries e.id (fun x => { x with signaled := false })
      (fun x => x.id) (fun x => rfl)]
    exact nd
  · dsimp only [setEvent]
    rw [map_updateById s.locks.entries e.id (fun x => { x with signaled := false })
      (fun x => keyOf x.fileName) (fun x => rfl)]
    exact knd
  · intro x hx
    dsimp only [setEvent] at hx ⊢
    rcases mem_updateById_elim_nodup nd he hx with h | ⟨h, _⟩
    · subst h
      exact lt e he
    · exact lt x h
  · intro x hx
    dsimp only [setEvent] at hx ⊢
    have hcnt : ∀ k, (s.threads.set i t').countP
        (fun u => inProtoB u && (keyOf u.path == k)) =
        s.threads.countP (fun u => inProtoB u && (keyOf u.path == k)) := by
      intro k
      exact countP_set_eq s.threads i t' t _ hget (by simp [hin, hin', hpath])
    rcases mem_updateById_elim_nodup nd he hx with h | ⟨h, _⟩
    · subst h
      rw [hcnt]
      exact rc e he
    · rw [hcnt]
      exact rc x h
  · intro u hu hup
    dsimp only [setEvent] at hu ⊢
    rcases mem_set_elim hu with h | h
    · subst h
      refine ⟨e.id, by rw [hev', hev], ?_⟩
      refine ⟨{ e with signaled := false }, mem_updateById_self nd he, rfl, ?_⟩
      rw [hpath]
      exact hkey
    · obtain ⟨ev2, hev2, e2, he2, hid2, hkey2⟩ := er u h hup
      refine ⟨ev2, hev2, ?_⟩
      by_cases hsame : e2.id = e.id
      · have he2e : e2 = e := List.inj_on_of_nodup_map nd he2 he hsame
        subst he2e
        exact ⟨{ e2 with signaled := false }, mem_updateById_self nd he2,
          by rw [← hid2], hkey2⟩
      · exact ⟨e2, mem_updateById_of_ne he2 (by rw [hid2] at hsame ⊢; exact hsame), hid2, hkey2⟩
  · intro k
    dsimp only [setEvent]
    have hsigcnt := countP_updateById s.locks.entries e
      (fun x => { x with signaled := false })
      (fun x => (keyOf x.fileName == k) && x.signaled) nd he
    by_cases hk : (keyOf t.path == k) = true
    · have hkek : (keyOf e.fileName == k) = true := by
        rw [hkey]
        exact hk
      simp only [hkek, hesig, Bool.true_and, Bool.and_false, Bool.and_self,
        if_true, Bool.false_eq_true, if_false] at hsigcnt
      have hsigpos : 1 ≤ s.locks.entries.countP
          (fun x => (keyOf x.fileName == k) && x.signaled) :=
        List.countP_pos_iff.mpr ⟨e, he, by simp [hkek, hesig]⟩
      have hex := ex k
      rcases hHR with ⟨hH1, hH2⟩ | ⟨hH1, hH2⟩
      · have hHH := countP_set_add s.threads i t' t
          (fun u => holderB u && (keyOf u.path == k)) hget
          (by simp [hHold]) (by simp [hH1, hpath, hk])
        have hRl := countP_set_eq s.threads i t' t
          (fun u => releasingB u && (keyOf u.path == k)) hget (by simp [hH2, hRel])
        omega
      · have hHH := countP_set_eq s.threads i t' t
          (fun u => holderB u && (keyOf u.path == k)) hget (by simp [hH1, hHold])
        have hRl := countP_set_add s.threads i t' t
          (fun u => releasingB u && (keyOf u.path == k)) hget
          (by simp [hRel]) (by simp [hH2, hpath, hk])
        omega
    · rw [Bool.not_eq_true] at hk
      have hkek : (keyOf e.fileName == k) = false := by
        rw [hkey]
        exact hk
      simp only [hkek, Bool.false_and, Bool.and_false, Bool.false_eq_true,
        if_false] at hsigcnt
      have hHH := countP_set_eq s.threads i t' t
        (fun u => holderB u && (keyOf u.path == k)) hget (by simp [hpath, hk])
      have hRl := countP_set_eq s.threads i t' t
        (fun u => releasingB u && (keyOf u.path == k)) hget (by simp [hpath, hk])
      have hex := ex k
      omega

theorem holderB_inProtoB {t : Thread} (h : holderB t = true) : inProtoB t = true := by
  rcases t with ⟨p, e, ph⟩
  cases ph <;> simp_all [holderB, inProtoB]

theorem releasingB_inProtoB {t : Thread} (h : releasingB t = true) : inProtoB t = true := by
  rcases t with ⟨p, e, ph⟩
  cases ph <;> simp_all [releasingB, inProtoB]

theorem fetchingB_holderB {t : Thread} (h : fetchingB t = true) : holderB t = true := by
  rcases t with ⟨p, e, ph⟩
  cases ph <;> simp_all [fetchingB, holderB]

/-- `LcGetFileLock` preserves the invariant when a thread enters the
protocol. -/
theorem inv_acquire {s : Sys} (hinv : Inv s) {i : Nat} {t : Thread}
    (hget : s.threads[i]? = some t) (hph : t.phase = .start) :
    Inv { s with
      locks := (lcGetFileLock s.locks t.path).1,
      threads := s.threads.set i
        { t with phase := .tryWait,
                 eventRef := some (lcGetFileLock s.locks t.path).2 } } := by
  obtain ⟨nd, knd, lt, rc, er, ex⟩ := hinv
  have hinP : inProtoB t = false := by rw [inProtoB, hph]
  have hinP' : inProtoB { t with phase := .tryWait,
                                 eventRef := some (lcGetFileLock s.locks t.path).2 } = true := rfl
  have hH : holderB t = false := by rw [holderB, hph]
  have hR : releasingB t = false := by rw [releasingB, hph]; rfl
  have hin1 : ∀ (u : Thread) (ev : Option Nat),
      inProtoB { u with phase := Phase.tryWait, eventRef := ev } = true := fun _ _ => rfl
  have hH1 : ∀ (u : Thread) (ev : Option Nat),
      holderB { u with phase := Phase.tryWait, eventRef := ev } = false := fun _ _ => rfl
  have hR1 : ∀ (u : Thread) (ev : Option Nat),
      releasingB { u with phase := Phase.tryWait, eventRef := ev } = false := fun _ _ => rfl
  rcases hfind : s.locks.entries.find? (fun e => ciEq t.path e.fileName) with _ | e
  · -- no entry for this path: a fresh signaled entry with refcount 1 is created
    have hnone : ∀ x ∈ s.locks.entries, keyOf x.fileName ≠ keyOf t.path := by
      intro x hx hc
      have hne := List.find?_eq_none.mp hfind x hx
      rw [ciEq] at hne
      exact hne (beq_iff_eq.mpr hc.symm)
    have hc0 : s.threads.countP
        (fun u => inProtoB u && (keyOf u.path == keyOf t.path)) = 0 := by
      by_contra hcp
      obtain ⟨u, hu, hpu⟩ := List.countP_pos_iff.mp (Nat.pos_of_ne_zero hcp)
      obtain ⟨hpu1, hpu2⟩ := Bool.and_eq_true_iff.mp hpu
      obtain ⟨ev2, _, e2, he2, _, hkey2⟩ := er u hu hpu1
      exact hnone e2 he2 (hkey2.trans (beq_iff_eq.mp hpu2))
    simp only [lcGetFileLock, hfind]
    refine ⟨?_, ?_, ?_, ?_, ?_, ?_⟩
    · rw [IdsNodup, List.map_cons, List.nodup_cons]
      exact ⟨fun hmem => by
        obtain ⟨x, hx, hxid⟩ := List.mem_map.mp hmem
        exact absurd hxid (Nat.ne_of_gt (lt x hx)).symm, nd⟩
    · rw [List.map_cons, List.nodup_cons]
      refine ⟨fun hmem => ?_, knd⟩
      obtain ⟨x, hx, hxk⟩ := List.mem_map.mp hmem
      exact hnone x hx hxk
    · intro x hx
      rcases List.mem_cons.mp hx with h | h
      · subst h
        exact Nat.lt_succ_self _
      · exact Nat.lt_succ_of_lt (lt x h)
    · intro x hx
      rcases List.mem_cons.mp hx with h | h
      · subst h
        dsimp only
        rw [countP_set_add s.threads i _ t _ hget (by simp [hinP]) (by simp [hin1])]
        rw [hc0]
        rfl
      · dsimp only
        rw [countP_set_eq s.threads i _ t _ hget
          (by simp only [hinP, Bool.false_and]
              have : (keyOf t.path == keyOf x.fileName) = false :=
                beq_eq_false_iff_ne.mpr (fun hc => hnone x h hc.symm)
              simp [this])]
        exact rc x h
    · intro u hu hup
      rcases mem_set_elim hu with h | h
      · subst h
        exact ⟨s.locks.nextId, rfl,
          ⟨{ id := s.locks.nextId, fileName := t.path, signaled := true,
             refCount := 0 + 1 }, List.mem_cons_self _ _, rfl, rfl⟩⟩
      · obtain ⟨ev2, hev2, e2, he2, hid2, hkey2⟩ := er u h hup
        exact ⟨ev2, hev2, e2, List.mem_cons_of_mem _ he2, hid2, hkey2⟩
    · intro k
      dsimp only
      rw [List.countP_cons]
      have hold0 := countP_set_eq s.threads i
        { t with phase := .tryWait, eventRef := some s.locks.nextId } t
        (fun u => holderB u && (keyOf u.path == k)) hget (by simp [hH, hH1])
      have hrel0 := countP_set_eq s.threads i
        { t with phase := .tryWait, eventRef := some s.locks.nextId } t
        (fun u => releasingB u && (keyOf u.path == k)) hget (by simp [hR, hR1])
      rw [hold0, hrel0]
      by_cases hk : (keyOf t.path == k) = true
      · have hkeq : keyOf t.path = k := beq_iff_eq.mp hk
        have hsig0 : s.locks.entries.countP
            (fun x => (keyOf x.fileName == k) && x.signaled) = 0 := by
          rw [List.countP_eq_zero]
          intro x hx
          have : (keyOf x.fileName == k) = false :=
            beq_eq_false_iff_ne.mpr (fun hc => hnone x hx (hc.trans hkeq.symm))
          simp [this]
        have hhold0 : s.threads.countP (fun u => holderB u && (keyOf u.path == k)) = 0 := by
          rw [List.countP_eq_zero]
          intro u hu
          by_cases hpu : (holderB u && (keyOf u.path == k)) = true
          · obtain ⟨h1, h2⟩ := Bool.and_eq_true_iff.mp hpu
            have : s.threads.countP
                (fun v => inProtoB v && (keyOf v.path == keyOf t.path)) ≠ 0 := by
              have : 0 < s.threads.countP
                  (fun v => inProtoB v && (keyOf v.path == keyOf t.path)) :=
                List.countP_pos_iff.mpr ⟨u, hu,
                  by simp [holderB_inProtoB h1, hkeq, h2]⟩
              omega
            exact absurd hc0 this
          · simp only [Bool.not_eq_true] at hpu
            simp [hpu]
        have hrel1 : s.threads.countP (fun u => releasingB u && (keyOf u.path == k)) = 0 := by
          rw [List.countP_eq_zero]
          intro u hu
          by_cases hpu : (releasingB u && (keyOf u.path == k)) = true
          · obtain ⟨h1, h2⟩ := Bool.and_eq_true_iff.mp hpu
            have : 0 < s.threads.countP
                (fun v => inProtoB v && (keyOf v.path == keyOf t.path)) :=
              List.countP_pos_iff.mpr ⟨u, hu,
                by simp [releasingB_inProtoB h1, hkeq, h2]⟩
            omega
          · simp only [Bool.not_eq_true] at hpu
            simp [hpu]
        simp only [hk, Bool.true_and, if_true, hsig0, hhold0, hrel1]
        omega
      · rw [Bool.not_eq_true] at hk
        simp only [hk, Bool.false_and, Bool.false_eq_true, if_false]
        have := ex k
        omega
  · -- an entry exists: its refcount is bumped
    have he : e ∈ s.locks.entries := List.mem_of_find?_eq_some hfind
    have hci : ciEq t.path e.fileName = true := by
      have := List.find?_some hfind
      simpa using this
    have hkey : keyOf e.fileName = keyOf t.path :=
      (beq_iff_eq.mp hci).symm
    simp only [lcGetFileLock, hfind]
    refine ⟨?_, ?_, ?_, ?_, ?_, ?_⟩
    · rw [IdsNodup]
      dsimp only
      rw [map_updateById s.locks.entries e.id
        (fun x => { x with refCount := x.refCount + 1 }) (fun x => x.id) (fun x => rfl)]
      exact nd
    · dsimp only
      rw [map_updateById s.locks.entries e.id
        (fun x => { x with refCount := x.refCount + 1 })
        (fun x => keyOf x.fileName) (fun x => rfl)]
      exact knd
    · intro x hx
      dsimp only at hx ⊢
      rcases mem_updateById_elim_nodup nd he hx with h | ⟨h, _⟩
      · subst h
        exact lt e he
      · exact lt x h
    · intro x hx
      dsimp only at hx ⊢
      rcases mem_updateById_elim_nodup nd he hx with h | ⟨h, hne⟩
      · subst h
        rw [countP_set_add s.threads i _ t _ hget (by simp [hinP])
          (by simp [hin1, hkey])]
        have := rc e he
        dsimp only
        omega
      · rw [countP_set_eq s.threads i _ t _ hget
          (by have hxe : x ≠ e := fun hc => hne (by rw [hc])
              have : (keyOf t.path == keyOf x.fileName) = false := by
                refine beq_eq_false_iff_ne.mpr (fun hc => hxe ?_)
                exact List.inj_on_of_nodup_map knd h he ((hkey.trans hc).symm)
              simp [hinP, this])]
        exact rc x h
    · intro u hu hup
      dsimp only at hu ⊢
      rcases mem_set_elim hu with h | h
      · subst h
        refine ⟨e.id, rfl, { e with refCount := e.refCount + 1 },
          mem_updateById_self nd he, rfl, hkey⟩
      · obtain ⟨ev2, hev2, e2, he2, hid2, hkey2⟩ := er u h hup
        refine ⟨ev2, hev2, ?_⟩
        by_cases hsame : e2.id = e.id
        · have he2e : e2 = e := List.inj_on_of_nodup_map nd he2 he hsame
          subst he2e
          exact ⟨{ e2 with refCount := e2.refCount + 1 }, mem_updateById_self nd he2,
            by rw [← hid2], hkey2⟩
        · exact ⟨e2, mem_updateById_of_ne he2 (by rw [hid2] at hsame ⊢; exact hsame),
            hid2, hkey2⟩
    · intro k
      dsimp only
      have hsigcnt := countP_updateById s.locks.entries e
        (fun x => { x with refCount := x.refCount + 1 })
        (fun x => (keyOf x.fileName == k) && x.signaled) nd he
      simp only at hsigcnt
      have hold0 := countP_set_eq s.threads i
        { t with phase := .tryWait, eventRef := some e.id } t
        (fun u => holderB u && (keyOf u.path == k)) hget (by simp [hH, hH1])
      have hrel0 := countP_set_eq s.threads i
        { t with phase := .tryWait, eventRef := some e.id } t
        (fun u => releasingB u && (keyOf u.path == k)) hget (by simp [hR, hR1])
      rw [hold0, hrel0]
      have hex := ex k
      omega


/-- `LcReleaseFileLock` preserves the invariant when a releasing thread
leaves the protocol: either the entry is removed (last reference) or its
refcount drops and its event is set to the signaled state. -/
theorem inv_release {s : Sys} (hinv : Inv s) {i : Nat} {t : Thread} {ev : Nat}
    (hget : s.threads[i]? = some t) (hph : t.phase = .releasing)
    (hev : t.eventRef = some ev) :
    Inv { s with
      locks := lcReleaseFileLock s.locks ev,
      threads := s.threads.set i { t with phase := .finished, eventRef := none } } := by
  obtain ⟨nd, knd, lt, rc, er, ex⟩ := hinv
  have hinP : inProtoB t = true := by rw [inProtoB, hph]
  have hH : holderB t = false := by rw [holderB, hph]
  have hR : releasingB t = true := by rw [releasingB, hph]; rfl
  have hinP' : inProtoB { t with phase := .finished, eventRef := none } = false := rfl
  have hH' : holderB { t with phase := .finished, eventRef := none } = false := rfl
  have hR' : releasingB { t with phase := .finished, eventRef := none } = false := rfl
  obtain ⟨ev0, hevt, e, he, hid, hkey⟩ := er t (getElem?_mem hget) hinP
  rw [hev] at hevt
  injection hevt with hevt
  subst hevt
  subst hid
  have hfind : s.locks.entries.find? (fun x => x.id == e.id) = some e :=
    find?_id_of_nodup nd he
  have htmem : t ∈ s.threads := getElem?_mem hget
  have hpt : (inProtoB t && (keyOf t.path == keyOf e.fileName)) = true := by
    simp [hinP, hkey]
  have hcnt1 : 1 ≤ s.threads.countP
      (fun u => inProtoB u && (keyOf u.path == keyOf e.fileName)) :=
    List.countP_pos_iff.mpr ⟨t, htmem, hpt⟩
  have hrcE := rc e he
  by_cases hrc1 : e.refCount - 1 ≤ 0
  · -- last reference: the entry is removed and freed
    simp only [lcReleaseFileLock, hfind]
    rw [if_pos hrc1]
    have hcnt : s.threads.countP
        (fun u => inProtoB u && (keyOf u.path == keyOf e.fileName)) = 1 := by
      omega
    refine ⟨?_, ?_, ?_, ?_, ?_, ?_⟩
    · rw [IdsNodup]
      dsimp only
      exact nd.sublist ((removeById_sublist s.locks.entries e.id).map _)
    · dsimp only
      exact knd.sublist ((removeById_sublist s.locks.entries e.id).map _)
    · intro x hx
      dsimp only at hx ⊢
      obtain ⟨hm, _⟩ := mem_removeById_elim_nodup nd he hx
      exact lt x hm
    · intro x hx
      dsimp only at hx ⊢
      obtain ⟨hm, hne⟩ := mem_removeById_elim_nodup nd he hx
      have hxe : x ≠ e := fun hc => hne (by rw [hc])
      have hkne : (keyOf t.path == keyOf x.fileName) = false := by
        refine beq_eq_false_iff_ne.mpr (fun hc => hxe ?_)
        exact List.inj_on_of_nodup_map knd hm he ((hkey.trans hc).symm)
      rw [countP_set_eq s.threads i { t with phase := .finished, eventRef := none } t
        (fun u => inProtoB u && (keyOf u.path == keyOf x.fileName)) hget
        (by simp [hinP, hinP', hkne])]
      exact rc x hm
    · intro u hu hup
      dsimp only at hu ⊢
      rcases mem_set_elim hu with h | h
      · subst h
        rw [hinP'] at hup
        exact absurd hup Bool.false_ne_true
      · obtain ⟨ev2, hev2, e2, he2, hid2, hkey2⟩ := er u h hup
        by_cases hsame : e2 = e
        · exfalso
          have hut : u ≠ { t with phase := .finished, eventRef := none } := by
            intro hc
            rw [hc, hinP'] at hup
            exact Bool.false_ne_true hup
          rw [hsame] at hkey2
          have hpx : (fun v => inProtoB v && (keyOf v.path == keyOf e.fileName)) u = true := by
            simp [hup, hkey2]
          have htwo := @two_le_countP_of_mem_set Thread s.threads i t
            { t with phase := .finished, eventRef := none } u
            (fun v => inProtoB v && (keyOf v.path == keyOf e.fileName)) hget hu hut hpt hpx
          omega
        · have hne2 : e2.id ≠ e.id :=
            fun hc => hsame (List.inj_on_of_nodup_map nd he2 he hc)
          exact ⟨ev2, hev2, e2, mem_removeById_of_ne he2 hne2, hid2, hkey2⟩
    · intro k
      dsimp only
      have hsigR := countP_removeById s.locks.entries e
        (fun x => (keyOf x.fileName == k) && x.signaled) nd he
      have hex := ex k
      by_cases hk : (keyOf t.path == k) = true
      · have hrelpos : 1 ≤ s.threads.countP
            (fun u => releasingB u && (keyOf u.path == k)) :=
          List.countP_pos_iff.mpr ⟨t, htmem, by simp [hR, hk]⟩
        have hsig0 : s.locks.entries.countP
            (fun x => (keyOf x.fileName == k) && x.signaled) = 0 := by
          omega
        have hkek : (keyOf e.fileName == k) = true := by
          rw [hkey]
          exact hk
        have hesig : e.signaled = false := by
          by_contra hcon
          rw [Bool.not_eq_false] at hcon
          have : 0 < s.locks.entries.countP
              (fun x => (keyOf x.fileName == k) && x.signaled) :=
            List.countP_pos_iff.mpr ⟨e, he, by simp [hkek, hcon]⟩
          omega
        simp only [hkek, hesig, Bool.true_and, Bool.and_false, Bool.false_eq_true,
          if_false, Nat.add_zero] at hsigR
        have hhold := countP_set_eq s.threads i
          { t with phase := .finished, eventRef := none } t
          (fun u => holderB u && (keyOf u.path == k)) hget (by simp [hH, hH'])
        have hrel := countP_set_sub s.threads i
          { t with phase := .finished, eventRef := none } t
          (fun u => releasingB u && (keyOf u.path == k)) hget
          (by simp [hR, hk]) (by simp [hR'])
        omega
      · rw [Bool.not_eq_true] at hk
        have hkek : (keyOf e.fileName == k) = false := by
          rw [hkey]
          exact hk
        simp only [hkek, Bool.false_and, Bool.false_eq_true, if_false,
          Nat.add_zero] at hsigR
        have hhold := countP_set_eq s.threads i
          { t with phase := .finished, eventRef := none } t
          (fun u => holderB u && (keyOf u.path == k)) hget (by simp [hk, hH'])
        have hrel := countP_set_eq s.threads i
          { t with phase := .finished, eventRef := none } t
          (fun u => releasingB u && (keyOf u.path == k)) hget (by simp [hk, hR'])
        omega
  · -- other references remain: refcount drops, the event is signaled
    simp only [lcReleaseFileLock, hfind]
    rw [if_neg hrc1]
    refine ⟨?_, ?_, ?_, ?_, ?_, ?_⟩
    · rw [IdsNodup]
      dsimp only
      rw [map_updateById s.locks.entries e.id
        (fun x => { x with refCount := x.refCount - 1, signaled := true })
        (fun x => x.id) (fun x => rfl)]
      exact nd
    · dsimp only
      rw [map_updateById s.locks.entries e.id
        (fun x => { x with refCount := x.refCount - 1, signaled := true })
        (fun x => keyOf x.fileName) (fun x => rfl)]
      exact knd
    · intro x hx
      dsimp only at hx ⊢
      rcases mem_updateById_elim_nodup nd he hx with h | ⟨h, _⟩
      · subst h
        exact lt e he
      · exact lt x h
    · intro x hx
      dsimp only at hx ⊢
      rcases mem_updateById_elim_nodup nd he hx with h | ⟨h, hne⟩
      · subst h
        have hsub := countP_set_sub s.threads i
          { t with phase := .finished, eventRef := none } t
          (fun u => inProtoB u && (keyOf u.path == keyOf e.fileName)) hget hpt
          (by simp [hinP'])
        dsimp only
        omega
      · have hxe : x ≠ e := fun hc => hne (by rw [hc])
        have hkne : (keyOf t.path == keyOf x.fileName) = false := by
          refine beq_eq_false_iff_ne.mpr (fun hc => hxe ?_)
          exact List.inj_on_of_nodup_map knd h he ((hkey.trans hc).symm)
        rw [countP_set_eq s.threads i { t with phase := .finished, eventRef := none } t
          (fun u => inProtoB u && (keyOf u.path == keyOf x.fileName)) hget
          (by simp [hinP, hinP', hkne])]
        exact rc x h
    · intro u hu hup
      dsimp only at hu ⊢
      rcases mem_set_elim hu with h | h
      · subst h
        rw [hinP'] at hup
        exact absurd hup Bool.false_ne_true
      · obtain ⟨ev2, hev2, e2, he2, hid2, hkey2⟩ := er u h hup
        refine ⟨ev2, hev2, ?_⟩
        by_cases hsame : e2.id = e.id
        · have he2e : e2 = e := List.inj_on_of_nodup_map nd he2 he hsame
          subst he2e
          exact ⟨{ e2 with refCount := e2.refCount - 1, signaled := true },
            mem_updateById_self nd he2, by rw [← hid2], hkey2⟩
        · exact ⟨e2, mem_updateById_of_ne he2 (by rw [hid2] at hsame ⊢; exact hsame),
            hid2, hkey2⟩
    · intro k
      dsimp only
      have hsigU := countP_updateById s.locks.entries e
        (fun x => { x with refCount := x.refCount - 1, signaled := true })
        (fun x => (keyOf x.fileName == k) && x.signaled) nd he
      have hex := ex k
      by_cases hk : (keyOf t.path == k) = true
      · have hrelpos : 1 ≤ s.threads.countP
            (fun u => releasingB u && (keyOf u.path == k)) :=
          List.countP_pos_iff.mpr ⟨t, htmem, by simp [hR, hk]⟩
        have hkek : (keyOf e.fileName == k) = true := by
          rw [hkey]
          exact hk
        have hesig : e.signaled = false := by
          by_contra hcon
          rw [Bool.not_eq_false] at hcon
          have : 0 < s.locks.entries.countP
              (fun x => (keyOf x.fileName == k) && x.signaled) :=
            List.countP_pos_iff.mpr ⟨e, he, by simp [hkek, hcon]⟩
          omega
        simp only [hkek, hesig, Bool.true_and, Bool.and_false, Bool.and_true,
          Bool.false_eq_true, if_false, if_true, Nat.add_zero] at hsigU
        have hhold := countP_set_eq s.threads i
          { t with phase := .finished, eventRef := none } t
          (fun u => holderB u && (keyOf u.path == k)) hget (by simp [hH, hH'])
        have hrel := countP_set_sub s.threads i
          { t with phase := .finished, eventRef := none } t
          (fun u => releasingB u && (keyOf u.path == k)) hget
          (by simp [hR, hk]) (by simp [hR'])
        omega
      · rw [Bool.not_eq_true] at hk
        have hkek : (keyOf e.fileName == k) = false := by
          rw [hkey]
          exact hk
        simp only [hkek, Bool.false_and, Bool.false_eq_true, if_false,
          Nat.add_zero] at hsigU
        have hhold := countP_set_eq s.threads i
          { t with phase := .finished, eventRef := none } t
          (fun u => holderB u && (keyOf u.path == k)) hget (by simp [hk, hH'])
        have hrel := countP_set_eq s.threads i
          { t with phase := .finished, eventRef := none } t
          (fun u => releasingB u && (keyOf u.path == k)) hget (by simp [hk, hR'])
        omega


/-- Every protocol step preserves the invariant. -/
theorem inv_step {s s2 : Sys} (hinv : Inv s) (hstep : Step s s2) : Inv s2 := by
  cases hstep with
  | acquire i t hget hph =>
    exact inv_acquire hinv hget hph
  | tryWaitHit i t ev hget hph hev hsig =>
    exact inv_consume hinv hget (by rw [inProtoB, hph]) (by rw [holderB, hph])
      (by rw [releasingB, hph]; rfl) hev hsig rfl rfl rfl (Or.inl ⟨rfl, rfl⟩)
  | tryWaitMiss i t ev hget hph hev hsig =>
    have hH : holderB t = false := by rw [holderB, hph]
    have hR : releasingB t = false := by rw [releasingB, hph]; rfl
    exact inv_phase_step hinv s.marked hget rfl rfl (by rw [inProtoB, hph]) rfl
      (Or.inl ⟨by rw [hH]; rfl, by rw [hR]; rfl⟩)
  | wake i t ev hget hph hev hsig =>
    exact inv_consume hinv hget (by rw [inProtoB, hph]) (by rw [holderB, hph])
      (by rw [releasingB, hph]; rfl) hev hsig rfl rfl rfl (Or.inr ⟨rfl, rfl⟩)
  | markAbsent i t hget hph hm =>
    exact inv_phase_step hinv s.marked hget rfl rfl (by rw [inProtoB, hph]) rfl
      (Or.inr ⟨by rw [holderB, hph], rfl, by rw [releasingB, hph]; rfl, rfl⟩)
  | markPresent i t hget hph hm =>
    have hH : holderB t = true := by rw [holderB, hph]
    have hR : releasingB t = false := by rw [releasingB, hph]; rfl
    exact inv_phase_step hinv s.marked hget rfl rfl (by rw [inProtoB, hph]) rfl
      (Or.inl ⟨by rw [hH]; rfl, by rw [hR]; rfl⟩)
  | fetchSucceeded i t hget hph =>
    exact inv_phase_step hinv (s.marked.filter (fun k => k ≠ keyOf t.path)) hget rfl rfl
      (by rw [inProtoB, hph]) rfl
      (Or.inr ⟨by rw [holderB, hph], rfl, by rw [releasingB, hph]; rfl, rfl⟩)
  | fetchFailed i t hget hph =>
    exact inv_phase_step hinv s.marked hget rfl rfl (by rw [inProtoB, hph]) rfl
      (Or.inr ⟨by rw [holderB, hph], rfl, by rw [releasingB, hph]; rfl, rfl⟩)
  | release i t ev hget hph hev =>
    exact inv_release hinv hget hph hev

/-- The invariant holds in every start state. -/
theorem inv_init (accesses : List String) (marked : List (List Char)) :
    Inv (initSys accesses marked) := by
  refine ⟨?_, ?_, ?_, ?_, ?_, ?_⟩
  · simp [initSys, IdsNodup]
  · simp [initSys]
  · intro e he
    simp [initSys] at he
  · intro e he
    simp [initSys] at he
  · intro u hu hup
    rw [initSys] at hu
    obtain ⟨p, _, hp⟩ := List.mem_map.mp hu
    rw [← hp] at hup
    exact absurd hup Bool.false_ne_true
  · intro k
    rw [initSys]
    have h1 : List.countP (fun e => (keyOf e.fileName == k) && e.signaled)
        ([] : List FileLockEntry) = 0 := rfl
    have h2 : (accesses.map
        (fun p => { path := p, eventRef := none, phase := .start : Thread })).countP
        (fun u => holderB u && (keyOf u.path == k)) = 0 := by
      rw [List.countP_eq_zero]
      intro u hu
      obtain ⟨p, _, hp⟩ := List.mem_map.mp hu
      rw [← hp]
      have hb : holderB { path := p, eventRef := none, phase := .start : Thread } = false := rfl
      simp [hb]
    have h3 : (accesses.map
        (fun p => { path := p, eventRef := none, phase := .start : Thread })).countP
        (fun u => releasingB u && (keyOf u.path == k)) = 0 := by
      rw [List.countP_eq_zero]
      intro u hu
      obtain ⟨p, _, hp⟩ := List.mem_map.mp hu
      rw [← hp]
      have hb : releasingB { path := p, eventRef := none, phase := .start : Thread } = false := rfl
      simp [hb]
    dsimp only
    omega

/-- The invariant holds in every reachable state. -/
theorem inv_reachable {s0 s : Sys} (hinit : Inv s0) (hr : Reachable s0 s) : Inv s := by
  induction hr with
  | refl => exact hinit
  | tail _ hstep ih => exact inv_step ih hstep

theorem countP_le_countP {α : Type _} (l : List α) (p q : α → Bool)
    (h : ∀ a ∈ l, p a = true → q a = true) : l.countP p ≤ l.countP q := by
  induction l with
  | nil => simp
  | cons x rest ih =>
    simp only [List.countP_cons]
    have hx := h x (List.mem_cons_self _ _)
    have hr := ih (fun a ha => h a (List.mem_cons_of_mem _ ha))
    by_cases hpx : p x = true
    · rw [if_pos hpx, if_pos (hx hpx)]
      omega
    · rw [if_neg hpx]
      omega


/-- C1: per-path mutual exclusion of the fetch engine. In every state
reachable by any interleaving of concurrent read/write accesses from a start
state (empty lock registry, any set of marked stub files), at most one thread
is inside the fetch engine for any given path key: the one that consumed the
per-path event with a zero-timeout wait. Every other overlapping access
either parks on the same event or observes the already-cleared mark and
passes through without fetching. -/
theorem C1_per_path_single_fetcher (accesses : List String)
    (marked : List (List Char)) (s : Sys) (k : List Char)
    (hr : Reachable (initSys accesses marked) s) :
    fetchersOn s k ≤ 1 := by
  have hinv := inv_reachable (inv_init accesses marked) hr
  have hle := countP_le_countP s.threads
    (fun t => fetchingB t && (keyOf t.path == k))
    (fun t => holderB t && (keyOf t.path == k))
    (fun a _ hpa => by
      obtain ⟨h1, h2⟩ := Bool.and_eq_true_iff.mp hpa
      simp [fetchingB_holderB h1, h2])
  have hex := hinv.exclusion k
  rw [fetchersOn]
  omega

theorem C1_per_path_single_fetcher_witness :
    fetchersOn (initSys ["a", "a"] [keyOf "a"]) (keyOf "a") ≤ 1 :=
  C1_per_path_single_fetcher ["a", "a"] [keyOf "a"] (initSys ["a", "a"] [keyOf "a"])
    (keyOf "a") Relation.ReflTransGen.refl

end LockProtocol


/-! ## `Fetch.c`: `LcFetchFileByChunks` and its chunk-list helpers -/

namespace Fetch

/-- `Fetch.c:181`: `static const ULONG ChunkSize = 128 * 1024`. -/
def ChunkSize : Nat := 128 * 1024

/-- `Fetch.c:184`: `static const ULONG MaxChunks = 4`. -/
def MaxChunks : Nat := 4

/-- The C cast `(ULONG)q` of a signed 64-bit quantity: its low 32 bits. -/
def ulongCast (x : Int) : Nat := (x % (2 ^ 32 : Int)).toNat

/-- A `FILE_CHUNK` (`Globals.h`): `id` models the node's address, `bufferSize`
the allocated buffer capacity, `bytesInBuffer` the byte count read into it and
not yet written out. -/
structure FileChunk where
  id : Nat
  bufferSize : Nat
  bytesInBuffer : Nat
deriving Repr, DecidableEq

/-- The local state of `LcFetchFileByChunks` (Fetch.c:493-694): the chunk ring
(in list order, first entry = `ListHead->Flink`), the `chunkListLength`
counter, the loop's local variables, and the in-flight asynchronous I/O
(`readPending`/`readReq*` for the `ZwReadFile`, `writePending*` for the
`FltWriteFile`, plus the I/O status block and the write callback context). -/
structure FetchState where
  chunks : List FileChunk
  chunkListLength : Nat
  nextId : Nat
  readChunk : Option Nat
  writeChunk : Option Nat
  eof : Bool
  waitingForRead : Bool
  readPending : Bool
  readReqSize : Nat
  readReqOff : Int
  statusBlockStatus : NtStatus
  statusBlockInfo : Nat
  writeEventSignaled : Bool
  writeCbStatus : NtStatus
  writeCbBytes : Nat
  writePending : Bool
  writePendingBytes : Nat
  remainingBytes : Int
  totalBytesRead : Int
  totalBytesWritten : Int
  sourceFileOffset : Int
  destinationFileOffset : Int
deriving Repr, DecidableEq

/-- `Fetch.c`, `LcAddNewChunk` (lines 989-1079): allocate a chunk whose buffer
is `min(ChunkSize, (ULONG)RemainingBytes->QuadPart)` bytes and splice it into
the list before position `pos` (`Entry->Blink` / `prevEntry->Flink` surgery).
Returns the new list and the new chunk's identity. -/
def lcAddNewChunk (chunks : List FileChunk) (pos : Nat) (remaining : Int)
    (nextId : Nat) : List FileChunk × Nat :=
  let bufferSize := min ChunkSize (ulongCast remaining)
  (chunks.take pos ++
     { id := nextId, bufferSize := bufferSize, bytesInBuffer := 0 } :: chunks.drop pos,
   nextId)

/-- Index of the chunk with the given identity. -/
def findIdxOf (chunks : List FileChunk) (cid : Nat) : Nat :=
  chunks.findIdx (fun c => c.id == cid)

/-- The ring-successor position computed at the top of
`LcGetNextAvailableChunk` (Fetch.c:815-826): the entry after the current
chunk, wrapping from the last entry to the first; the first entry when there
is no current chunk. -/
def ringNextIdx (chunks : List FileChunk) (cur : Option Nat) : Nat :=
  match cur with
  | none => 0
  | some cid =>
    let i := findIdxOf chunks cid
    if i + 1 < chunks.length then i + 1 else 0

/-- Look a chunk up by identity. -/
def getChunk (chunks : List FileChunk) (cid : Nat) : Option FileChunk :=
  chunks.find? (fun c => c.id == cid)

/-- Result of `LcGetNextAvailableChunk`. -/
structure GetChunkResult where
  chunks : List FileChunk
  listLength : Nat
  nextId : Nat
  cursor : Nat
deriving Repr, DecidableEq

/-- `Fetch.c`, `LcGetNextAvailableChunk` with `ReadOperation = TRUE`
(lines 739-855): move to the ring successor; if that chunk still holds
unwritten data, splice a new chunk in before it when and only when
`*CurrentListLength < MaxChunks`, and otherwise wait on the write event with
the 15-second timeout - a wait whose `STATUS_TIMEOUT` outcome is an
`NT_SUCCESS` code, so the wait never fails the fetch and the full chunk
itself becomes the current chunk. -/
def lcGetNextAvailableChunkRead (chunks : List FileChunk) (listLength nextId : Nat)
    (cur : Option Nat) (remaining : Int) : GetChunkResult :=
  let j := ringNextIdx chunks cur
  match chunks[j]? with
  | none => { chunks := chunks, listLength := listLength, nextId := nextId, cursor := 0 }
  | some c =>
    if c.bytesInBuffer ≠ 0 then
      if listLength < MaxChunks then
        let r := lcAddNewChunk chunks j remaining nextId
        { chunks := r.1, listLength := listLength + 1, nextId := nextId + 1,
          cursor := r.2 }
      else
        { chunks := chunks, listLength := listLength, nextId := nextId, cursor := c.id }
    else
      { chunks := chunks, listLength := listLength, nextId := nextId, cursor := c.id }

/-- `Fetch.c`, `LcGetNextAvailableChunk` with `ReadOperation = FALSE`: just
move to the ring successor. -/
def lcGetNextAvailableChunkWrite (chunks : List FileChunk) (cur : Option Nat) :
    Option Nat :=
  match chunks[ringNextIdx chunks cur]? with
  | none => none
  | some c => some c.id

/-- `Fetch.c`, `LcInitializeChunksList` (lines 858-935): preallocate up to two
chunks at the end of the list, stopping early when one chunk already covers
the whole declared file size. Returns the list, its length and the next
fresh identity. -/
def lcInitializeChunksList (fileSize : Int) : List FileChunk × Nat × Nat :=
  let r1 := lcAddNewChunk [] 0 fileSize 0
  let size1 : Nat := min ChunkSize (ulongCast fileSize)
  let rem1 := fileSize - size1
  if rem1 ≤ 0 then (r1.1, 1, 1)
  else
    let r2 := lcAddNewChunk r1.1 1 rem1 1
    (r2.1, 2, 2)

/-- Set a chunk's `BytesInBuffer`. -/
def setChunkBytes (chunks : List FileChunk) (cid : Nat) (b : Nat) : List FileChunk :=
  chunks.map (fun c => if c.id == cid then { c with bytesInBuffer := b } else c)

/-- Outcome of one pass through the `for (;;)` loop body: continue, `break`
(the fetch is done, `*BytesCopied = totalBytesWritten`), or `__leave` with an
error status. -/
inductive LoopOut where
  | next (s : FetchState)
  | done (bytesCopied : Int) (s : FetchState)
  | fail (status : NtStatus) (s : FetchState)
deriving Repr, DecidableEq

/-- The state a loop outcome carries. -/
def stateOf : LoopOut → FetchState
  | LoopOut.next s => s
  | LoopOut.done _ s => s
  | LoopOut.fail _ s => s

/-- Sequence the next piece of the loop body after an outcome: a `break` or a
`__leave` short-circuits it. -/
def onNext (o : LoopOut) (f : FetchState → LoopOut) : LoopOut :=
  match o with
  | LoopOut.next s => f s
  | out => out

/-- Delivery of pending asynchronous completions, driven by the schedule bits:
a finished `ZwReadFile` on a source file holding `actual` bytes fills the I/O
status block (`STATUS_END_OF_FILE` past the end, otherwise up to the requested
size) and signals the file handle; a finished `FltWriteFile` runs
`LcWriteCallback` (Fetch.c:698-734), which records the status and byte count
and sets the write event. -/
def applyCompletions (actual : Nat) (rdDone wrDone : Bool) (s : FetchState) :
    FetchState :=
  let s1 :=
    if s.readPending && rdDone then
      if (actual : Int) ≤ s.readReqOff then
        { s with statusBlockStatus := STATUS_END_OF_FILE, statusBlockInfo := 0,
                 readPending := false }
      else
        { s with statusBlockStatus := STATUS_SUCCESS,
                 statusBlockInfo := min s.readReqSize ((actual : Int) - s.readReqOff).toNat,
                 readPending := false }
    else s
  if s1.writePending && wrDone then
    { s1 with writeCbStatus := STATUS_SUCCESS, writeCbBytes := s1.writePendingBytes,
              writeEventSignaled := true, writePending := false }
  else s1

/-- The chunk-status update at the head of the read half (Fetch.c:562-588):
process the finished read of the current read chunk; fail on a status that is
neither a success nor `STATUS_END_OF_FILE`; on `STATUS_END_OF_FILE` or a
short read record EOF (and zero `remainingBytes`). -/
def readUpdate (s : FetchState) : LoopOut :=
  match s.readChunk with
  | some rc =>
    if ntSuccess s.statusBlockStatus || s.statusBlockStatus == STATUS_END_OF_FILE then
      match getChunk s.chunks rc with
      | none => LoopOut.next s
      | some rch =>
        if s.statusBlockStatus == STATUS_END_OF_FILE ∨ s.statusBlockInfo < rch.bufferSize then
          LoopOut.next { s with
            chunks := setChunkBytes s.chunks rc s.statusBlockInfo,
            remainingBytes := 0,
            totalBytesRead := s.totalBytesRead + s.statusBlockInfo,
            sourceFileOffset := s.sourceFileOffset + s.statusBlockInfo,
            eof := true }
        else
          LoopOut.next { s with
            chunks := setChunkBytes s.chunks rc s.statusBlockInfo,
            remainingBytes := s.remainingBytes - s.statusBlockInfo,
            totalBytesRead := s.totalBytesRead + s.statusBlockInfo,
            sourceFileOffset := s.sourceFileOffset + s.statusBlockInfo }
    else
      LoopOut.fail s.statusBlockStatus s
  | none => LoopOut.next s

/-- The read-cursor move (Fetch.c:599-607): `LcGetNextAvailableChunk` for a
read, taking the chunk list, its length counter and the read cursor. -/
def readCursorAdvance (s2 : FetchState) : FetchState :=
  { s2 with
    chunks := (lcGetNextAvailableChunkRead s2.chunks s2.chunkListLength s2.nextId
      s2.readChunk s2.remainingBytes).chunks,
    chunkListLength := (lcGetNextAvailableChunkRead s2.chunks s2.chunkListLength s2.nextId
      s2.readChunk s2.remainingBytes).listLength,
    nextId := (lcGetNextAvailableChunkRead s2.chunks s2.chunkListLength s2.nextId
      s2.readChunk s2.remainingBytes).nextId,
    readChunk := some (lcGetNextAvailableChunkRead s2.chunks s2.chunkListLength s2.nextId
      s2.readChunk s2.remainingBytes).cursor }

/-- The `ZwReadFile` issue (Fetch.c:610-620): schedule the asynchronous read
of the current read chunk's full buffer at the current source offset. -/
def readIssue (s3 : FetchState) : FetchState :=
  match s3.readChunk with
  | none => s3
  | some cid =>
    match getChunk s3.chunks cid with
    | none => s3
    | some rch =>
      { s3 with readPending := true, readReqSize := rch.bufferSize,
                readReqOff := s3.sourceFileOffset }

/-- Moving to the next read (Fetch.c:592-620): reset a non-positive
`remainingBytes` to `ChunkSize`, move the read cursor, schedule the read. -/
def scheduleRead (s1 : FetchState) : FetchState :=
  readIssue (readCursorAdvance
    (if s1.remainingBytes ≤ 0 then { s1 with remainingBytes := ChunkSize } else s1))

/-- The read half of the loop body (Fetch.c:560-625). -/
def readHalf (s : FetchState) (readComplete : Bool) : LoopOut :=
  if !s.eof && readComplete then
    onNext (readUpdate s) (fun s1 =>
      if !s1.eof then LoopOut.next (scheduleRead s1) else LoopOut.next s1)
  else
    LoopOut.next s

/-- Accounting of a finished write (Fetch.c:633-638): clear the written
chunk's `BytesInBuffer` and add the callback's byte count to the totals. -/
def writeAccount (s : FetchState) (wc : Nat) : FetchState :=
  { s with
    chunks := setChunkBytes s.chunks wc 0,
    totalBytesWritten := s.totalBytesWritten + s.writeCbBytes,
    destinationFileOffset := s.destinationFileOffset + s.writeCbBytes }

/-- The write-cursor move (Fetch.c:641-649): `LcGetNextAvailableChunk` for a
write. -/
def writeCursorAdvance (s : FetchState) : FetchState :=
  { s with writeChunk := lcGetNextAvailableChunkWrite s.chunks s.writeChunk }

/-- The advance part of the write half (Fetch.c:629-651), skipped when the
previous iteration parked waiting for a read: fail on a failed write status,
account the finished write and move the write cursor. -/
def writeAdvance (s : FetchState) : LoopOut :=
  if !s.waitingForRead then
    match s.writeChunk with
    | some wc =>
      if ntSuccess s.writeCbStatus then
        LoopOut.next (writeCursorAdvance (writeAccount s wc))
      else
        LoopOut.fail s.writeCbStatus s
    | none => LoopOut.next (writeCursorAdvance s)
  else
    LoopOut.next s

/-- The tail of the write half (Fetch.c:653-684): `break` when the current
write chunk is empty at EOF; park for the read filling it otherwise; or clear
the write event and schedule the next `FltWriteFile` of its contents. -/
def writeIssue (s3 : FetchState) : LoopOut :=
  match s3.writeChunk with
  | none => LoopOut.next s3
  | some wc =>
    match getChunk s3.chunks wc with
    | none => LoopOut.next s3
    | some wch =>
      if wch.bytesInBuffer == 0 then
        if s3.eof then LoopOut.done s3.totalBytesWritten s3
        else LoopOut.next { s3 with waitingForRead := true }
      else
        LoopOut.next { s3 with
          writeEventSignaled := false,
          writePending := true,
          writePendingBytes := wch.bytesInBuffer }

/-- The write half of the loop body (Fetch.c:627-685). -/
def writeHalf (s : FetchState) (writeComplete : Bool) : LoopOut :=
  if writeComplete then
    onNext (writeAdvance s) (fun s2 => writeIssue { s2 with waitingForRead := false })
  else
    LoopOut.next s

/-- One pass through the `for (;;)` loop of `LcFetchFileByChunks`
(Fetch.c:545-686), after the pending completions selected by the schedule
bits have been delivered. `readComplete` is the outcome of the
`ZwWaitForSingleObject` poll on the source handle (unconditionally treated as
complete after the blocking wait of a parked iteration, a `STATUS_TIMEOUT`
from that wait being an `NT_SUCCESS` code); `writeComplete` reads the write
event's state. -/
def loopIter (actual : Nat) (rdDone wrDone : Bool) (s0 : FetchState) : LoopOut :=
  let s := applyCompletions actual rdDone wrDone s0
  let readComplete := if s.waitingForRead then true else !s.readPending
  let writeComplete := s.writeEventSignaled
  onNext (readHalf s readComplete) (fun s1 => writeHalf s1 writeComplete)

/-- The entry state of the loop: the preallocated chunk list, both cursors
not yet assigned, the write event initialized signaled
(`KeInitializeEvent(&writeEvent, NotificationEvent, TRUE)`), and
`remainingBytes = SourceFileSize`. -/
def initFetchState (declared : Int) : FetchState :=
  let r := lcInitializeChunksList declared
  { chunks := r.1, chunkListLength := r.2.1, nextId := r.2.2,
    readChunk := none, writeChunk := none,
    eof := false, waitingForRead := false,
    readPending := false, readReqSize := 0, readReqOff := 0,
    statusBlockStatus := STATUS_SUCCESS, statusBlockInfo := 0,
    writeEventSignaled := true, writeCbStatus := STATUS_SUCCESS, writeCbBytes := 0,
    writePending := false, writePendingBytes := 0,
    remainingBytes := declared, totalBytesRead := 0, totalBytesWritten := 0,
    sourceFileOffset := 0, destinationFileOffset := 0 }

/-- Run the loop for at most `fuel` iterations, the `k`-th iteration's
completion bits drawn from the schedule. -/
def runLoop (actual : Nat) (sched : Nat → Bool × Bool) :
    Nat → Nat → FetchState → LoopOut
  | 0, _, s => LoopOut.next s
  | fuel + 1, k, s =>
    match loopIter actual (sched k).1 (sched k).2 s with
    | LoopOut.next s2 => runLoop actual sched fuel (k + 1) s2
    | out => out

/-- `LcFetchFileByChunks` on a source file that declares `declared` bytes but
actually holds `actual` bytes, under a given completion schedule. -/
def lcFetchFileByChunks (declared : Int) (actual : Nat) (sched : Nat → Bool × Bool)
    (fuel : Nat) : LoopOut :=
  runLoop actual sched fuel 0 (initFetchState declared)

/-- The schedule in which every scheduled I/O completes before the loop polls
again. -/
def syncSched : Nat → Bool × Bool := fun _ => (true, true)

/-- The state after `n` loop iterations (stuttering once the loop has
exited). -/
def fetchStates (declared : Int) (actual : Nat) (sched : Nat → Bool × Bool) :
    Nat → FetchState
  | 0 => initFetchState declared
  | n + 1 =>
    match loopIter actual (sched n).1 (sched n).2
        (fetchStates declared actual sched n) with
    | LoopOut.next s => s
    | LoopOut.done _ s => s
    | LoopOut.fail _ s => s

/-- The copied byte count a finished run reports. -/
def bytesCopiedOf : LoopOut → Option Int
  | LoopOut.done b _ => some b
  | _ => none

/-- The structural chunk-list invariant of the fetch engine: the
`chunkListLength` counter tracks the list, the list never exceeds
`MaxChunks` entries, and every buffer capacity is at most `ChunkSize`. -/
def ChunkInv (s : FetchState) : Prop :=
  s.chunkListLength = s.chunks.length ∧ s.chunks.length ≤ MaxChunks ∧
    ∀ c ∈ s.chunks, c.bufferSize ≤ ChunkSize

theorem setChunkBytes_length (l : List FileChunk) (cid b : Nat) :
    (setChunkBytes l cid b).length = l.length := by
  simp [setChunkBytes]

theorem setChunkBytes_sizes {l : List FileChunk} {cid b : Nat}
    (h : ∀ c ∈ l, c.bufferSize ≤ ChunkSize) :
    ∀ c ∈ setChunkBytes l cid b, c.bufferSize ≤ ChunkSize := by
  intro c hc
  rw [setChunkBytes] at hc
  obtain ⟨d, hd, hdc⟩ := List.mem_map.mp hc
  have hsz : c.bufferSize = d.bufferSize := by
    rw [← hdc]
    by_cases hid : (d.id == cid) = true
    · simp [hid]
    · simp [hid]
  rw [hsz]
  exact h d hd

theorem lcAddNewChunk_length (l : List FileChunk) (pos : Nat) (rem : Int) (nid : Nat) :
    (lcAddNewChunk l pos rem nid).1.length = l.length + 1 := by
  simp only [lcAddNewChunk, List.length_append, List.length_take, List.length_cons,
    List.length_drop]
  omega

theorem lcAddNewChunk_mem {l : List FileChunk} {pos : Nat} {rem : Int} {nid : Nat}
    {c : FileChunk} (hc : c ∈ (lcAddNewChunk l pos rem nid).1) :
    c ∈ l ∨ c.bufferSize = min ChunkSize (ulongCast rem) := by
  rw [lcAddNewChunk] at hc
  simp only [List.mem_append, List.mem_cons] at hc
  rcases hc with h1 | h2 | h3
  · exact Or.inl ((List.take_sublist _ _).subset h1)
  · exact Or.inr (by rw [h2])
  · exact Or.inl ((List.drop_sublist _ _).subset h3)

theorem getNextRead_guard (chunks : List FileChunk) (extra nextId : Nat)
    (cur : Option Nat) (remaining : Int) :
    (lcGetNextAvailableChunkRead chunks (MaxChunks + extra) nextId cur remaining).chunks
        = chunks ∧
      (lcGetNextAvailableChunkRead chunks (MaxChunks + extra) nextId cur remaining).listLength
        = MaxChunks + extra := by
  rw [lcGetNextAvailableChunkRead]
  have hlt : ¬ MaxChunks + extra < MaxChunks := by omega
  rcases hj : chunks[ringNextIdx chunks cur]? with _ | c
  · exact ⟨rfl, rfl⟩
  · dsimp only
    by_cases hb : c.bytesInBuffer ≠ 0
    · rw [if_pos hb, if_neg hlt]
      exact ⟨rfl, rfl⟩
    · rw [if_neg hb]
      exact ⟨rfl, rfl⟩

theorem getNextRead_inv {chunks : List FileChunk} {listLength nextId : Nat}
    {cur : Option Nat} {remaining : Int}
    (h1 : listLength = chunks.length) (h2 : chunks.length ≤ MaxChunks)
    (h3 : ∀ c ∈ chunks, c.bufferSize ≤ ChunkSize) :
    (lcGetNextAvailableChunkRead chunks listLength nextId cur remaining).listLength
        = (lcGetNextAvailableChunkRead chunks listLength nextId cur remaining).chunks.length ∧
      (lcGetNextAvailableChunkRead chunks listLength nextId cur remaining).chunks.length
        ≤ MaxChunks ∧
      ∀ c ∈ (lcGetNextAvailableChunkRead chunks listLength nextId cur remaining).chunks,
        c.bufferSize ≤ ChunkSize := by
  rw [lcGetNextAvailableChunkRead]
  rcases hj : chunks[ringNextIdx chunks cur]? with _ | c
  · exact ⟨h1, h2, h3⟩
  · dsimp only
    by_cases hb : c.bytesInBuffer ≠ 0
    · rw [if_pos hb]
      by_cases hlt : listLength < MaxChunks
      · rw [if_pos hlt]
        dsimp only
        refine ⟨?_, ?_, ?_⟩
        · rw [lcAddNewChunk_length, h1]
        · rw [lcAddNewChunk_length]
          omega
        · intro x hx
          rcases lcAddNewChunk_mem hx with h | h
          · exact h3 x h
          · rw [h]
            exact Nat.min_le_left _ _
      · rw [if_neg hlt]
        exact ⟨h1, h2, h3⟩
    · rw [if_neg hb]
      exact ⟨h1, h2, h3⟩

theorem applyCompletions_chunks (a : Nat) (rd wr : Bool) (s : FetchState) :
    (applyCompletions a rd wr s).chunks = s.chunks ∧
      (applyCompletions a rd wr s).chunkListLength = s.chunkListLength := by
  rw [applyCompletions]
  repeat' split
  all_goals exact ⟨rfl, rfl⟩

theorem chunkInv_onNext {o : LoopOut} {f : FetchState → LoopOut}
    (h : ChunkInv (stateOf o)) (hf : ∀ s1, ChunkInv s1 → ChunkInv (stateOf (f s1))) :
    ChunkInv (stateOf (onNext o f)) := by
  cases o with
  | next s => exact hf s h
  | done b s => exact h
  | fail st s => exact h

theorem chunkInv_readUpdate {s : FetchState} (h : ChunkInv s) :
    ChunkInv (stateOf (readUpdate s)) := by
  obtain ⟨h1, h2, h3⟩ := h
  rw [readUpdate]
  split
  · split
    · split
      · exact ⟨h1, h2, h3⟩
      · split
        · refine ⟨?_, ?_, ?_⟩
          · simpa [stateOf, setChunkBytes_length] using h1
          · simpa [stateOf, setChunkBytes_length] using h2
          · simpa [stateOf] using setChunkBytes_sizes h3
        · refine ⟨?_, ?_, ?_⟩
          · simpa [stateOf, setChunkBytes_length] using h1
          · simpa [stateOf, setChunkBytes_length] using h2
          · simpa [stateOf] using setChunkBytes_sizes h3
    · exact ⟨h1, h2, h3⟩
  · exact ⟨h1, h2, h3⟩

theorem chunkInv_readCursorAdvance {s : FetchState} (h : ChunkInv s) :
    ChunkInv (readCursorAdvance s) := by
  obtain ⟨h1, h2, h3⟩ := h
  have hg := @getNextRead_inv s.chunks s.chunkListLength s.nextId s.readChunk
    s.remainingBytes h1 h2 h3
  exact ⟨hg.1, hg.2.1, hg.2.2⟩

theorem chunkInv_readIssue {s : FetchState} (h : ChunkInv s) :
    ChunkInv (readIssue s) := by
  obtain ⟨h1, h2, h3⟩ := h
  rw [readIssue]
  split
  · exact ⟨h1, h2, h3⟩
  · split
    · exact ⟨h1, h2, h3⟩
    · exact ⟨h1, h2, h3⟩

theorem chunkInv_scheduleRead {s : FetchState} (h : ChunkInv s) :
    ChunkInv (scheduleRead s) := by
  obtain ⟨h1, h2, h3⟩ := h
  rw [scheduleRead]
  split
  · exact chunkInv_readIssue (chunkInv_readCursorAdvance ⟨h1, h2, h3⟩)
  · exact chunkInv_readIssue (chunkInv_readCursorAdvance ⟨h1, h2, h3⟩)

theorem chunkInv_readHalf {s : FetchState} (h : ChunkInv s) (rc : Bool) :
    ChunkInv (stateOf (readHalf s rc)) := by
  rw [readHalf]
  split
  · refine chunkInv_onNext (chunkInv_readUpdate h) (fun s1 h1 => ?_)
    split
    · exact chunkInv_scheduleRead h1
    · exact h1
  · exact h

theorem chunkInv_writeAccount {s : FetchState} (h : ChunkInv s) (wc : Nat) :
    ChunkInv (writeAccount s wc) := by
  obtain ⟨h1, h2, h3⟩ := h
  refine ⟨?_, ?_, ?_⟩
  · simpa [writeAccount, setChunkBytes_length] using h1
  · simpa [writeAccount, setChunkBytes_length] using h2
  · simpa [writeAccount] using setChunkBytes_sizes h3

theorem chunkInv_writeCursorAdvance {s : FetchState} (h : ChunkInv s) :
    ChunkInv (writeCursorAdvance s) := h

theorem chunkInv_writeAdvance {s : FetchState} (h : ChunkInv s) :
    ChunkInv (stateOf (writeAdvance s)) := by
  rw [writeAdvance]
  split
  · split
    · split
      · exact chunkInv_writeCursorAdvance (chunkInv_writeAccount h _)
      · exact h
    · exact chunkInv_writeCursorAdvance h
  · exact h

theorem chunkInv_writeIssue {s : FetchState} (h : ChunkInv s) :
    ChunkInv (stateOf (writeIssue s)) := by
  rw [writeIssue]
  split
  · exact h
  · split
    · exact h
    · split
      · split
        · exact h
        · exact h
      · exact h

theorem chunkInv_writeHalf {s : FetchState} (h : ChunkInv s) (wc : Bool) :
    ChunkInv (stateOf (writeHalf s wc)) := by
  rw [writeHalf]
  split
  · exact chunkInv_onNext (chunkInv_writeAdvance h)
      (fun s2 h2 => chunkInv_writeIssue h2)
  · exact h

theorem chunkInv_applyCompletions {s : FetchState} (h : ChunkInv s)
    (a : Nat) (rd wr : Bool) : ChunkInv (applyCompletions a rd wr s) := by
  obtain ⟨h1, h2, h3⟩ := h
  have hc := applyCompletions_chunks a rd wr s
  exact ⟨by rw [hc.1, hc.2]; exact h1, by rw [hc.1]; exact h2, by rw [hc.1]; exact h3⟩

theorem chunkInv_loopIter {s : FetchState} (h : ChunkInv s)
    (a : Nat) (rd wr : Bool) : ChunkInv (stateOf (loopIter a rd wr s)) := by
  rw [loopIter]
  exact chunkInv_onNext
    (chunkInv_readHalf (chunkInv_applyCompletions h a rd wr) _)
    (fun s1 h1 => chunkInv_writeHalf h1 _)

theorem chunkInv_init (declared : Int) : ChunkInv (initFetchState declared) := by
  rw [initFetchState, lcInitializeChunksList]
  dsimp only
  split
  · refine ⟨?_, ?_, ?_⟩
    · show (1 : Nat) = (lcAddNewChunk [] 0 declared 0).1.length
      rw [lcAddNewChunk_length]
      rfl
    · show (lcAddNewChunk [] 0 declared 0).1.length ≤ MaxChunks
      rw [lcAddNewChunk_length]
      decide
    · intro c hc
      rcases lcAddNewChunk_mem hc with h | h
      · simp at h
      · rw [h]
        exact Nat.min_le_left _ _
  · refine ⟨?_, ?_, ?_⟩
    · show (2 : Nat) = (lcAddNewChunk (lcAddNewChunk [] 0 declared 0).1 1
        (declared - (min ChunkSize (ulongCast declared) : Nat)) 1).1.length
      rw [lcAddNewChunk_length, lcAddNewChunk_length]
      rfl
    · show (lcAddNewChunk (lcAddNewChunk [] 0 declared 0).1 1
        (declared - (min ChunkSize (ulongCast declared) : Nat)) 1).1.length ≤ MaxChunks
      rw [lcAddNewChunk_length, lcAddNewChunk_length]
      decide
    · intro c hc
      rcases lcAddNewChunk_mem hc with h | h
      · rcases lcAddNewChunk_mem h with h2 | h2
        · simp at h2
        · rw [h2]
          exact Nat.min_le_left _ _
      · rw [h]
        exact Nat.min_le_left _ _

theorem chunkInv_fetchStates (declared : Int) (actual : Nat)
    (sched : Nat → Bool × Bool) (n : Nat) :
    ChunkInv (fetchStates declared actual sched n) := by
  induction n with
  | zero => exact chunkInv_init declared
  | succ m ih =>
    rw [fetchStates]
    have hstep := chunkInv_loopIter ih actual (sched m).1 (sched m).2
    rcases h : loopIter actual (sched m).1 (sched m).2
        (fetchStates declared actual sched m) with s1 | ⟨b, s1⟩ | ⟨st, s1⟩
    · rw [h] at hstep
      exact hstep
    · rw [h] at hstep
      exact hstep
    · rw [h] at hstep
      exact hstep


/-- C4: throughout every execution of the chunked fetch engine - any declared
source size, any actual remote size, any completion schedule, any number of
loop iterations - the chunk list never holds more than `MaxChunks = 4` chunks
(and the `chunkListLength` counter tracks the true list length), and every
chunk's buffer capacity is at most `ChunkSize = 128 * 1024` bytes. Moreover
`LcGetNextAvailableChunk` splices a new chunk in only when the length counter
is strictly below `MaxChunks` - at or above it the list is left unchanged and
the reader waits for a write completion instead - and `LcAddNewChunk` caps
every allocation at `min(ChunkSize, (ULONG)remainingBytes)`. -/
theorem C4_chunk_list_bounds (declared : Int) (actual : Nat)
    (sched : Nat → Bool × Bool) (n : Nat) :
    ((fetchStates declared actual sched n).chunkListLength
        = (fetchStates declared actual sched n).chunks.length ∧
      (fetchStates declared actual sched n).chunks.length ≤ MaxChunks ∧
      ∀ c ∈ (fetchStates declared actual sched n).chunks, c.bufferSize ≤ ChunkSize) ∧
    (∀ (chunks : List FileChunk) (extra nextId : Nat) (cur : Option Nat)
        (remaining : Int),
      (lcGetNextAvailableChunkRead chunks (MaxChunks + extra) nextId cur
        remaining).chunks = chunks) ∧
    (∀ (chunks : List FileChunk) (pos nextId : Nat) (remaining : Int) (c : FileChunk),
      c ∈ (lcAddNewChunk chunks pos remaining nextId).1 →
        c ∈ chunks ∨ c.bufferSize = min ChunkSize (ulongCast remaining)) ∧
    ChunkSize = 128 * 1024 ∧ MaxChunks = 4 := by
  refine ⟨chunkInv_fetchStates declared actual sched n, ?_, ?_, rfl, rfl⟩
  · intro chunks extra nextId cur remaining
    exact (getNextRead_guard chunks extra nextId cur remaining).1
  · intro chunks pos nextId remaining c hc
    exact lcAddNewChunk_mem hc

/-- C2 counterexample: a fetch of a stub that declares 12 remote bytes while
the source actually holds 25 completes successfully having copied all 25
bytes - `Fetch.c:595-598` resets a non-positive `remainingBytes` to
`ChunkSize` and the engine keeps copying to the actual end of the source - so
the reported `bytes_copied` is not
`min(actual_remote_bytes, declared_remote_size) = 12`. -/
theorem C2_counterexample :
    bytesCopiedOf (lcFetchFileByChunks 12 25 syncSched 8) = some 25 ∧
      min (25 : Int) 12 = 12 ∧ (25 : Int) ≠ 12 :=
  ⟨by decide, by decide, by decide⟩


theorem ringNextIdx_lt {chunks : List FileChunk} (h : chunks ≠ [])
    (cur : Option Nat) : ringNextIdx chunks cur < chunks.length := by
  have hlen : 0 < chunks.length := List.length_pos.mpr h
  rw [ringNextIdx.eq_def]
  rcases cur with _ | cid
  · exact hlen
  · dsimp only
    by_cases hi : findIdxOf chunks cid + 1 < chunks.length
    · rw [if_pos hi]
      exact hi
    · rw [if_neg hi]
      exact hlen

theorem getChunk_mem {chunks : List FileChunk} {cid : Nat} {c : FileChunk}
    (h : getChunk chunks cid = some c) : c ∈ chunks :=
  List.mem_of_find?_eq_some h

theorem setChunkBytes_allZero {chunks : List FileChunk} {cid : Nat}
    (h : ∀ c ∈ chunks, c.id ≠ cid → c.bytesInBuffer = 0) :
    ∀ c ∈ setChunkBytes chunks cid 0, c.bytesInBuffer = 0 := by
  intro c hc
  rw [setChunkBytes] at hc
  obtain ⟨d, hd, hdc⟩ := List.mem_map.mp hc
  rw [← hdc]
  by_cases hid : (d.id == cid) = true
  · simp [hid]
  · simp only [hid, if_false]
    exact h d hd (by simpa using hid)

/-- The shapes the chunk ring takes between two iterations of the
synchronous steady phase: the write chunk `W`, the read chunk `R` directly
after it in ring order, and at most one further (empty) chunk. -/
def SteadyShape (chunks : List FileChunk) (W R : FileChunk) : Prop :=
  chunks = [W, R] ∨ chunks = [R, W] ∨
    ∃ x : FileChunk, (chunks = [W, R, x] ∨ chunks = [x, W, R] ∨ chunks = [R, x, W]) ∧
      x.bytesInBuffer = 0 ∧ 0 < x.bufferSize ∧ x.id ≠ W.id ∧ x.id ≠ R.id

/-- The states `LcFetchFileByChunks` visits at the top of its loop when every
scheduled I/O completes before the next poll (the synchronous schedule), for
a source that declares `declared` bytes and actually holds `actual`:
the entry state, the warm-up state (the writer parked on the first chunk
while its read is in flight), the steady state (one read and one write in
flight), and the drain state (EOF seen, the final write in flight). -/
inductive SyncPhase (declared : Int) (actual : Nat) : FetchState → Prop where
  | init (h1 : 0 < declared) (h2 : declared < 2 ^ 32) :
      SyncPhase declared actual (initFetchState declared)
  | warm (s : FetchState) (c0 : FileChunk) (rest : List FileChunk)
      (hch : s.chunks = c0 :: rest)
      (hrest : rest = [] ∨ ∃ d0 : FileChunk, rest = [d0] ∧ d0.bytesInBuffer = 0 ∧
        0 < d0.bufferSize ∧ d0.id ≠ c0.id)
      (hc0b : c0.bytesInBuffer = 0) (hc0s : 0 < c0.bufferSize)
      (heof : s.eof = false) (hwait : s.waitingForRead = true)
      (hrc : s.readChunk = some c0.id) (hwc : s.writeChunk = some c0.id)
      (hrp : s.readPending = true) (hrq : s.readReqSize = c0.bufferSize)
      (hro : s.readReqOff = s.sourceFileOffset)
      (hwp : s.writePending = false) (hev : s.writeEventSignaled = true)
      (htr : s.totalBytesRead = s.sourceFileOffset)
      (htw : s.totalBytesWritten = s.destinationFileOffset)
      (hoff : s.sourceFileOffset = s.destinationFileOffset)
      (hle : s.sourceFileOffset ≤ (actual : Int))
      (hrem : s.remainingBytes < 2 ^ 32)
      (hlen : s.chunkListLength = s.chunks.length)
      (hfresh : ∀ c ∈ s.chunks, c.id < s.nextId) :
      SyncPhase declared actual s
  | steady (s : FetchState) (W R : FileChunk)
      (hsh : SteadyShape s.chunks W R)
      (hWR : W.id ≠ R.id)
      (hWb : 0 < W.bytesInBuffer) (hWs : 0 < W.bufferSize)
      (hRb : R.bytesInBuffer = 0) (hRs : 0 < R.bufferSize)
      (heof : s.eof = false) (hwait : s.waitingForRead = false)
      (hrc : s.readChunk = some R.id) (hwc : s.writeChunk = some W.id)
      (hrp : s.readPending = true) (hrq : s.readReqSize = R.bufferSize)
      (hro : s.readReqOff = s.sourceFileOffset)
      (hwp : s.writePending = true) (hev : s.writeEventSignaled = false)
      (hwpb : s.writePendingBytes = W.bytesInBuffer)
      (htr : s.totalBytesRead = s.sourceFileOffset)
      (htw : s.totalBytesWritten = s.destinationFileOffset)
      (hoff : s.sourceFileOffset = s.destinationFileOffset + W.bytesInBuffer)
      (hle : s.sourceFileOffset ≤ (actual : Int))
      (hrem : s.remainingBytes < 2 ^ 32)
      (hlen : s.chunkListLength = s.chunks.length)
      (hfresh : ∀ c ∈ s.chunks, c.id < s.nextId) :
      SyncPhase declared actual s
  | drain (s : FetchState) (W : FileChunk)
      (hmem : W ∈ s.chunks)
      (hwc : s.writeChunk = some W.id)
      (hothers : ∀ c ∈ s.chunks, c.id ≠ W.id → c.bytesInBuffer = 0)
      (hWb : W.bytesInBuffer = s.writePendingBytes)
      (heof : s.eof = true) (hwait : s.waitingForRead = false)
      (hrp : s.readPending = false)
      (hwp : s.writePending = true) (hev : s.writeEventSignaled = false)
      (hacc : s.totalBytesWritten + (s.writePendingBytes : Int) = (actual : Int)) :
      SyncPhase declared actual s


theorem getElem_mem_chunks {l : List FileChunk} {i : Nat} {c : FileChunk}
    (h : l[i]? = some c) : c ∈ l := by
  induction l generalizing i with
  | nil => simp at h
  | cons x rest ih =>
    cases i with
    | zero =>
      simp only [List.getElem?_cons_zero, Option.some.injEq] at h
      exact h ▸ List.mem_cons_self _ _
    | succ n =>
      simp only [List.getElem?_cons_succ] at h
      exact List.mem_cons_of_mem _ (ih h)

theorem lcGetNextWrite_some {chunks : List FileChunk} (h : chunks ≠ []) (cur : Option Nat) :
    ∃ c ∈ chunks, lcGetNextAvailableChunkWrite chunks cur = some c.id := by
  rw [lcGetNextAvailableChunkWrite.eq_def]
  have hlt := ringNextIdx_lt h cur
  rcases hj : chunks[ringNextIdx chunks cur]? with _ | c
  · rw [List.getElem?_eq_none_iff] at hj
    omega
  · exact ⟨c, getElem_mem_chunks hj, rfl⟩

theorem getChunk_isSome {chunks : List FileChunk} {c : FileChunk} (hc : c ∈ chunks) :
    ∃ d, getChunk chunks c.id = some d ∧ d ∈ chunks ∧ d.id = c.id := by
  rcases hg : getChunk chunks c.id with _ | d
  · exfalso
    rw [getChunk] at hg
    have := List.find?_eq_none.mp hg c hc
    simp at this
  · refine ⟨d, rfl, getChunk_mem hg, ?_⟩
    have := List.find?_some hg
    simpa using this

theorem loopIter_eval (actual : Nat) (rd wr : Bool) (s : FetchState) :
    loopIter actual rd wr s =
      onNext (readHalf (applyCompletions actual rd wr s)
          (if (applyCompletions actual rd wr s).waitingForRead = true then true
           else !(applyCompletions actual rd wr s).readPending))
        (fun s1 => writeHalf s1 (applyCompletions actual rd wr s).writeEventSignaled) := rfl

theorem onNext_next (s : FetchState) (f : FetchState → LoopOut) :
    onNext (LoopOut.next s) f = f s := rfl

theorem readHalf_skip_eof {s : FetchState} (h : s.eof = true) (rc : Bool) :
    readHalf s rc = LoopOut.next s := by
  rw [readHalf]
  simp [h]

theorem readHalf_go {s : FetchState} (he : s.eof = false) :
    readHalf s true = onNext (readUpdate s) (fun s1 =>
      if !s1.eof then LoopOut.next (scheduleRead s1) else LoopOut.next s1) := by
  rw [readHalf]
  simp [he]

theorem writeHalf_true (s : FetchState) :
    writeHalf s true = onNext (writeAdvance s)
      (fun s2 => writeIssue { s2 with waitingForRead := false }) := by
  rw [writeHalf]
  rfl

theorem writeAdvance_skip {s : FetchState} (h : s.waitingForRead = true) :
    writeAdvance s = LoopOut.next s := by
  rw [writeAdvance]
  simp [h]

theorem writeAdvance_eval {s : FetchState} {wid : Nat}
    (hwait : s.waitingForRead = false) (hwc : s.writeChunk = some wid)
    (hcb : ntSuccess s.writeCbStatus = true) :
    writeAdvance s = LoopOut.next (writeCursorAdvance (writeAccount s wid)) := by
  rw [writeAdvance]
  simp [hwait, hwc, hcb]

theorem writeAdvance_none {s : FetchState}
    (hwait : s.waitingForRead = false) (hwc : s.writeChunk = none) :
    writeAdvance s = LoopOut.next (writeCursorAdvance s) := by
  rw [writeAdvance]
  simp [hwait, hwc]

theorem writeIssue_done {s : FetchState} {wid : Nat} {wch : FileChunk}
    (hwc : s.writeChunk = some wid) (hg : getChunk s.chunks wid = some wch)
    (hb : wch.bytesInBuffer = 0) (he : s.eof = true) :
    writeIssue s = LoopOut.done s.totalBytesWritten s := by
  rw [writeIssue]
  simp [hwc, hg, hb, he]

theorem writeIssue_park {s : FetchState} {wid : Nat} {wch : FileChunk}
    (hwc : s.writeChunk = some wid) (hg : getChunk s.chunks wid = some wch)
    (hb : wch.bytesInBuffer = 0) (he : s.eof = false) :
    writeIssue s = LoopOut.next { s with waitingForRead := true } := by
  rw [writeIssue]
  simp [hwc, hg, hb, he]

theorem writeIssue_write {s : FetchState} {wid : Nat} {wch : FileChunk}
    (hwc : s.writeChunk = some wid) (hg : getChunk s.chunks wid = some wch)
    (hb : wch.bytesInBuffer ≠ 0) :
    writeIssue s = LoopOut.next
      { s with writeEventSignaled := false, writePending := true,
               writePendingBytes := wch.bytesInBuffer } := by
  rw [writeIssue]
  simp [hwc, hg, hb]

theorem readIssue_go {s : FetchState} {cid : Nat} {rch : FileChunk}
    (hrc : s.readChunk = some cid) (hg : getChunk s.chunks cid = some rch) :
    readIssue s = { s with readPending := true, readReqSize := rch.bufferSize,
                           readReqOff := s.sourceFileOffset } := by
  rw [readIssue]
  simp [hrc, hg]

theorem ac_write {actual : Nat} {s : FetchState}
    (hrp : s.readPending = false) (hwp : s.writePending = true) :
    applyCompletions actual true true s =
      { s with writeCbStatus := STATUS_SUCCESS, writeCbBytes := s.writePendingBytes,
               writeEventSignaled := true, writePending := false } := by
  rw [applyCompletions]
  simp [hrp, hwp]

theorem syncStep_drain {actual : Nat} {s : FetchState} {W : FileChunk}
    (hmem : W ∈ s.chunks)
    (hwc : s.writeChunk = some W.id)
    (hothers : ∀ c ∈ s.chunks, c.id ≠ W.id → c.bytesInBuffer = 0)
    (heof : s.eof = true) (hwait : s.waitingForRead = false)
    (hrp : s.readPending = false)
    (hwp : s.writePending = true)
    (hacc : s.totalBytesWritten + (s.writePendingBytes : Int) = (actual : Int)) :
    ∃ s2, loopIter actual true true s = LoopOut.done (actual : Int) s2 ∧
      s2.totalBytesWritten = (actual : Int) := by
  have hA := @ac_write actual s hrp hwp
  set t := applyCompletions actual true true s with hT
  have h1 : t.eof = true := by rw [hA]; exact heof
  have h2 : t.waitingForRead = false := by rw [hA]; exact hwait
  have h3 : t.readPending = false := by rw [hA]; exact hrp
  have h4 : t.writeEventSignaled = true := by rw [hA]
  have h5 : t.writeChunk = some W.id := by rw [hA]; exact hwc
  have h6 : t.writeCbStatus = STATUS_SUCCESS := by rw [hA]
  have h7 : t.writeCbBytes = s.writePendingBytes := by rw [hA]
  have h8 : t.chunks = s.chunks := by rw [hA]
  have h9 : t.totalBytesWritten = s.totalBytesWritten := by rw [hA]
  -- the next write chunk after the final one, and its (empty) contents
  have hne : setChunkBytes t.chunks W.id 0 ≠ [] := by
    have h0 : 0 < (setChunkBytes t.chunks W.id 0).length := by
      rw [setChunkBytes_length, h8]
      exact List.length_pos.mpr (List.ne_nil_of_mem hmem)
    exact List.ne_nil_of_length_pos h0
  obtain ⟨cn, hcnmem, hgw⟩ := lcGetNextWrite_some hne t.writeChunk
  obtain ⟨d, hgd, hdmem, hdid⟩ := getChunk_isSome hcnmem
  have hd0 : d.bytesInBuffer = 0 := by
    refine setChunkBytes_allZero ?_ d hdmem
    rw [h8]
    exact hothers
  -- evaluate the iteration
  rw [loopIter_eval, ← hT]
  have hifrc : (if t.waitingForRead = true then true else !t.readPending) = true := by
    simp [h2, h3]
  rw [hifrc, readHalf_skip_eof h1]
  simp only [onNext_next]
  rw [h4, writeHalf_true, writeAdvance_eval h2 h5 (by rw [h6]; decide)]
  simp only [onNext_next]
  -- the state the final write-account produces
  have hu_wc : ({ writeCursorAdvance (writeAccount t W.id) with
      waitingForRead := false } : FetchState).writeChunk = some cn.id := by
    show lcGetNextAvailableChunkWrite (setChunkBytes t.chunks W.id 0) t.writeChunk
      = some cn.id
    exact hgw
  have hu_g : getChunk ({ writeCursorAdvance (writeAccount t W.id) with
      waitingForRead := false } : FetchState).chunks cn.id = some d := by
    show getChunk (setChunkBytes t.chunks W.id 0) cn.id = some d
    exact hgd
  have hu_eof : ({ writeCursorAdvance (writeAccount t W.id) with
      waitingForRead := false } : FetchState).eof = true := h1
  rw [writeIssue_done hu_wc hu_g hd0 hu_eof]
  have htw : ({ writeCursorAdvance (writeAccount t W.id) with
      waitingForRead := false } : FetchState).totalBytesWritten = (actual : Int) := by
    show t.totalBytesWritten + (t.writeCbBytes : Int) = (actual : Int)
    rw [h9, h7]
    exact hacc
  rw [htw]
  exact ⟨_, rfl, htw⟩


theorem getChunk_cons_self (c : FileChunk) (l : List FileChunk) :
    getChunk (c :: l) c.id = some c := by
  rw [getChunk]
  simp

theorem getNextWrite_cons_none (c : FileChunk) (l : List FileChunk) :
    lcGetNextAvailableChunkWrite (c :: l) none = some c.id := by
  rw [lcGetNextAvailableChunkWrite.eq_def]
  simp [ringNextIdx]

theorem readUpdate_none {s : FetchState} (h : s.readChunk = none) :
    readUpdate s = LoopOut.next s := by
  rw [readUpdate.eq_def, h]

theorem ac_none {actual : Nat} {s : FetchState}
    (hrp : s.readPending = false) (hwp : s.writePending = false) :
    applyCompletions actual true true s = s := by
  rw [applyCompletions]
  simp [hrp, hwp]

theorem syncStep_initLike {actual : Nat} {s : FetchState} {c1 : FileChunk}
    {rest : List FileChunk}
    (hch : s.chunks = c1 :: rest) (hbytes : c1.bytesInBuffer = 0)
    (hrdc : s.readChunk = none) (hwc : s.writeChunk = none)
    (heof : s.eof = false) (hwait : s.waitingForRead = false)
    (hrp : s.readPending = false) (hwp : s.writePending = false)
    (hev : s.writeEventSignaled = true)
    (hnr : ¬ s.remainingBytes ≤ 0) :
    loopIter actual true true s = LoopOut.next
      { s with readChunk := some c1.id, writeChunk := some c1.id,
               readPending := true, readReqSize := c1.bufferSize,
               readReqOff := s.sourceFileOffset, waitingForRead := true } := by
  rw [loopIter_eval, ac_none hrp hwp]
  have e1 : (if s.waitingForRead = true then true else !s.readPending) = true := by
    simp [hwait, hrp]
  rw [e1, readHalf_go heof, readUpdate_none hrdc]
  simp only [onNext_next]
  have e2 : (if (!s.eof) = true then LoopOut.next (scheduleRead s)
      else LoopOut.next s) = LoopOut.next (scheduleRead s) := by
    simp [heof]
  rw [e2]
  simp only [onNext_next]
  rw [hev, writeHalf_true]
  have e3 : scheduleRead s = readIssue (readCursorAdvance s) := by
    rw [scheduleRead, if_neg hnr]
  have hr : lcGetNextAvailableChunkRead s.chunks s.chunkListLength s.nextId
      s.readChunk s.remainingBytes =
      { chunks := s.chunks, listLength := s.chunkListLength, nextId := s.nextId,
        cursor := c1.id } := by
    rw [hrdc, hch, lcGetNextAvailableChunkRead]
    simp [ringNextIdx, hbytes]
  have e4 : readCursorAdvance s = { s with readChunk := some c1.id } := by
    rw [readCursorAdvance, hr]
  have e5 : readIssue { s with readChunk := some c1.id } =
      { s with
          readChunk := some c1.id, readPending := true,
          readReqSize := c1.bufferSize, readReqOff := s.sourceFileOffset } := by
    rw [readIssue.eq_def, hch]
    simp only [getChunk_cons_self]
  rw [e3, e4, e5]
  have hw1 :
      ({ s with
          readChunk := some c1.id, readPending := true,
          readReqSize := c1.bufferSize, readReqOff := s.sourceFileOffset } :
            FetchState).waitingForRead = false := hwait
  have hw2 :
      ({ s with
          readChunk := some c1.id, readPending := true,
          readReqSize := c1.bufferSize, readReqOff := s.sourceFileOffset } :
            FetchState).writeChunk = none := hwc
  rw [writeAdvance_none hw1 hw2]
  simp only [onNext_next]
  have hwca : writeCursorAdvance
      { s with
          readChunk := some c1.id, readPending := true,
          readReqSize := c1.bufferSize, readReqOff := s.sourceFileOffset } =
      { s with
          readChunk := some c1.id, readPending := true,
          readReqSize := c1.bufferSize, readReqOff := s.sourceFileOffset,
          writeChunk := some c1.id } := by
    rw [writeCursorAdvance]
    dsimp only
    rw [hwc, hch, getNextWrite_cons_none]
  rw [hwca]
  have hw3 :
      ({ s with
          readChunk := some c1.id, readPending := true,
          readReqSize := c1.bufferSize, readReqOff := s.sourceFileOffset,
          writeChunk := some c1.id, waitingForRead := false } :
            FetchState).writeChunk = some c1.id := rfl
  have hw4 :
      getChunk ({ s with
          readChunk := some c1.id, readPending := true,
          readReqSize := c1.bufferSize, readReqOff := s.sourceFileOffset,
          writeChunk := some c1.id, waitingForRead := false } :
            FetchState).chunks c1.id = some c1 := by
    show getChunk s.chunks c1.id = some c1
    rw [hch]
    exact getChunk_cons_self c1 rest
  have hw5 :
      ({ s with
          readChunk := some c1.id, readPending := true,
          readReqSize := c1.bufferSize, readReqOff := s.sourceFileOffset,
          writeChunk := some c1.id, waitingForRead := false } :
            FetchState).eof = false := heof
  rw [writeIssue_park hw3 hw4 hbytes hw5]
  rw [hev]


theorem getChunk_cons_eq {c : FileChunk} {cid : Nat} (l : List FileChunk)
    (h : c.id = cid) : getChunk (c :: l) cid = some c := by
  rw [getChunk]
  simp [List.find?_cons_of_pos, h]

theorem getChunk_cons_ne {c : FileChunk} {cid : Nat} (l : List FileChunk)
    (h : c.id ≠ cid) : getChunk (c :: l) cid = getChunk l cid := by
  rw [getChunk, getChunk]
  exact List.find?_cons_of_neg _ (by simpa using h)

theorem setChunkBytes_head (c : FileChunk) (l : List FileChunk) (b : Nat) :
    setChunkBytes (c :: l) c.id b =
      { c with bytesInBuffer := b } :: setChunkBytes l c.id b := by
  simp [setChunkBytes]

theorem setChunkBytes_skip {d : FileChunk} {cid : Nat} (l : List FileChunk) (b : Nat)
    (h : d.id ≠ cid) : setChunkBytes (d :: l) cid b = d :: setChunkBytes l cid b := by
  simp [setChunkBytes, h]

theorem setChunkBytes_nil (cid b : Nat) : setChunkBytes [] cid b = [] := rfl

theorem mem_setChunkBytes_elim {l : List FileChunk} {cid b : Nat} {c : FileChunk}
    (hc : c ∈ setChunkBytes l cid b) :
    ∃ d ∈ l, c.id = d.id ∧ ((d.id = cid ∧ c = { d with bytesInBuffer := b })
      ∨ (d.id ≠ cid ∧ c = d)) := by
  rw [setChunkBytes] at hc
  obtain ⟨d, hd, hdc⟩ := List.mem_map.mp hc
  by_cases hid : d.id = cid
  · refine ⟨d, hd, ?_, Or.inl ⟨hid, ?_⟩⟩
    · rw [← hdc]
      simp [hid]
    · rw [← hdc]
      simp [hid]
  · refine ⟨d, hd, ?_, Or.inr ⟨hid, ?_⟩⟩
    · rw [← hdc]
      simp [hid]
    · rw [← hdc]
      simp [hid]

theorem steady_getChunk_R {chunks : List FileChunk} {W R : FileChunk}
    (hsh : SteadyShape chunks W R) (hWR : W.id ≠ R.id) :
    getChunk chunks R.id = some R := by
  rcases hsh with h | h | ⟨x, h | h | h, hxb, hxs, hxw, hxr⟩ <;> rw [h]
  · rw [getChunk_cons_ne _ hWR]
    exact getChunk_cons_self _ _
  · exact getChunk_cons_self _ _
  · rw [getChunk_cons_ne _ hWR]
    exact getChunk_cons_self _ _
  · rw [getChunk_cons_ne _ hxr, getChunk_cons_ne _ hWR]
    exact getChunk_cons_self _ _
  · exact getChunk_cons_self _ _

theorem steady_others_zero {chunks : List FileChunk} {W R : FileChunk}
    (hsh : SteadyShape chunks W R) (hRb : R.bytesInBuffer = 0) :
    ∀ c ∈ chunks, c.id ≠ W.id → c.bytesInBuffer = 0 := by
  rcases hsh with h | h | ⟨x, h | h | h, hxb, hxs, hxw, hxr⟩ <;> rw [h] <;>
    intro c hc hne <;> simp only [List.mem_cons, List.not_mem_nil, or_false] at hc
  · rcases hc with h1 | h1
    · rw [h1] at hne
      exact absurd rfl hne
    · rw [h1]
      exact hRb
  · rcases hc with h1 | h1
    · rw [h1]
      exact hRb
    · rw [h1] at hne
      exact absurd rfl hne
  · rcases hc with h1 | h1 | h1
    · rw [h1] at hne
      exact absurd rfl hne
    · rw [h1]
      exact hRb
    · rw [h1]
      exact hxb
  · rcases hc with h1 | h1 | h1
    · rw [h1]
      exact hxb
    · rw [h1] at hne
      exact absurd rfl hne
    · rw [h1]
      exact hRb
  · rcases hc with h1 | h1 | h1
    · rw [h1]
      exact hRb
    · rw [h1]
      exact hxb
    · rw [h1] at hne
      exact absurd rfl hne

theorem steady_chunks_ne_nil {chunks : List FileChunk} {W R : FileChunk}
    (hsh : SteadyShape chunks W R) : chunks ≠ [] := by
  rcases hsh with h | h | ⟨x, h | h | h, hxb, hxs, hxw, hxr⟩ <;> rw [h] <;> simp


theorem ac_read_eof {actual : Nat} {s : FetchState}
    (hrp : s.readPending = true) (hwp : s.writePending = false)
    (hle : (actual : Int) ≤ s.readReqOff) :
    applyCompletions actual true true s =
      { s with statusBlockStatus := STATUS_END_OF_FILE, statusBlockInfo := 0,
               readPending := false } := by
  rw [applyCompletions]
  simp [hrp, hwp, hle]

theorem ac_read_data {actual : Nat} {s : FetchState}
    (hrp : s.readPending = true) (hwp : s.writePending = false)
    (hlt : s.readReqOff < (actual : Int)) :
    applyCompletions actual true true s =
      { s with statusBlockStatus := STATUS_SUCCESS,
               statusBlockInfo := min s.readReqSize ((actual : Int) - s.readReqOff).toNat,
               readPending := false } := by
  rw [applyCompletions]
  simp [hrp, hwp, not_le.mpr hlt]

theorem ac_both_eof {actual : Nat} {s : FetchState}
    (hrp : s.readPending = true) (hwp : s.writePending = true)
    (hle : (actual : Int) ≤ s.readReqOff) :
    applyCompletions actual true true s =
      { s with statusBlockStatus := STATUS_END_OF_FILE, statusBlockInfo := 0,
               readPending := false, writeCbStatus := STATUS_SUCCESS,
               writeCbBytes := s.writePendingBytes, writeEventSignaled := true,
               writePending := false } := by
  rw [applyCompletions]
  simp [hrp, hwp, hle]

theorem ac_both_data {actual : Nat} {s : FetchState}
    (hrp : s.readPending = true) (hwp : s.writePending = true)
    (hlt : s.readReqOff < (actual : Int)) :
    applyCompletions actual true true s =
      { s with statusBlockStatus := STATUS_SUCCESS,
               statusBlockInfo := min s.readReqSize ((actual : Int) - s.readReqOff).toNat,
               readPending := false, writeCbStatus := STATUS_SUCCESS,
               writeCbBytes := s.writePendingBytes, writeEventSignaled := true,
               writePending := false } := by
  rw [applyCompletions]
  simp [hrp, hwp, not_le.mpr hlt]

theorem readUpdate_eof {s : FetchState} {rc : Nat} {rch : FileChunk}
    (hrc : s.readChunk = some rc) (hst : s.statusBlockStatus = STATUS_END_OF_FILE)
    (hg : getChunk s.chunks rc = some rch) :
    readUpdate s = LoopOut.next
      { s with
          chunks := setChunkBytes s.chunks rc s.statusBlockInfo,
          remainingBytes := 0,
          totalBytesRead := s.totalBytesRead + (s.statusBlockInfo : Int),
          sourceFileOffset := s.sourceFileOffset + (s.statusBlockInfo : Int),
          eof := true } := by
  rw [readUpdate.eq_def, hrc]
  have h1 : (ntSuccess STATUS_END_OF_FILE
      || (STATUS_END_OF_FILE == STATUS_END_OF_FILE)) = true := by decide
  have h2 : ((STATUS_END_OF_FILE == STATUS_END_OF_FILE) = true
      ∨ s.statusBlockInfo < rch.bufferSize) := Or.inl (by decide)
  simp [hst, hg, h1, h2]

theorem readUpdate_data_eof {s : FetchState} {rc : Nat} {rch : FileChunk}
    (hrc : s.readChunk = some rc) (hst : s.statusBlockStatus = STATUS_SUCCESS)
    (hg : getChunk s.chunks rc = some rch)
    (hlt : s.statusBlockInfo < rch.bufferSize) :
    readUpdate s = LoopOut.next
      { s with
          chunks := setChunkBytes s.chunks rc s.statusBlockInfo,
          remainingBytes := 0,
          totalBytesRead := s.totalBytesRead + (s.statusBlockInfo : Int),
          sourceFileOffset := s.sourceFileOffset + (s.statusBlockInfo : Int),
          eof := true } := by
  rw [readUpdate.eq_def, hrc]
  have ha : ntSuccess STATUS_SUCCESS = true := by decide
  have hb : ¬ STATUS_SUCCESS = STATUS_END_OF_FILE := by decide
  simp [hst, hg, ha, hb, hlt]

theorem readUpdate_data_full {s : FetchState} {rc : Nat} {rch : FileChunk}
    (hrc : s.readChunk = some rc) (hst : s.statusBlockStatus = STATUS_SUCCESS)
    (hg : getChunk s.chunks rc = some rch)
    (hge : ¬ s.statusBlockInfo < rch.bufferSize) :
    readUpdate s = LoopOut.next
      { s with
          chunks := setChunkBytes s.chunks rc s.statusBlockInfo,
          remainingBytes := s.remainingBytes - (s.statusBlockInfo : Int),
          totalBytesRead := s.totalBytesRead + (s.statusBlockInfo : Int),
          sourceFileOffset := s.sourceFileOffset + (s.statusBlockInfo : Int) } := by
  rw [readUpdate.eq_def, hrc]
  have ha : ntSuccess STATUS_SUCCESS = true := by decide
  have hb : ¬ STATUS_SUCCESS = STATUS_END_OF_FILE := by decide
  simp [hst, hg, ha, hb, hge]


theorem syncStep_warm {declared : Int} {actual : Nat} {s : FetchState}
    {c0 : FileChunk} {rest : List FileChunk}
    (hch : s.chunks = c0 :: rest)
    (hrest : rest = [] ∨ ∃ d0 : FileChunk, rest = [d0] ∧ d0.bytesInBuffer = 0 ∧
      0 < d0.bufferSize ∧ d0.id ≠ c0.id)
    (hc0b : c0.bytesInBuffer = 0) (hc0s : 0 < c0.bufferSize)
    (heof : s.eof = false) (hwait : s.waitingForRead = true)
    (hrc : s.readChunk = some c0.id) (hwc : s.writeChunk = some c0.id)
    (hrp : s.readPending = true) (hrq : s.readReqSize = c0.bufferSize)
    (hro : s.readReqOff = s.sourceFileOffset)
    (hwp : s.writePending = false) (hev : s.writeEventSignaled = true)
    (htr : s.totalBytesRead = s.sourceFileOffset)
    (htw : s.totalBytesWritten = s.destinationFileOffset)
    (hoff : s.sourceFileOffset = s.destinationFileOffset)
    (hle : s.sourceFileOffset ≤ (actual : Int))
    (hrem : s.remainingBytes < 2 ^ 32)
    (hlen : s.chunkListLength = s.chunks.length)
    (hfresh : ∀ c ∈ s.chunks, c.id < s.nextId) :
    (∃ s2, loopIter actual true true s = LoopOut.next s2 ∧
       SyncPhase declared actual s2) ∨
    (∃ s2, loopIter actual true true s = LoopOut.done (actual : Int) s2 ∧
       s2.totalBytesWritten = (actual : Int)) := by
  have hsetrest : ∀ b : Nat, setChunkBytes rest c0.id b = rest := by
    intro b
    rcases hrest with h | ⟨d0, hd, _, _, hdne⟩
    · rw [h, setChunkBytes_nil]
    · rw [hd, setChunkBytes_skip _ _ hdne, setChunkBytes_nil]
  by_cases hend : (actual : Int) ≤ s.readReqOff
  · -- the pending read comes back STATUS_END_OF_FILE: the fetch is complete
    right
    have hA := @ac_read_eof actual s hrp hwp hend
    set t := applyCompletions actual true true s with hT
    have f1 : t.eof = false := by rw [hA]; exact heof
    have f2 : t.waitingForRead = true := by rw [hA]; exact hwait
    have f3 : t.writeEventSignaled = true := by rw [hA]; exact hev
    have f4 : t.readChunk = some c0.id := by rw [hA]; exact hrc
    have f5 : t.statusBlockStatus = STATUS_END_OF_FILE := by rw [hA]
    have f6 : t.statusBlockInfo = 0 := by rw [hA]
    have f7 : t.chunks = c0 :: rest := by rw [hA]; exact hch
    have f8 : t.writeChunk = some c0.id := by rw [hA]; exact hwc
    have f9 : t.totalBytesWritten = s.totalBytesWritten := by rw [hA]
    have hgc : getChunk t.chunks c0.id = some c0 := by
      rw [f7]
      exact getChunk_cons_eq rest rfl
    rw [loopIter_eval, ← hT]
    have e1 : (if t.waitingForRead = true then true else !t.readPending) = true := by
      simp [f2]
    rw [e1, readHalf_go f1, readUpdate_eof f4 f5 hgc]
    simp only [onNext_next]
    set u : FetchState := { t with
      chunks := setChunkBytes t.chunks c0.id t.statusBlockInfo,
      remainingBytes := 0,
      totalBytesRead := t.totalBytesRead + (t.statusBlockInfo : Int),
      sourceFileOffset := t.sourceFileOffset + (t.statusBlockInfo : Int),
      eof := true } with hU
    have g1 : u.eof = true := by rw [hU]
    have e2 : (if (!u.eof) = true then LoopOut.next (scheduleRead u)
        else LoopOut.next u) = LoopOut.next u := by
      simp [g1]
    rw [e2]
    simp only [onNext_next]
    rw [f3, writeHalf_true]
    have g2 : u.waitingForRead = true := by rw [hU]; exact f2
    rw [writeAdvance_skip g2]
    simp only [onNext_next]
    have gwc : ({ u with waitingForRead := false } : FetchState).writeChunk
        = some c0.id := by
      show u.writeChunk = some c0.id
      rw [hU]
      exact f8
    have ggc : getChunk ({ u with waitingForRead := false } : FetchState).chunks c0.id
        = some { c0 with bytesInBuffer := 0 } := by
      show getChunk u.chunks c0.id = some { c0 with bytesInBuffer := 0 }
      rw [hU]
      show getChunk (setChunkBytes t.chunks c0.id t.statusBlockInfo) c0.id = _
      rw [f6, f7, setChunkBytes_head, hsetrest]
      exact getChunk_cons_eq rest rfl
    have geof : ({ u with waitingForRead := false } : FetchState).eof = true := g1
    rw [writeIssue_done gwc ggc rfl geof]
    have htw2 : ({ u with waitingForRead := false } : FetchState).totalBytesWritten
        = (actual : Int) := by
      show u.totalBytesWritten = (actual : Int)
      rw [hU]
      show t.totalBytesWritten = (actual : Int)
      rw [f9, htw, ← hoff]
      rw [hro] at hend
      omega
    rw [htw2]
    exact ⟨_, rfl, rfl⟩
  · -- data comes back
    have hlt0 : s.readReqOff < (actual : Int) := not_le.mp hend
    have hA := @ac_read_data actual s hrp hwp hlt0
    set t := applyCompletions actual true true s with hT
    have f1 : t.eof = false := by rw [hA]; exact heof
    have f2 : t.waitingForRead = true := by rw [hA]; exact hwait
    have f3 : t.writeEventSignaled = true := by rw [hA]; exact hev
    have f4 : t.readChunk = some c0.id := by rw [hA]; exact hrc
    have f5 : t.statusBlockStatus = STATUS_SUCCESS := by rw [hA]
    have f7 : t.chunks = c0 :: rest := by rw [hA]; exact hch
    have f8 : t.writeChunk = some c0.id := by rw [hA]; exact hwc
    have f9 : t.totalBytesWritten = s.totalBytesWritten := by rw [hA]
    have f10 : t.remainingBytes = s.remainingBytes := by rw [hA]
    have f11 : t.sourceFileOffset = s.sourceFileOffset := by rw [hA]
    have f12 : t.totalBytesRead = s.totalBytesRead := by rw [hA]
    have f13 : t.destinationFileOffset = s.destinationFileOffset := by rw [hA]
    have f14 : t.nextId = s.nextId := by rw [hA]
    have f15 : t.chunkListLength = s.chunkListLength := by rw [hA]
    have f16 : t.readPending = false := by rw [hA]
    have f17 : t.writePending = false := by rw [hA]; exact hwp
    have fB : t.statusBlockInfo
        = min c0.bufferSize ((actual : Int) - s.sourceFileOffset).toNat := by
      rw [hA]
      show min s.readReqSize ((actual : Int) - s.readReqOff).toNat = _
      rw [hrq, hro]
    have hgap : 0 < ((actual : Int) - s.sourceFileOffset).toNat := by
      rw [hro] at hlt0
      omega
    have hBpos : 0 < t.statusBlockInfo := by
      rw [fB]
      exact Nat.lt_min.mpr ⟨hc0s, hgap⟩
    have hBle : (t.statusBlockInfo : Int) ≤ (actual : Int) - s.sourceFileOffset := by
      rw [fB]
      have h1 : min c0.bufferSize ((actual : Int) - s.sourceFileOffset).toNat
          ≤ ((actual : Int) - s.sourceFileOffset).toNat := Nat.min_le_right _ _
      omega
    have hgc : getChunk t.chunks c0.id = some c0 := by
      rw [f7]
      exact getChunk_cons_eq rest rfl
    rw [loopIter_eval, ← hT]
    have e1 : (if t.waitingForRead = true then true else !t.readPending) = true := by
      simp [f2]
    rw [e1, readHalf_go f1]
    by_cases hfull : t.statusBlockInfo < c0.bufferSize
    · -- short read: EOF reached at the actual size with these bytes still to write
      left
      have hBgap : (t.statusBlockInfo : Int) = (actual : Int) - s.sourceFileOffset := by
        have hgle : ((actual : Int) - s.sourceFileOffset).toNat ≤ c0.bufferSize := by
          by_contra hx
          rw [fB] at hfull
          omega
        rw [fB, Nat.min_eq_right hgle]
        omega
      rw [readUpdate_data_eof f4 f5 hgc hfull]
      simp only [onNext_next]
      set u : FetchState := { t with
        chunks := setChunkBytes t.chunks c0.id t.statusBlockInfo,
        remainingBytes := 0,
        totalBytesRead := t.totalBytesRead + (t.statusBlockInfo : Int),
        sourceFileOffset := t.sourceFileOffset + (t.statusBlockInfo : Int),
        eof := true } with hU
      have g1 : u.eof = true := by rw [hU]
      have e2 : (if (!u.eof) = true then LoopOut.next (scheduleRead u)
          else LoopOut.next u) = LoopOut.next u := by
        simp [g1]
      rw [e2]
      simp only [onNext_next]
      rw [f3, writeHalf_true]
      have g2 : u.waitingForRead = true := by rw [hU]; exact f2
      rw [writeAdvance_skip g2]
      simp only [onNext_next]
      have gch : ({ u with waitingForRead := false } : FetchState).chunks
          = { c0 with bytesInBuffer := t.statusBlockInfo } :: rest := by
        show u.chunks = _
        rw [hU]
        show setChunkBytes t.chunks c0.id t.statusBlockInfo = _
        rw [f7, setChunkBytes_head, hsetrest]
      have gwc : ({ u with waitingForRead := false } : FetchState).writeChunk
          = some c0.id := by
        show u.writeChunk = some c0.id
        rw [hU]
        exact f8
      have ggc : getChunk ({ u with waitingForRead := false } : FetchState).chunks c0.id
          = some { c0 with bytesInBuffer := t.statusBlockInfo } := by
        rw [gch]
        exact getChunk_cons_eq rest rfl
      have gb : ({ c0 with bytesInBuffer := t.statusBlockInfo } :
          FileChunk).bytesInBuffer ≠ 0 := by
        show t.statusBlockInfo ≠ 0
        omega
      rw [writeIssue_write gwc ggc gb]
      refine ⟨_, rfl, ?_⟩
      refine SyncPhase.drain _ { c0 with bytesInBuffer := t.statusBlockInfo }
        ?_ ?_ ?_ ?_ ?_ ?_ ?_ ?_ ?_ ?_
      · show { c0 with bytesInBuffer := t.statusBlockInfo } ∈
          ({ u with waitingForRead := false } : FetchState).chunks
        rw [gch]
        exact List.mem_cons_self _ _
      · exact gwc
      · intro c hcm hcne
        rw [gch] at hcm
        rcases List.mem_cons.mp hcm with h | h
        · exact absurd (by rw [h]) hcne
        · rcases hrest with hr0 | ⟨d0, hd, hd0, _, _⟩
          · rw [hr0] at h
            simp at h
          · rw [hd] at h
            rcases List.mem_cons.mp h with h2 | h2
            · rw [h2]
              exact hd0
            · simp at h2
      · rfl
      · exact g1
      · rfl
      · show u.readPending = false
        rw [hU]
        exact f16
      · rfl
      · rfl
      · show u.totalBytesWritten + (t.statusBlockInfo : Int) = (actual : Int)
        have : u.totalBytesWritten = s.totalBytesWritten := by rw [hU]; exact f9
        rw [this, htw, ← hoff]
        omega
    · -- full read into c0: schedule the next read and the first write
      left
      rw [readUpdate_data_full f4 f5 hgc hfull]
      simp only [onNext_next]
      set u : FetchState := { t with
        chunks := setChunkBytes t.chunks c0.id t.statusBlockInfo,
        remainingBytes := t.remainingBytes - (t.statusBlockInfo : Int),
        totalBytesRead := t.totalBytesRead + (t.statusBlockInfo : Int),
        sourceFileOffset := t.sourceFileOffset + (t.statusBlockInfo : Int) } with hU
      have g1 : u.eof = false := by rw [hU]; exact f1
      have e2 : (if (!u.eof) = true then LoopOut.next (scheduleRead u)
          else LoopOut.next u) = LoopOut.next (scheduleRead u) := by
        rw [g1]
        rfl
      rw [e2]
      simp only [onNext_next]
      rw [f3, writeHalf_true]
      have gch : u.chunks = { c0 with bytesInBuffer := t.statusBlockInfo } :: rest := by
        rw [hU]
        show setChunkBytes t.chunks c0.id t.statusBlockInfo = _
        rw [f7, setChunkBytes_head, hsetrest]
      have grem : u.remainingBytes < 2 ^ 32 := by
        rw [hU]
        show t.remainingBytes - (t.statusBlockInfo : Int) < 2 ^ 32
        rw [f10]
        omega
      obtain ⟨rem2, hrem2eq, hrem2pos, hrem2lt⟩ : ∃ r : Int,
          (if u.remainingBytes ≤ 0 then { u with remainingBytes := (ChunkSize : Int) }
           else u) = { u with remainingBytes := r } ∧ 0 < r ∧ r < 2 ^ 32 := by
        by_cases hx : u.remainingBytes ≤ 0
        · refine ⟨(ChunkSize : Int), by rw [if_pos hx], by decide, by decide⟩
        · exact ⟨u.remainingBytes, by rw [if_neg hx], by omega, grem⟩
      have hsru : scheduleRead u =
          readIssue (readCursorAdvance { u with remainingBytes := rem2 }) := by
        rw [scheduleRead, hrem2eq]
      set u2 : FetchState := { u with remainingBytes := rem2 } with hU2
      rw [hsru]
      have hu2rdc : u2.readChunk = some c0.id := f4
      have hu2nid : u2.nextId = s.nextId := f14
      have hu2rem : u2.remainingBytes = rem2 := rfl
      have hBne : t.statusBlockInfo ≠ 0 := by omega
      have hc0lt : c0.id < s.nextId := hfresh c0 (by rw [hch]; exact List.mem_cons_self _ _)
      have hNsz : 0 < min ChunkSize (ulongCast rem2) := by
        refine Nat.lt_min.mpr ⟨by decide, ?_⟩
        rw [ulongCast]
        rw [Int.emod_eq_of_lt (le_of_lt hrem2pos) hrem2lt]
        omega
      rcases hrest with hr0 | ⟨d0, hd, hd0b, hd0s, hd0ne⟩
      · -- one chunk in the ring: splice a fresh chunk in before it
        have hu2ch : u2.chunks = [{ c0 with bytesInBuffer := t.statusBlockInfo }] := by
          show u.chunks = _
          rw [gch, hr0]
        have hu2len : u2.chunkListLength = 1 := by
          show t.chunkListLength = 1
          rw [f15, hlen, hch, hr0]
          rfl
        have hr : lcGetNextAvailableChunkRead u2.chunks u2.chunkListLength u2.nextId
            u2.readChunk u2.remainingBytes =
            { chunks := [⟨s.nextId, min ChunkSize (ulongCast rem2), 0⟩,
                { c0 with bytesInBuffer := t.statusBlockInfo }],
              listLength := 2, nextId := s.nextId + 1, cursor := s.nextId } := by
          rw [hu2ch, hu2len, hu2nid, hu2rdc, hu2rem]
          rw [lcGetNextAvailableChunkRead]
          simp [ringNextIdx, findIdxOf, lcAddNewChunk, hBne, MaxChunks]
        have e4 : readCursorAdvance u2 =
            { u2 with
                chunks := [⟨s.nextId, min ChunkSize (ulongCast rem2), 0⟩,
                  { c0 with bytesInBuffer := t.statusBlockInfo }],
                chunkListLength := 2, nextId := s.nextId + 1,
                readChunk := some s.nextId } := by
          rw [readCursorAdvance, hr]
        rw [e4]
        set u3 : FetchState := { u2 with
          chunks := [⟨s.nextId, min ChunkSize (ulongCast rem2), 0⟩,
            { c0 with bytesInBuffer := t.statusBlockInfo }],
          chunkListLength := 2, nextId := s.nextId + 1,
          readChunk := some s.nextId } with hU3
        have hx1 : u3.readChunk = some s.nextId := by rw [hU3]
        have hx2 : getChunk u3.chunks s.nextId
            = some ⟨s.nextId, min ChunkSize (ulongCast rem2), 0⟩ := by
          have hy : u3.chunks = [⟨s.nextId, min ChunkSize (ulongCast rem2), 0⟩,
              { c0 with bytesInBuffer := t.statusBlockInfo }] := by rw [hU3]
          rw [hy]
          exact getChunk_cons_eq _ rfl
        have e5 : readIssue u3 = { u3 with
            readPending := true,
            readReqSize := min ChunkSize (ulongCast rem2),
            readReqOff := u3.sourceFileOffset } := readIssue_go hx1 hx2
        rw [e5]
        set u4 : FetchState := { u3 with
          readPending := true,
          readReqSize := min ChunkSize (ulongCast rem2),
          readReqOff := u3.sourceFileOffset } with hU4
        have g2 : u4.waitingForRead = true := f2
        rw [writeAdvance_skip g2]
        simp only [onNext_next]
        have gw : ({ u4 with waitingForRead := false } : FetchState).writeChunk
            = some c0.id := f8
        have gc : getChunk ({ u4 with waitingForRead := false } : FetchState).chunks
            c0.id = some { c0 with bytesInBuffer := t.statusBlockInfo } := by
          show getChunk [⟨s.nextId, min ChunkSize (ulongCast rem2), 0⟩,
            { c0 with bytesInBuffer := t.statusBlockInfo }] c0.id = _
          rw [getChunk_cons_ne _ (by show s.nextId ≠ c0.id; omega)]
          exact getChunk_cons_eq _ rfl
        have gb : ({ c0 with bytesInBuffer := t.statusBlockInfo } :
            FileChunk).bytesInBuffer ≠ 0 := hBne
        rw [writeIssue_write gw gc gb]
        refine ⟨_, rfl, ?_⟩
        refine SyncPhase.steady _ { c0 with bytesInBuffer := t.statusBlockInfo }
          ⟨s.nextId, min ChunkSize (ulongCast rem2), 0⟩
          ?_ ?_ ?_ ?_ ?_ ?_ ?_ ?_ ?_ ?_ ?_ ?_ ?_ ?_ ?_ ?_ ?_ ?_ ?_ ?_ ?_ ?_ ?_
        · exact Or.inr (Or.inl rfl)
        · show c0.id ≠ s.nextId
          omega
        · exact hBpos
        · exact hc0s
        · rfl
        · exact hNsz
        · exact f1
        · rfl
        · rfl
        · exact f8
        · rfl
        · rfl
        · rfl
        · rfl
        · rfl
        · rfl
        · show t.totalBytesRead + (t.statusBlockInfo : Int)
            = t.sourceFileOffset + (t.statusBlockInfo : Int)
          rw [f12, f11, htr]
        · show t.totalBytesWritten = t.destinationFileOffset
          rw [f9, f13, htw]
        · show t.sourceFileOffset + (t.statusBlockInfo : Int)
            = t.destinationFileOffset + (t.statusBlockInfo : Int)
          rw [f11, f13, hoff]
        · show t.sourceFileOffset + (t.statusBlockInfo : Int) ≤ (actual : Int)
          rw [f11]
          omega
        · exact hrem2lt
        · rfl
        · intro c hcm
          show c.id < s.nextId + 1
          rcases List.mem_cons.mp hcm with h | h
          · rw [h]
            show s.nextId < s.nextId + 1
            omega
          · rcases List.mem_cons.mp h with h2 | h2
            · rw [h2]
              show c0.id < s.nextId + 1
              omega
            · simp at h2
      · -- two chunks in the ring: move the read cursor to the empty second chunk
        have hu2ch : u2.chunks
            = [{ c0 with bytesInBuffer := t.statusBlockInfo }, d0] := by
          show u.chunks = _
          rw [gch, hd]
        have hu2len : u2.chunkListLength = 2 := by
          show t.chunkListLength = 2
          rw [f15, hlen, hch, hd]
          rfl
        have hi1 : findIdxOf [{ c0 with bytesInBuffer := t.statusBlockInfo }, d0]
            c0.id = 0 := by
          rw [findIdxOf]
          rw [List.findIdx_cons]
          simp
        have hj : ringNextIdx [{ c0 with bytesInBuffer := t.statusBlockInfo }, d0]
            (some c0.id) = 1 := by
          simp [ringNextIdx, hi1]
        have hr : lcGetNextAvailableChunkRead u2.chunks u2.chunkListLength u2.nextId
            u2.readChunk u2.remainingBytes =
            { chunks := [{ c0 with bytesInBuffer := t.statusBlockInfo }, d0],
              listLength := 2, nextId := s.nextId, cursor := d0.id } := by
          rw [hu2ch, hu2len, hu2nid, hu2rdc, hu2rem]
          simp [lcGetNextAvailableChunkRead, hj, hd0b]
        have e4 : readCursorAdvance u2 =
            { u2 with
                chunks := [{ c0 with bytesInBuffer := t.statusBlockInfo }, d0],
                chunkListLength := 2, nextId := s.nextId,
                readChunk := some d0.id } := by
          rw [readCursorAdvance, hr]
        rw [e4]
        set u3 : FetchState := { u2 with
          chunks := [{ c0 with bytesInBuffer := t.statusBlockInfo }, d0],
          chunkListLength := 2, nextId := s.nextId,
          readChunk := some d0.id } with hU3
        have hx1 : u3.readChunk = some d0.id := by rw [hU3]
        have hx2 : getChunk u3.chunks d0.id = some d0 := by
          have hy : u3.chunks = [{ c0 with bytesInBuffer := t.statusBlockInfo }, d0] := by
            rw [hU3]
          rw [hy]
          rw [getChunk_cons_ne _ (by show c0.id ≠ d0.id; exact fun h => hd0ne h.symm)]
          exact getChunk_cons_eq _ rfl
        have e5 : readIssue u3 = { u3 with
            readPending := true,
            readReqSize := d0.bufferSize,
            readReqOff := u3.sourceFileOffset } := readIssue_go hx1 hx2
        rw [e5]
        set u4 : FetchState := { u3 with
          readPending := true,
          readReqSize := d0.bufferSize,
          readReqOff := u3.sourceFileOffset } with hU4
        have g2 : u4.waitingForRead = true := f2
        rw [writeAdvance_skip g2]
        simp only [onNext_next]
        have gw : ({ u4 with waitingForRead := false } : FetchState).writeChunk
            = some c0.id := f8
        have gc : getChunk ({ u4 with waitingForRead := false } : FetchState).chunks
            c0.id = some { c0 with bytesInBuffer := t.statusBlockInfo } := by
          show getChunk [{ c0 with bytesInBuffer := t.statusBlockInfo }, d0] c0.id = _
          exact getChunk_cons_eq _ rfl
        have gb : ({ c0 with bytesInBuffer := t.statusBlockInfo } :
            FileChunk).bytesInBuffer ≠ 0 := hBne
        rw [writeIssue_write gw gc gb]
        refine ⟨_, rfl, ?_⟩
        refine SyncPhase.steady _ { c0 with bytesInBuffer := t.statusBlockInfo } d0
          ?_ ?_ ?_ ?_ ?_ ?_ ?_ ?_ ?_ ?_ ?_ ?_ ?_ ?_ ?_ ?_ ?_ ?_ ?_ ?_ ?_ ?_ ?_
        · exact Or.inl rfl
        · show c0.id ≠ d0.id
          exact fun h => hd0ne h.symm
        · exact hBpos
        · exact hc0s
        · exact hd0b
        · exact hd0s
        · exact f1
        · rfl
        · rfl
        · exact f8
        · rfl
        · rfl
        · rfl
        · rfl
        · rfl
        · rfl
        · show t.totalBytesRead + (t.statusBlockInfo : Int)
            = t.sourceFileOffset + (t.statusBlockInfo : Int)
          rw [f12, f11, htr]
        · show t.totalBytesWritten = t.destinationFileOffset
          rw [f9, f13, htw]
        · show t.sourceFileOffset + (t.statusBlockInfo : Int)
            = t.destinationFileOffset + (t.statusBlockInfo : Int)
          rw [f11, f13, hoff]
        · show t.sourceFileOffset + (t.statusBlockInfo : Int) ≤ (actual : Int)
          rw [f11]
          omega
        · exact hrem2lt
        · rfl
        · intro c hcm
          show c.id < s.nextId
          rcases List.mem_cons.mp hcm with h | h
          · rw [h]
            show c0.id < s.nextId
            omega
          · rcases List.mem_cons.mp h with h2 | h2
            · rw [h2]
              refine hfresh d0 ?_
              rw [hch, hd]
              exact List.mem_cons_of_mem _ (List.mem_cons_self _ _)
            · simp at h2

theorem syncStep_steady {declared : Int} {actual : Nat} {s : FetchState} {W R : FileChunk}
    (hsh : SteadyShape s.chunks W R)
    (hWR : W.id ≠ R.id)
    (hWb : 0 < W.bytesInBuffer) (hWs : 0 < W.bufferSize)
    (hRb : R.bytesInBuffer = 0) (hRs : 0 < R.bufferSize)
    (heof : s.eof = false) (hwait : s.waitingForRead = false)
    (hrc : s.readChunk = some R.id) (hwc : s.writeChunk = some W.id)
    (hrp : s.readPending = true) (hrq : s.readReqSize = R.bufferSize)
    (hro : s.readReqOff = s.sourceFileOffset)
    (hwp : s.writePending = true) (hev : s.writeEventSignaled = false)
    (hwpb : s.writePendingBytes = W.bytesInBuffer)
    (htr : s.totalBytesRead = s.sourceFileOffset)
    (htw : s.totalBytesWritten = s.destinationFileOffset)
    (hoff : s.sourceFileOffset = s.destinationFileOffset + W.bytesInBuffer)
    (hle : s.sourceFileOffset ≤ (actual : Int))
    (hrem : s.remainingBytes < 2 ^ 32)
    (hlen : s.chunkListLength = s.chunks.length)
    (hfresh : ∀ c ∈ s.chunks, c.id < s.nextId) :
    (∃ s2, loopIter actual true true s = LoopOut.next s2 ∧
       SyncPhase declared actual s2) ∨
    (∃ s2, loopIter actual true true s = LoopOut.done (actual : Int) s2 ∧
       s2.totalBytesWritten = (actual : Int)) := by
  have hWmem : W ∈ s.chunks := by
    rcases hsh with h | h | ⟨x, h | h | h, _, _, _, _⟩ <;> rw [h] <;> simp
  have hRmem : R ∈ s.chunks := by
    rcases hsh with h | h | ⟨x, h | h | h, _, _, _, _⟩ <;> rw [h] <;> simp
  have hWlt : W.id < s.nextId := hfresh W hWmem
  have hRlt : R.id < s.nextId := hfresh R hRmem
  have hRW : R.id ≠ W.id := Ne.symm hWR
  by_cases hend : (actual : Int) ≤ s.readReqOff
  · -- the read comes back STATUS_END_OF_FILE: drain the last write and stop
    right
    have hA := @ac_both_eof actual s hrp hwp hend
    set t := applyCompletions actual true true s with hT
    have f1 : t.eof = false := by rw [hA]; exact heof
    have f2 : t.waitingForRead = false := by rw [hA]; exact hwait
    have f3 : t.writeEventSignaled = true := by rw [hA]
    have f4 : t.readChunk = some R.id := by rw [hA]; exact hrc
    have f5 : t.statusBlockStatus = STATUS_END_OF_FILE := by rw [hA]
    have f6 : t.statusBlockInfo = 0 := by rw [hA]
    have f7 : t.chunks = s.chunks := by rw [hA]
    have f8 : t.readPending = false := by rw [hA]
    have f9 : t.totalBytesWritten = s.totalBytesWritten := by rw [hA]
    have f10 : t.writeCbStatus = STATUS_SUCCESS := by rw [hA]
    have f11 : t.writeCbBytes = s.writePendingBytes := by rw [hA]
    have f12 : t.writeChunk = some W.id := by rw [hA]; exact hwc
    have hgcR : getChunk t.chunks R.id = some R := by
      rw [f7]
      exact steady_getChunk_R hsh hWR
    rw [loopIter_eval, ← hT]
    have e1 : (if t.waitingForRead = true then true else !t.readPending) = true := by
      rw [f2, f8]
      rfl
    rw [e1, readHalf_go f1, readUpdate_eof f4 f5 hgcR]
    simp only [onNext_next]
    set u : FetchState := { t with
      chunks := setChunkBytes t.chunks R.id t.statusBlockInfo,
      remainingBytes := 0,
      totalBytesRead := t.totalBytesRead + (t.statusBlockInfo : Int),
      sourceFileOffset := t.sourceFileOffset + (t.statusBlockInfo : Int),
      eof := true } with hU
    have g1 : u.eof = true := by rw [hU]
    have e2 : (if (!u.eof) = true then LoopOut.next (scheduleRead u)
        else LoopOut.next u) = LoopOut.next u := by
      simp [g1]
    rw [e2]
    simp only [onNext_next]
    rw [f3, writeHalf_true]
    have g2 : u.waitingForRead = false := by rw [hU]; exact f2
    have g3 : u.writeChunk = some W.id := by rw [hU]; exact f12
    have g4 : ntSuccess u.writeCbStatus = true := by
      have h : u.writeCbStatus = STATUS_SUCCESS := by rw [hU]; exact f10
      rw [h]
      decide
    rw [writeAdvance_eval g2 g3 g4]
    simp only [onNext_next]
    have hothers0 : ∀ c ∈ s.chunks, c.id ≠ W.id → c.bytesInBuffer = 0 :=
      steady_others_zero hsh hRb
    have huch : u.chunks = setChunkBytes s.chunks R.id 0 := by
      rw [hU]
      show setChunkBytes t.chunks R.id t.statusBlockInfo = _
      rw [f6, f7]
    have hallA : ∀ c ∈ (writeAccount u W.id).chunks, c.bytesInBuffer = 0 := by
      show ∀ c ∈ setChunkBytes u.chunks W.id 0, c.bytesInBuffer = 0
      refine setChunkBytes_allZero ?_
      intro c hc hne
      rw [huch] at hc
      obtain ⟨d, hd, hid, hcase⟩ := mem_setChunkBytes_elim hc
      rcases hcase with ⟨hdR, hceq⟩ | ⟨hdR, hceq⟩
      · rw [hceq]
      · rw [hceq]
        refine hothers0 d hd ?_
        rw [← hid]
        exact hne
    have hne2 : (writeAccount u W.id).chunks ≠ [] := by
      show setChunkBytes u.chunks W.id 0 ≠ []
      have hlen1 : (setChunkBytes u.chunks W.id 0).length = s.chunks.length := by
        rw [setChunkBytes_length, huch, setChunkBytes_length]
      refine List.ne_nil_of_length_pos ?_
      rw [hlen1]
      exact List.length_pos.mpr (steady_chunks_ne_nil hsh)
    obtain ⟨cn, hcnmem, hgw⟩ := lcGetNextWrite_some hne2 (writeAccount u W.id).writeChunk
    obtain ⟨d, hgd, hdmem, hdid⟩ := getChunk_isSome hcnmem
    have hd0 : d.bytesInBuffer = 0 := hallA d hdmem
    have gw : ({ writeCursorAdvance (writeAccount u W.id) with waitingForRead := false }
        : FetchState).writeChunk = some cn.id := hgw
    have gc : getChunk ({ writeCursorAdvance (writeAccount u W.id) with
        waitingForRead := false } : FetchState).chunks cn.id = some d := hgd
    have geof : ({ writeCursorAdvance (writeAccount u W.id) with waitingForRead := false }
        : FetchState).eof = true := g1
    rw [writeIssue_done gw gc hd0 geof]
    have htw2 : ({ writeCursorAdvance (writeAccount u W.id) with waitingForRead := false }
        : FetchState).totalBytesWritten = (actual : Int) := by
      show u.totalBytesWritten + (u.writeCbBytes : Int) = (actual : Int)
      have h1 : u.totalBytesWritten = s.totalBytesWritten := by rw [hU]; exact f9
      have h2 : u.writeCbBytes = s.writePendingBytes := by rw [hU]; exact f11
      rw [h1, h2, htw, hwpb]
      rw [hro] at hend
      omega
    rw [htw2]
    exact ⟨_, rfl, htw2⟩
  · -- data comes back into the read chunk
    left
    have hlt0 : s.readReqOff < (actual : Int) := not_le.mp hend
    rw [hro] at hlt0
    have hA := @ac_both_data actual s hrp hwp (by rw [hro]; exact hlt0)
    set t := applyCompletions actual true true s with hT
    have f1 : t.eof = false := by rw [hA]; exact heof
    have f2 : t.waitingForRead = false := by rw [hA]; exact hwait
    have f3 : t.writeEventSignaled = true := by rw [hA]
    have f4 : t.readChunk = some R.id := by rw [hA]; exact hrc
    have f5 : t.statusBlockStatus = STATUS_SUCCESS := by rw [hA]
    have f6 : t.writeChunk = some W.id := by rw [hA]; exact hwc
    have f7 : t.chunks = s.chunks := by rw [hA]
    have f8 : t.readPending = false := by rw [hA]
    have f9 : t.totalBytesWritten = s.totalBytesWritten := by rw [hA]
    have f10 : t.writeCbStatus = STATUS_SUCCESS := by rw [hA]
    have f11 : t.writeCbBytes = s.writePendingBytes := by rw [hA]
    have f12 : t.destinationFileOffset = s.destinationFileOffset := by rw [hA]
    have f13 : t.sourceFileOffset = s.sourceFileOffset := by rw [hA]
    have f14 : t.totalBytesRead = s.totalBytesRead := by rw [hA]
    have f15 : t.nextId = s.nextId := by rw [hA]
    have f16 : t.chunkListLength = s.chunkListLength := by rw [hA]
    have f17 : t.remainingBytes = s.remainingBytes := by rw [hA]
    have fB : t.statusBlockInfo
        = min R.bufferSize ((actual : Int) - s.sourceFileOffset).toNat := by
      rw [hA]
      show min s.readReqSize ((actual : Int) - s.readReqOff).toNat = _
      rw [hrq, hro]
    have hBpos : 0 < t.statusBlockInfo := by
      rw [fB]
      refine Nat.lt_min.mpr ⟨hRs, ?_⟩
      omega
    have hBle : s.sourceFileOffset + (t.statusBlockInfo : Int) ≤ (actual : Int) := by
      have h1 : t.statusBlockInfo ≤ ((actual : Int) - s.sourceFileOffset).toNat := by
        rw [fB]
        exact Nat.min_le_right _ _
      omega
    have hgcR : getChunk t.chunks R.id = some R := by
      rw [f7]
      exact steady_getChunk_R hsh hWR
    rw [loopIter_eval, ← hT]
    have e1 : (if t.waitingForRead = true then true else !t.readPending) = true := by
      rw [f2, f8]
      rfl
    rw [e1, readHalf_go f1]
    by_cases hfull : t.statusBlockInfo < R.bufferSize
    · -- short read: the source is exhausted, hand the last chunk to the writer
      have hXlt : ((actual : Int) - s.sourceFileOffset).toNat < R.bufferSize := by
        rcases Nat.le_total ((actual : Int) - s.sourceFileOffset).toNat R.bufferSize
          with h | h
        · rw [fB, Nat.min_eq_right h] at hfull
          exact hfull
        · rw [fB, Nat.min_eq_left h] at hfull
          omega
      have hBeq : t.statusBlockInfo = ((actual : Int) - s.sourceFileOffset).toNat := by
        rw [fB]
        exact Nat.min_eq_right (le_of_lt hXlt)
      rw [readUpdate_data_eof f4 f5 hgcR hfull]
      simp only [onNext_next]
      set u : FetchState := { t with
        chunks := setChunkBytes t.chunks R.id t.statusBlockInfo,
        remainingBytes := 0,
        totalBytesRead := t.totalBytesRead + (t.statusBlockInfo : Int),
        sourceFileOffset := t.sourceFileOffset + (t.statusBlockInfo : Int),
        eof := true } with hU
      have g1 : u.eof = true := by rw [hU]
      have e2 : (if (!u.eof) = true then LoopOut.next (scheduleRead u)
          else LoopOut.next u) = LoopOut.next u := by
        simp [g1]
      rw [e2]
      simp only [onNext_next]
      rw [f3, writeHalf_true]
      have g2 : u.waitingForRead = false := by rw [hU]; exact f2
      have g3 : u.writeChunk = some W.id := by rw [hU]; exact f6
      have g4 : ntSuccess u.writeCbStatus = true := by
        have h : u.writeCbStatus = STATUS_SUCCESS := by rw [hU]; exact f10
        rw [h]
        decide
      rw [writeAdvance_eval g2 g3 g4]
      simp only [onNext_next]
      rcases hsh with hsh1 | hsh2 | ⟨x, hsh3 | hsh4 | hsh5, hxb, hxs, hxw, hxr⟩
      · -- ring [W, R]
        have huch : u.chunks = [W, { R with bytesInBuffer := t.statusBlockInfo }] := by
          rw [hU]
          show setChunkBytes t.chunks R.id t.statusBlockInfo = _
          rw [f7, hsh1, setChunkBytes_skip _ _ hWR, setChunkBytes_head, setChunkBytes_nil]
        have hRbW : ({ R with bytesInBuffer := t.statusBlockInfo } : FileChunk).id
            ≠ W.id := hRW
        have hwch : (writeAccount u W.id).chunks
            = [{ W with bytesInBuffer := 0 },
               { R with bytesInBuffer := t.statusBlockInfo }] := by
          show setChunkBytes u.chunks W.id 0 = _
          rw [huch, setChunkBytes_head, setChunkBytes_skip _ _ hRbW, setChunkBytes_nil]
        have hiW : findIdxOf [{ W with bytesInBuffer := 0 },
            { R with bytesInBuffer := t.statusBlockInfo }] W.id = 0 := by
          rw [findIdxOf, List.findIdx_cons]
          simp
        have gw : ({ writeCursorAdvance (writeAccount u W.id) with
            waitingForRead := false } : FetchState).writeChunk = some R.id := by
          show lcGetNextAvailableChunkWrite (writeAccount u W.id).chunks
              (writeAccount u W.id).writeChunk = some R.id
          have hwwc : (writeAccount u W.id).writeChunk = some W.id := g3
          rw [hwch, hwwc]
          simp [lcGetNextAvailableChunkWrite, ringNextIdx, hiW]
        have gc : getChunk ({ writeCursorAdvance (writeAccount u W.id) with
            waitingForRead := false } : FetchState).chunks R.id
            = some { R with bytesInBuffer := t.statusBlockInfo } := by
          show getChunk (writeAccount u W.id).chunks R.id = _
          rw [hwch]
          rw [getChunk_cons_ne _
            (show ({ W with bytesInBuffer := 0 } : FileChunk).id ≠ R.id from hWR)]
          exact getChunk_cons_eq _ rfl
        have gb : ({ R with bytesInBuffer := t.statusBlockInfo }
            : FileChunk).bytesInBuffer ≠ 0 := by
          show t.statusBlockInfo ≠ 0
          omega
        rw [writeIssue_write gw gc gb]
        have hphase : ∀ sF : FetchState,
            sF = { { writeCursorAdvance (writeAccount u W.id) with
                waitingForRead := false } with
              writeEventSignaled := false, writePending := true,
              writePendingBytes := ({ R with bytesInBuffer := t.statusBlockInfo }
                : FileChunk).bytesInBuffer } →
            SyncPhase declared actual sF := by
          intro sF hSF
          have c1 : sF.chunks = [{ W with bytesInBuffer := 0 },
              { R with bytesInBuffer := t.statusBlockInfo }] := by
            rw [hSF]
            exact hwch
          have c2 : sF.writeChunk = some R.id := by rw [hSF]; exact gw
          have c3 : sF.eof = true := by rw [hSF]; exact g1
          have c4 : sF.waitingForRead = false := by rw [hSF]
          have c5 : sF.readPending = false := by rw [hSF]; exact f8
          have c6 : sF.writePending = true := by rw [hSF]
          have c7 : sF.writeEventSignaled = false := by rw [hSF]
          have c8 : sF.writePendingBytes = t.statusBlockInfo := by rw [hSF]
          have c9 : sF.totalBytesWritten
              = t.totalBytesWritten + (t.writeCbBytes : Int) := by
            rw [hSF]
            rfl
          refine SyncPhase.drain sF { R with bytesInBuffer := t.statusBlockInfo }
            ?_ ?_ ?_ ?_ ?_ ?_ ?_ ?_ ?_ ?_
          · rw [c1]
            exact List.mem_cons_of_mem _ (List.mem_cons_self _ _)
          · exact c2
          · intro c hc hne
            rw [c1] at hc
            rcases List.mem_cons.mp hc with h1 | h1
            · rw [h1]
            · rcases List.mem_cons.mp h1 with h2 | h2
              · rw [h2] at hne
                exact absurd rfl hne
              · simp at h2
          · rw [c8]
          · exact c3
          · exact c4
          · exact c5
          · exact c6
          · exact c7
          · rw [c9, c8, f9, f11, htw, hwpb, hBeq]
            omega
        exact ⟨_, rfl, hphase _ rfl⟩
      · -- ring [R, W]
        have huch : u.chunks = [{ R with bytesInBuffer := t.statusBlockInfo }, W] := by
          rw [hU]
          show setChunkBytes t.chunks R.id t.statusBlockInfo = _
          rw [f7, hsh2, setChunkBytes_head, setChunkBytes_skip _ _ hWR,
            setChunkBytes_nil]
        have hRbW : ({ R with bytesInBuffer := t.statusBlockInfo } : FileChunk).id
            ≠ W.id := hRW
        have hwch : (writeAccount u W.id).chunks
            = [{ R with bytesInBuffer := t.statusBlockInfo },
               { W with bytesInBuffer := 0 }] := by
          show setChunkBytes u.chunks W.id 0 = _
          rw [huch, setChunkBytes_skip _ _ hRbW, setChunkBytes_head, setChunkBytes_nil]
        have hbRb : (R.id == W.id) = false := by simp [hRW]
        have hiW : findIdxOf [{ R with bytesInBuffer := t.statusBlockInfo },
            { W with bytesInBuffer := 0 }] W.id = 1 := by
          rw [findIdxOf, List.findIdx_cons, List.findIdx_cons]
          simp [hbRb]
        have gw : ({ writeCursorAdvance (writeAccount u W.id) with
            waitingForRead := false } : FetchState).writeChunk = some R.id := by
          show lcGetNextAvailableChunkWrite (writeAccount u W.id).chunks
              (writeAccount u W.id).writeChunk = some R.id
          have hwwc : (writeAccount u W.id).writeChunk = some W.id := g3
          rw [hwch, hwwc]
          simp [lcGetNextAvailableChunkWrite, ringNextIdx, hiW]
        have gc : getChunk ({ writeCursorAdvance (writeAccount u W.id) with
            waitingForRead := false } : FetchState).chunks R.id
            = some { R with bytesInBuffer := t.statusBlockInfo } := by
          show getChunk (writeAccount u W.id).chunks R.id = _
          rw [hwch]
          exact getChunk_cons_eq _ rfl
        have gb : ({ R with bytesInBuffer := t.statusBlockInfo }
            : FileChunk).bytesInBuffer ≠ 0 := by
          show t.statusBlockInfo ≠ 0
          omega
        rw [writeIssue_write gw gc gb]
        have hphase : ∀ sF : FetchState,
            sF = { { writeCursorAdvance (writeAccount u W.id) with
                waitingForRead := false } with
              writeEventSignaled := false, writePending := true,
              writePendingBytes := ({ R with bytesInBuffer := t.statusBlockInfo }
                : FileChunk).bytesInBuffer } →
            SyncPhase declared actual sF := by
          intro sF hSF
          have c1 : sF.chunks = [{ R with bytesInBuffer := t.statusBlockInfo },
              { W with bytesInBuffer := 0 }] := by
            rw [hSF]
            exact hwch
          have c2 : sF.writeChunk = some R.id := by rw [hSF]; exact gw
          have c3 : sF.eof = true := by rw [hSF]; exact g1
          have c4 : sF.waitingForRead = false := by rw [hSF]
          have c5 : sF.readPending = false := by rw [hSF]; exact f8
          have c6 : sF.writePending = true := by rw [hSF]
          have c7 : sF.writeEventSignaled = false := by rw [hSF]
          have c8 : sF.writePendingBytes = t.statusBlockInfo := by rw [hSF]
          have c9 : sF.totalBytesWritten
              = t.totalBytesWritten + (t.writeCbBytes : Int) := by
            rw [hSF]
            rfl
          refine SyncPhase.drain sF { R with bytesInBuffer := t.statusBlockInfo }
            ?_ ?_ ?_ ?_ ?_ ?_ ?_ ?_ ?_ ?_
          · rw [c1]
            exact List.mem_cons_self _ _
          · exact c2
          · intro c hc hne
            rw [c1] at hc
            rcases List.mem_cons.mp hc with h1 | h1
            · rw [h1] at hne
              exact absurd rfl hne
            · rcases List.mem_cons.mp h1 with h2 | h2
              · rw [h2]
              · simp at h2
          · rw [c8]
          · exact c3
          · exact c4
          · exact c5
          · exact c6
          · exact c7
          · rw [c9, c8, f9, f11, htw, hwpb, hBeq]
            omega
        exact ⟨_, rfl, hphase _ rfl⟩
      · -- ring [W, R, x]
        have huch : u.chunks
            = [W, { R with bytesInBuffer := t.statusBlockInfo }, x] := by
          rw [hU]
          show setChunkBytes t.chunks R.id t.statusBlockInfo = _
          rw [f7, hsh3, setChunkBytes_skip _ _ hWR, setChunkBytes_head,
            setChunkBytes_skip _ _ hxr, setChunkBytes_nil]
        have hRbW : ({ R with bytesInBuffer := t.statusBlockInfo } : FileChunk).id
            ≠ W.id := hRW
        have hwch : (writeAccount u W.id).chunks
            = [{ W with bytesInBuffer := 0 },
               { R with bytesInBuffer := t.statusBlockInfo }, x] := by
          show setChunkBytes u.chunks W.id 0 = _
          rw [huch, setChunkBytes_head, setChunkBytes_skip _ _ hRbW,
            setChunkBytes_skip _ _ hxw, setChunkBytes_nil]
        have hiW : findIdxOf [{ W with bytesInBuffer := 0 },
            { R with bytesInBuffer := t.statusBlockInfo }, x] W.id = 0 := by
          rw [findIdxOf, List.findIdx_cons]
          simp
        have gw : ({ writeCursorAdvance (writeAccount u W.id) with
            waitingForRead := false } : FetchState).writeChunk = some R.id := by
          show lcGetNextAvailableChunkWrite (writeAccount u W.id).chunks
              (writeAccount u W.id).writeChunk = some R.id
          have hwwc : (writeAccount u W.id).writeChunk = some W.id := g3
          rw [hwch, hwwc]
          simp [lcGetNextAvailableChunkWrite, ringNextIdx, hiW]
        have gc : getChunk ({ writeCursorAdvance (writeAccount u W.id) with
            waitingForRead := false } : FetchState).chunks R.id
            = some { R with bytesInBuffer := t.statusBlockInfo } := by
          show getChunk (writeAccount u W.id).chunks R.id = _
          rw [hwch]
          rw [getChunk_cons_ne _
            (show ({ W with bytesInBuffer := 0 } : FileChunk).id ≠ R.id from hWR)]
          exact getChunk_cons_eq _ rfl
        have gb : ({ R with bytesInBuffer := t.statusBlockInfo }
            : FileChunk).bytesInBuffer ≠ 0 := by
          show t.statusBlockInfo ≠ 0
          omega
        rw [writeIssue_write gw gc gb]
        have hphase : ∀ sF : FetchState,
            sF = { { writeCursorAdvance (writeAccount u W.id) with
                waitingForRead := false } with
              writeEventSignaled := false, writePending := true,
              writePendingBytes := ({ R with bytesInBuffer := t.statusBlockInfo }
                : FileChunk).bytesInBuffer } →
            SyncPhase declared actual sF := by
          intro sF hSF
          have c1 : sF.chunks = [{ W with bytesInBuffer := 0 },
              { R with bytesInBuffer := t.statusBlockInfo }, x] := by
            rw [hSF]
            exact hwch
          have c2 : sF.writeChunk = some R.id := by rw [hSF]; exact gw
          have c3 : sF.eof = true := by rw [hSF]; exact g1
          have c4 : sF.waitingForRead = false := by rw [hSF]
          have c5 : sF.readPending = false := by rw [hSF]; exact f8
          have c6 : sF.writePending = true := by rw [hSF]
          have c7 : sF.writeEventSignaled = false := by rw [hSF]
          have c8 : sF.writePendingBytes = t.statusBlockInfo := by rw [hSF]
          have c9 : sF.totalBytesWritten
              = t.totalBytesWritten + (t.writeCbBytes : Int) := by
            rw [hSF]
            rfl
          refine SyncPhase.drain sF { R with bytesInBuffer := t.statusBlockInfo }
            ?_ ?_ ?_ ?_ ?_ ?_ ?_ ?_ ?_ ?_
          · rw [c1]
            exact List.mem_cons_of_mem _ (List.mem_cons_self _ _)
          · exact c2
          · intro c hc hne
            rw [c1] at hc
            rcases List.mem_cons.mp hc with h1 | h1
            · rw [h1]
            · rcases List.mem_cons.mp h1 with h2 | h2
              · rw [h2] at hne
                exact absurd rfl hne
              · rcases List.mem_cons.mp h2 with h3 | h3
                · rw [h3]
                  exact hxb
                · simp at h3
          · rw [c8]
          · exact c3
          · exact c4
          · exact c5
          · exact c6
          · exact c7
          · rw [c9, c8, f9, f11, htw, hwpb, hBeq]
            omega
        exact ⟨_, rfl, hphase _ rfl⟩
      · -- ring [x, W, R]
        have huch : u.chunks
            = [x, W, { R with bytesInBuffer := t.statusBlockInfo }] := by
          rw [hU]
          show setChunkBytes t.chunks R.id t.statusBlockInfo = _
          rw [f7, hsh4, setChunkBytes_skip _ _ hxr, setChunkBytes_skip _ _ hWR,
            setChunkBytes_head, setChunkBytes_nil]
        have hRbW : ({ R with bytesInBuffer := t.statusBlockInfo } : FileChunk).id
            ≠ W.id := hRW
        have hwch : (writeAccount u W.id).chunks
            = [x, { W with bytesInBuffer := 0 },
               { R with bytesInBuffer := t.statusBlockInfo }] := by
          show setChunkBytes u.chunks W.id 0 = _
          rw [huch, setChunkBytes_skip _ _ hxw, setChunkBytes_head,
            setChunkBytes_skip _ _ hRbW, setChunkBytes_nil]
        have hbxW : (x.id == W.id) = false := by simp [hxw]
        have hiW : findIdxOf [x, { W with bytesInBuffer := 0 },
            { R with bytesInBuffer := t.statusBlockInfo }] W.id = 1 := by
          rw [findIdxOf, List.findIdx_cons, List.findIdx_cons]
          simp [hbxW]
        have gw : ({ writeCursorAdvance (writeAccount u W.id) with
            waitingForRead := false } : FetchState).writeChunk = some R.id := by
          show lcGetNextAvailableChunkWrite (writeAccount u W.id).chunks
              (writeAccount u W.id).writeChunk = some R.id
          have hwwc : (writeAccount u W.id).writeChunk = some W.id := g3
          rw [hwch, hwwc]
          simp [lcGetNextAvailableChunkWrite, ringNextIdx, hiW]
        have gc : getChunk ({ writeCursorAdvance (writeAccount u W.id) with
            waitingForRead := false } : FetchState).chunks R.id
            = some { R with bytesInBuffer := t.statusBlockInfo } := by
          show getChunk (writeAccount u W.id).chunks R.id = _
          rw [hwch]
          rw [getChunk_cons_ne _ hxr]
          rw [getChunk_cons_ne _
            (show ({ W with bytesInBuffer := 0 } : FileChunk).id ≠ R.id from hWR)]
          exact getChunk_cons_eq _ rfl
        have gb : ({ R with bytesInBuffer := t.statusBlockInfo }
            : FileChunk).bytesInBuffer ≠ 0 := by
          show t.statusBlockInfo ≠ 0
          omega
        rw [writeIssue_write gw gc gb]
        have hphase : ∀ sF : FetchState,
            sF = { { writeCursorAdvance (writeAccount u W.id) with
                waitingForRead := false } with
              writeEventSignaled := false, writePending := true,
              writePendingBytes := ({ R with bytesInBuffer := t.statusBlockInfo }
                : FileChunk).bytesInBuffer } →
            SyncPhase declared actual sF := by
          intro sF hSF
          have c1 : sF.chunks = [x, { W with bytesInBuffer := 0 },
              { R with bytesInBuffer := t.statusBlockInfo }] := by
            rw [hSF]
            exact hwch
          have c2 : sF.writeChunk = some R.id := by rw [hSF]; exact gw
          have c3 : sF.eof = true := by rw [hSF]; exact g1
          have c4 : sF.waitingForRead = false := by rw [hSF]
          have c5 : sF.readPending = false := by rw [hSF]; exact f8
          have c6 : sF.writePending = true := by rw [hSF]
          have c7 : sF.writeEventSignaled = false := by rw [hSF]
          have c8 : sF.writePendingBytes = t.statusBlockInfo := by rw [hSF]
          have c9 : sF.totalBytesWritten
              = t.totalBytesWritten + (t.writeCbBytes : Int) := by
            rw [hSF]
            rfl
          refine SyncPhase.drain sF { R with bytesInBuffer := t.statusBlockInfo }
            ?_ ?_ ?_ ?_ ?_ ?_ ?_ ?_ ?_ ?_
          · rw [c1]
            exact List.mem_cons_of_mem _
              (List.mem_cons_of_mem _ (List.mem_cons_self _ _))
          · exact c2
          · intro c hc hne
            rw [c1] at hc
            rcases List.mem_cons.mp hc with h1 | h1
            · rw [h1]
              exact hxb
            · rcases List.mem_cons.mp h1 with h2 | h2
              · rw [h2]
              · rcases List.mem_cons.mp h2 with h3 | h3
                · rw [h3] at hne
                  exact absurd rfl hne
                · simp at h3
          · rw [c8]
          · exact c3
          · exact c4
          · exact c5
          · exact c6
          · exact c7
          · rw [c9, c8, f9, f11, htw, hwpb, hBeq]
            omega
        exact ⟨_, rfl, hphase _ rfl⟩
      · -- ring [R, x, W]
        have huch : u.chunks
            = [{ R with bytesInBuffer := t.statusBlockInfo }, x, W] := by
          rw [hU]
          show setChunkBytes t.chunks R.id t.statusBlockInfo = _
          rw [f7, hsh5, setChunkBytes_head, setChunkBytes_skip _ _ hxr,
            setChunkBytes_skip _ _ hWR, setChunkBytes_nil]
        have hRbW : ({ R with bytesInBuffer := t.statusBlockInfo } : FileChunk).id
            ≠ W.id := hRW
        have hwch : (writeAccount u W.id).chunks
            = [{ R with bytesInBuffer := t.statusBlockInfo }, x,
               { W with bytesInBuffer := 0 }] := by
          show setChunkBytes u.chunks W.id 0 = _
          rw [huch, setChunkBytes_skip _ _ hRbW, setChunkBytes_skip _ _ hxw,
            setChunkBytes_head, setChunkBytes_nil]
        have hbRb : (R.id == W.id) = false := by simp [hRW]
        have hbxW : (x.id == W.id) = false := by simp [hxw]
        have hiW : findIdxOf [{ R with bytesInBuffer := t.statusBlockInfo }, x,
            { W with bytesInBuffer := 0 }] W.id = 2 := by
          rw [findIdxOf, List.findIdx_cons, List.findIdx_cons, List.findIdx_cons]
          simp [hbRb, hbxW]
        have gw : ({ writeCursorAdvance (writeAccount u W.id) with
            waitingForRead := false } : FetchState).writeChunk = some R.id := by
          show lcGetNextAvailableChunkWrite (writeAccount u W.id).chunks
              (writeAccount u W.id).writeChunk = some R.id
          have hwwc : (writeAccount u W.id).writeChunk = some W.id := g3
          rw [hwch, hwwc]
          simp [lcGetNextAvailableChunkWrite, ringNextIdx, hiW]
        have gc : getChunk ({ writeCursorAdvance (writeAccount u W.id) with
            waitingForRead := false } : FetchState).chunks R.id
            = some { R with bytesInBuffer := t.statusBlockInfo } := by
          show getChunk (writeAccount u W.id).chunks R.id = _
          rw [hwch]
          exact getChunk_cons_eq _ rfl
        have gb : ({ R with bytesInBuffer := t.statusBlockInfo }
            : FileChunk).bytesInBuffer ≠ 0 := by
          show t.statusBlockInfo ≠ 0
          omega
        rw [writeIssue_write gw gc gb]
        have hphase : ∀ sF : FetchState,
            sF = { { writeCursorAdvance (writeAccount u W.id) with
                waitingForRead := false } with
              writeEventSignaled := false, writePending := true,
              writePendingBytes := ({ R with bytesInBuffer := t.statusBlockInfo }
                : FileChunk).bytesInBuffer } →
            SyncPhase declared actual sF := by
          intro sF hSF
          have c1 : sF.chunks = [{ R with bytesInBuffer := t.statusBlockInfo }, x,
              { W with bytesInBuffer := 0 }] := by
            rw [hSF]
            exact hwch
          have c2 : sF.writeChunk = some R.id := by rw [hSF]; exact gw
          have c3 : sF.eof = true := by rw [hSF]; exact g1
          have c4 : sF.waitingForRead = false := by rw [hSF]
          have c5 : sF.readPending = false := by rw [hSF]; exact f8
          have c6 : sF.writePending = true := by rw [hSF]
          have c7 : sF.writeEventSignaled = false := by rw [hSF]
          have c8 : sF.writePendingBytes = t.statusBlockInfo := by rw [hSF]
          have c9 : sF.totalBytesWritten
              = t.totalBytesWritten + (t.writeCbBytes : Int) := by
            rw [hSF]
            rfl
          refine SyncPhase.drain sF { R with bytesInBuffer := t.statusBlockInfo }
            ?_ ?_ ?_ ?_ ?_ ?_ ?_ ?_ ?_ ?_
          · rw [c1]
            exact List.mem_cons_self _ _
          · exact c2
          · intro c hc hne
            rw [c1] at hc
            rcases List.mem_cons.mp hc with h1 | h1
            · rw [h1] at hne
              exact absurd rfl hne
            · rcases List.mem_cons.mp h1 with h2 | h2
              · rw [h2]
                exact hxb
              · rcases List.mem_cons.mp h2 with h3 | h3
                · rw [h3]
                · simp at h3
          · rw [c8]
          · exact c3
          · exact c4
          · exact c5
          · exact c6
          · exact c7
          · rw [c9, c8, f9, f11, htw, hwpb, hBeq]
            omega
        exact ⟨_, rfl, hphase _ rfl⟩
    · -- full read: schedule the next read, write out the full chunk
      rw [readUpdate_data_full f4 f5 hgcR hfull]
      simp only [onNext_next]
      set u : FetchState := { t with
        chunks := setChunkBytes t.chunks R.id t.statusBlockInfo,
        remainingBytes := t.remainingBytes - (t.statusBlockInfo : Int),
        totalBytesRead := t.totalBytesRead + (t.statusBlockInfo : Int),
        sourceFileOffset := t.sourceFileOffset + (t.statusBlockInfo : Int) } with hU
      have g1 : u.eof = false := by rw [hU]; exact f1
      have e2 : (if (!u.eof) = true then LoopOut.next (scheduleRead u)
          else LoopOut.next u) = LoopOut.next (scheduleRead u) := by
        rw [g1]
        rfl
      rw [e2]
      simp only [onNext_next]
      rw [f3, writeHalf_true]
      have grem : u.remainingBytes < 2 ^ 32 := by
        rw [hU]
        show t.remainingBytes - (t.statusBlockInfo : Int) < 2 ^ 32
        rw [f17]
        omega
      obtain ⟨rem2, hrem2eq, hrem2pos, hrem2lt⟩ : ∃ r : Int,
          (if u.remainingBytes ≤ 0 then { u with remainingBytes := (ChunkSize : Int) }
           else u) = { u with remainingBytes := r } ∧ 0 < r ∧ r < 2 ^ 32 := by
        by_cases hx : u.remainingBytes ≤ 0
        · refine ⟨(ChunkSize : Int), by rw [if_pos hx], by decide, by decide⟩
        · exact ⟨u.remainingBytes, by rw [if_neg hx], by omega, grem⟩
      have hsru : scheduleRead u =
          readIssue (readCursorAdvance { u with remainingBytes := rem2 }) := by
        rw [scheduleRead, hrem2eq]
      set u2 : FetchState := { u with remainingBytes := rem2 } with hU2
      rw [hsru]
      have hu2rdc : u2.readChunk = some R.id := f4
      have hu2nid : u2.nextId = s.nextId := f15
      have hu2rem : u2.remainingBytes = rem2 := rfl
      have hNsz : 0 < min ChunkSize (ulongCast rem2) := by
        refine Nat.lt_min.mpr ⟨by decide, ?_⟩
        rw [ulongCast]
        rw [Int.emod_eq_of_lt (le_of_lt hrem2pos) hrem2lt]
        omega
      have hWbne : W.bytesInBuffer ≠ 0 := by omega
      rcases hsh with hsh1 | hsh2 | ⟨x, hsh3 | hsh4 | hsh5, hxb, hxs, hxw, hxr⟩
      · -- ring [W, R]: the successor of R is the full W, splice a fresh chunk in
        have hu2ch : u2.chunks = [W, { R with bytesInBuffer := t.statusBlockInfo }] := by
          show setChunkBytes t.chunks R.id t.statusBlockInfo = _
          rw [f7, hsh1, setChunkBytes_skip _ _ hWR, setChunkBytes_head, setChunkBytes_nil]
        have hu2len : u2.chunkListLength = 2 := by
          show t.chunkListLength = 2
          rw [f16, hlen, hsh1]
          rfl
        have hiR : findIdxOf [W, { R with bytesInBuffer := t.statusBlockInfo }]
            R.id = 1 := by
          have hbW : (W.id == R.id) = false := by simp [hWR]
          rw [findIdxOf, List.findIdx_cons, List.findIdx_cons]
          simp [hbW]
        have hrd : lcGetNextAvailableChunkRead u2.chunks u2.chunkListLength u2.nextId
            u2.readChunk u2.remainingBytes =
            { chunks := [⟨s.nextId, min ChunkSize (ulongCast rem2), 0⟩, W,
                { R with bytesInBuffer := t.statusBlockInfo }],
              listLength := 3, nextId := s.nextId + 1, cursor := s.nextId } := by
          rw [hu2ch, hu2len, hu2nid, hu2rdc, hu2rem]
          simp [lcGetNextAvailableChunkRead, ringNextIdx, hiR, lcAddNewChunk,
            MaxChunks, hWbne]
        have e4 : readCursorAdvance u2 =
            { u2 with
                chunks := [⟨s.nextId, min ChunkSize (ulongCast rem2), 0⟩, W,
                  { R with bytesInBuffer := t.statusBlockInfo }],
                chunkListLength := 3, nextId := s.nextId + 1,
                readChunk := some s.nextId } := by
          rw [readCursorAdvance, hrd]
        rw [e4]
        set u3 : FetchState := { u2 with
          chunks := [⟨s.nextId, min ChunkSize (ulongCast rem2), 0⟩, W,
            { R with bytesInBuffer := t.statusBlockInfo }],
          chunkListLength := 3, nextId := s.nextId + 1,
          readChunk := some s.nextId } with hU3
        have hx1 : u3.readChunk = some s.nextId := by rw [hU3]
        have hx2 : getChunk u3.chunks s.nextId
            = some ⟨s.nextId, min ChunkSize (ulongCast rem2), 0⟩ := by
          have hy : u3.chunks = [⟨s.nextId, min ChunkSize (ulongCast rem2), 0⟩, W,
              { R with bytesInBuffer := t.statusBlockInfo }] := by rw [hU3]
          rw [hy]
          exact getChunk_cons_eq _ rfl
        have e5 : readIssue u3 = { u3 with
            readPending := true,
            readReqSize := min ChunkSize (ulongCast rem2),
            readReqOff := u3.sourceFileOffset } := readIssue_go hx1 hx2
        rw [e5]
        set u4 : FetchState := { u3 with
          readPending := true,
          readReqSize := min ChunkSize (ulongCast rem2),
          readReqOff := u3.sourceFileOffset } with hU4
        have g2 : u4.waitingForRead = false := f2
        have g3 : u4.writeChunk = some W.id := f6
        have g4 : ntSuccess u4.writeCbStatus = true := by
          have h : u4.writeCbStatus = STATUS_SUCCESS := f10
          rw [h]
          decide
        rw [writeAdvance_eval g2 g3 g4]
        simp only [onNext_next]
        have hy4 : u4.chunks = [⟨s.nextId, min ChunkSize (ulongCast rem2), 0⟩, W,
            { R with bytesInBuffer := t.statusBlockInfo }] := by rw [hU4, hU3]
        have hNW : ((⟨s.nextId, min ChunkSize (ulongCast rem2), 0⟩ : FileChunk)).id
            ≠ W.id := by
          show s.nextId ≠ W.id
          omega
        have hRbW : ({ R with bytesInBuffer := t.statusBlockInfo } : FileChunk).id
            ≠ W.id := hRW
        have hwch : (writeAccount u4 W.id).chunks
            = [⟨s.nextId, min ChunkSize (ulongCast rem2), 0⟩,
               { W with bytesInBuffer := 0 },
               { R with bytesInBuffer := t.statusBlockInfo }] := by
          show setChunkBytes u4.chunks W.id 0 = _
          rw [hy4, setChunkBytes_skip _ _ hNW, setChunkBytes_head,
            setChunkBytes_skip _ _ hRbW, setChunkBytes_nil]
        have hiW : findIdxOf [⟨s.nextId, min ChunkSize (ulongCast rem2), 0⟩,
            { W with bytesInBuffer := 0 },
            { R with bytesInBuffer := t.statusBlockInfo }] W.id = 1 := by
          have hbN : (s.nextId == W.id) = false := by
            simp
            omega
          rw [findIdxOf, List.findIdx_cons, List.findIdx_cons]
          simp [hbN]
        have gw : ({ writeCursorAdvance (writeAccount u4 W.id) with
            waitingForRead := false } : FetchState).writeChunk = some R.id := by
          show lcGetNextAvailableChunkWrite (writeAccount u4 W.id).chunks
              (writeAccount u4 W.id).writeChunk = some R.id
          have hwwc : (writeAccount u4 W.id).writeChunk = some W.id := g3
          rw [hwch, hwwc]
          simp [lcGetNextAvailableChunkWrite, ringNextIdx, hiW]
        have hNR : ((⟨s.nextId, min ChunkSize (ulongCast rem2), 0⟩ : FileChunk)).id
            ≠ R.id := by
          show s.nextId ≠ R.id
          omega
        have gc : getChunk ({ writeCursorAdvance (writeAccount u4 W.id) with
            waitingForRead := false } : FetchState).chunks R.id
            = some { R with bytesInBuffer := t.statusBlockInfo } := by
          show getChunk (writeAccount u4 W.id).chunks R.id = _
          rw [hwch]
          rw [getChunk_cons_ne _ hNR]
          rw [getChunk_cons_ne _
            (show ({ W with bytesInBuffer := 0 } : FileChunk).id ≠ R.id from hWR)]
          exact getChunk_cons_eq _ rfl
        have gb : ({ R with bytesInBuffer := t.statusBlockInfo }
            : FileChunk).bytesInBuffer ≠ 0 := by
          show t.statusBlockInfo ≠ 0
          omega
        rw [writeIssue_write gw gc gb]
        have hphase : ∀ sF : FetchState,
            sF = { { writeCursorAdvance (writeAccount u4 W.id) with
                waitingForRead := false } with
              writeEventSignaled := false, writePending := true,
              writePendingBytes := ({ R with bytesInBuffer := t.statusBlockInfo }
                : FileChunk).bytesInBuffer } →
            SyncPhase declared actual sF := by
          intro sF hSF
          have c1 : sF.chunks = [⟨s.nextId, min ChunkSize (ulongCast rem2), 0⟩,
              { W with bytesInBuffer := 0 },
              { R with bytesInBuffer := t.statusBlockInfo }] := by
            rw [hSF]
            exact hwch
          have c2 : sF.eof = false := by rw [hSF]; exact f1
          have c3 : sF.waitingForRead = false := by rw [hSF]
          have c4 : sF.readChunk = some s.nextId := by rw [hSF]; rfl
          have c5 : sF.writeChunk = some R.id := by rw [hSF]; exact gw
          have c6 : sF.readPending = true := by rw [hSF]; rfl
          have c7 : sF.readReqSize = min ChunkSize (ulongCast rem2) := by rw [hSF]; rfl
          have c8 : sF.readReqOff = sF.sourceFileOffset := by rw [hSF]; rfl
          have c9 : sF.writePending = true := by rw [hSF]
          have c10 : sF.writeEventSignaled = false := by rw [hSF]
          have c11 : sF.writePendingBytes = t.statusBlockInfo := by rw [hSF]
          have c12 : sF.totalBytesRead
              = t.totalBytesRead + (t.statusBlockInfo : Int) := by rw [hSF]; rfl
          have c13 : sF.totalBytesWritten
              = t.totalBytesWritten + (t.writeCbBytes : Int) := by rw [hSF]; rfl
          have c14 : sF.sourceFileOffset
              = t.sourceFileOffset + (t.statusBlockInfo : Int) := by rw [hSF]; rfl
          have c15 : sF.destinationFileOffset
              = t.destinationFileOffset + (t.writeCbBytes : Int) := by rw [hSF]; rfl
          have c16 : sF.remainingBytes = rem2 := by rw [hSF]; rfl
          have c17 : sF.chunkListLength = 3 := by rw [hSF]; rfl
          have c18 : sF.nextId = s.nextId + 1 := by rw [hSF]; rfl
          refine SyncPhase.steady sF { R with bytesInBuffer := t.statusBlockInfo }
            ⟨s.nextId, min ChunkSize (ulongCast rem2), 0⟩
            ?_ ?_ ?_ ?_ ?_ ?_ ?_ ?_ ?_ ?_ ?_ ?_ ?_ ?_ ?_ ?_ ?_ ?_ ?_ ?_ ?_ ?_ ?_
          · exact Or.inr (Or.inr ⟨{ W with bytesInBuffer := 0 },
              Or.inr (Or.inr c1), rfl, hWs, hWR,
              (show W.id ≠ s.nextId by omega)⟩)
          · show R.id ≠ s.nextId
            omega
          · exact hBpos
          · exact hRs
          · rfl
          · exact hNsz
          · exact c2
          · exact c3
          · exact c4
          · exact c5
          · exact c6
          · exact c7
          · exact c8
          · exact c9
          · exact c10
          · exact c11
          · rw [c12, c14, f14, f13, htr]
          · rw [c13, c15, f9, f12, htw]
          · have hq : ({ R with bytesInBuffer := t.statusBlockInfo }
                : FileChunk).bytesInBuffer = t.statusBlockInfo := rfl
            rw [c14, c15, f13, f12, f11, hq, hwpb, ← hoff]
          · rw [c14, f13]
            exact hBle
          · rw [c16]
            exact hrem2lt
          · rw [c17, c1]
            rfl
          · intro c hc
            rw [c18]
            rw [c1] at hc
            rcases List.mem_cons.mp hc with h1 | h1
            · rw [h1]
              show s.nextId < s.nextId + 1
              omega
            · rcases List.mem_cons.mp h1 with h2 | h2
              · rw [h2]
                show W.id < s.nextId + 1
                omega
              · rcases List.mem_cons.mp h2 with h3 | h3
                · rw [h3]
                  show R.id < s.nextId + 1
                  omega
                · simp at h3
        exact ⟨_, rfl, hphase _ rfl⟩
      · -- ring [R, W]: the successor of R is the full W, splice a fresh chunk in
        have hu2ch : u2.chunks = [{ R with bytesInBuffer := t.statusBlockInfo }, W] := by
          show setChunkBytes t.chunks R.id t.statusBlockInfo = _
          rw [f7, hsh2, setChunkBytes_head, setChunkBytes_skip _ _ hWR,
            setChunkBytes_nil]
        have hu2len : u2.chunkListLength = 2 := by
          show t.chunkListLength = 2
          rw [f16, hlen, hsh2]
          rfl
        have hiR : findIdxOf [{ R with bytesInBuffer := t.statusBlockInfo }, W]
            R.id = 0 := by
          rw [findIdxOf, List.findIdx_cons]
          simp
        have hrd : lcGetNextAvailableChunkRead u2.chunks u2.chunkListLength u2.nextId
            u2.readChunk u2.remainingBytes =
            { chunks := [{ R with bytesInBuffer := t.statusBlockInfo },
                ⟨s.nextId, min ChunkSize (ulongCast rem2), 0⟩, W],
              listLength := 3, nextId := s.nextId + 1, cursor := s.nextId } := by
          rw [hu2ch, hu2len, hu2nid, hu2rdc, hu2rem]
          simp [lcGetNextAvailableChunkRead, ringNextIdx, hiR, lcAddNewChunk,
            MaxChunks, hWbne]
        have e4 : readCursorAdvance u2 =
            { u2 with
                chunks := [{ R with bytesInBuffer := t.statusBlockInfo },
                  ⟨s.nextId, min ChunkSize (ulongCast rem2), 0⟩, W],
                chunkListLength := 3, nextId := s.nextId + 1,
                readChunk := some s.nextId } := by
          rw [readCursorAdvance, hrd]
        rw [e4]
        set u3 : FetchState := { u2 with
          chunks := [{ R with bytesInBuffer := t.statusBlockInfo },
            ⟨s.nextId, min ChunkSize (ulongCast rem2), 0⟩, W],
          chunkListLength := 3, nextId := s.nextId + 1,
          readChunk := some s.nextId } with hU3
        have hx1 : u3.readChunk = some s.nextId := by rw [hU3]
        have hx2 : getChunk u3.chunks s.nextId
            = some ⟨s.nextId, min ChunkSize (ulongCast rem2), 0⟩ := by
          have hy : u3.chunks = [{ R with bytesInBuffer := t.statusBlockInfo },
              ⟨s.nextId, min ChunkSize (ulongCast rem2), 0⟩, W] := by rw [hU3]
          rw [hy]
          rw [getChunk_cons_ne _
            (show ({ R with bytesInBuffer := t.statusBlockInfo } : FileChunk).id
              ≠ s.nextId by show R.id ≠ s.nextId; omega)]
          exact getChunk_cons_eq _ rfl
        have e5 : readIssue u3 = { u3 with
            readPending := true,
            readReqSize := min ChunkSize (ulongCast rem2),
            readReqOff := u3.sourceFileOffset } := readIssue_go hx1 hx2
        rw [e5]
        set u4 : FetchState := { u3 with
          readPending := true,
          readReqSize := min ChunkSize (ulongCast rem2),
          readReqOff := u3.sourceFileOffset } with hU4
        have g2 : u4.waitingForRead = false := f2
        have g3 : u4.writeChunk = some W.id := f6
        have g4 : ntSuccess u4.writeCbStatus = true := by
          have h : u4.writeCbStatus = STATUS_SUCCESS := f10
          rw [h]
          decide
        rw [writeAdvance_eval g2 g3 g4]
        simp only [onNext_next]
        have hy4 : u4.chunks = [{ R with bytesInBuffer := t.statusBlockInfo },
            ⟨s.nextId, min ChunkSize (ulongCast rem2), 0⟩, W] := by rw [hU4, hU3]
        have hNW : ((⟨s.nextId, min ChunkSize (ulongCast rem2), 0⟩ : FileChunk)).id
            ≠ W.id := by
          show s.nextId ≠ W.id
          omega
        have hRbW : ({ R with bytesInBuffer := t.statusBlockInfo } : FileChunk).id
            ≠ W.id := hRW
        have hwch : (writeAccount u4 W.id).chunks
            = [{ R with bytesInBuffer := t.statusBlockInfo },
               ⟨s.nextId, min ChunkSize (ulongCast rem2), 0⟩,
               { W with bytesInBuffer := 0 }] := by
          show setChunkBytes u4.chunks W.id 0 = _
          rw [hy4, setChunkBytes_skip _ _ hRbW, setChunkBytes_skip _ _ hNW,
            setChunkBytes_head, setChunkBytes_nil]
        have hbRb : (R.id == W.id) = false := by simp [hRW]
        have hbN : (s.nextId == W.id) = false := by
          simp
          omega
        have hiW : findIdxOf [{ R with bytesInBuffer := t.statusBlockInfo },
            ⟨s.nextId, min ChunkSize (ulongCast rem2), 0⟩,
            { W with bytesInBuffer := 0 }] W.id = 2 := by
          rw [findIdxOf, List.findIdx_cons, List.findIdx_cons, List.findIdx_cons]
          simp [hbRb, hbN]
        have gw : ({ writeCursorAdvance (writeAccount u4 W.id) with
            waitingForRead := false } : FetchState).writeChunk = some R.id := by
          show lcGetNextAvailableChunkWrite (writeAccount u4 W.id).chunks
              (writeAccount u4 W.id).writeChunk = some R.id
          have hwwc : (writeAccount u4 W.id).writeChunk = some W.id := g3
          rw [hwch, hwwc]
          simp [lcGetNextAvailableChunkWrite, ringNextIdx, hiW]
        have gc : getChunk ({ writeCursorAdvance (writeAccount u4 W.id) with
            waitingForRead := false } : FetchState).chunks R.id
            = some { R with bytesInBuffer := t.statusBlockInfo } := by
          show getChunk (writeAccount u4 W.id).chunks R.id = _
          rw [hwch]
          exact getChunk_cons_eq _ rfl
        have gb : ({ R with bytesInBuffer := t.statusBlockInfo }
            : FileChunk).bytesInBuffer ≠ 0 := by
          show t.statusBlockInfo ≠ 0
          omega
        rw [writeIssue_write gw gc gb]
        have hphase : ∀ sF : FetchState,
            sF = { { writeCursorAdvance (writeAccount u4 W.id) with
                waitingForRead := false } with
              writeEventSignaled := false, writePending := true,
              writePendingBytes := ({ R with bytesInBuffer := t.statusBlockInfo }
                : FileChunk).bytesInBuffer } →
            SyncPhase declared actual sF := by
          intro sF hSF
          have c1 : sF.chunks = [{ R with bytesInBuffer := t.statusBlockInfo },
              ⟨s.nextId, min ChunkSize (ulongCast rem2), 0⟩,
              { W with bytesInBuffer := 0 }] := by
            rw [hSF]
            exact hwch
          have c2 : sF.eof = false := by rw [hSF]; exact f1
          have c3 : sF.waitingForRead = false := by rw [hSF]
          have c4 : sF.readChunk = some s.nextId := by rw [hSF]; rfl
          have c5 : sF.writeChunk = some R.id := by rw [hSF]; exact gw
          have c6 : sF.readPending = true := by rw [hSF]; rfl
          have c7 : sF.readReqSize = min ChunkSize (ulongCast rem2) := by rw [hSF]; rfl
          have c8 : sF.readReqOff = sF.sourceFileOffset := by rw [hSF]; rfl
          have c9 : sF.writePending = true := by rw [hSF]
          have c10 : sF.writeEventSignaled = false := by rw [hSF]
          have c11 : sF.writePendingBytes = t.statusBlockInfo := by rw [hSF]
          have c12 : sF.totalBytesRead
              = t.totalBytesRead + (t.statusBlockInfo : Int) := by rw [hSF]; rfl
          have c13 : sF.totalBytesWritten
              = t.totalBytesWritten + (t.writeCbBytes : Int) := by rw [hSF]; rfl
          have c14 : sF.sourceFileOffset
              = t.sourceFileOffset + (t.statusBlockInfo : Int) := by rw [hSF]; rfl
          have c15 : sF.destinationFileOffset
              = t.destinationFileOffset + (t.writeCbBytes : Int) := by rw [hSF]; rfl
          have c16 : sF.remainingBytes = rem2 := by rw [hSF]; rfl
          have c17 : sF.chunkListLength = 3 := by rw [hSF]; rfl
          have c18 : sF.nextId = s.nextId + 1 := by rw [hSF]; rfl
          refine SyncPhase.steady sF { R with bytesInBuffer := t.statusBlockInfo }
            ⟨s.nextId, min ChunkSize (ulongCast rem2), 0⟩
            ?_ ?_ ?_ ?_ ?_ ?_ ?_ ?_ ?_ ?_ ?_ ?_ ?_ ?_ ?_ ?_ ?_ ?_ ?_ ?_ ?_ ?_ ?_
          · exact Or.inr (Or.inr ⟨{ W with bytesInBuffer := 0 },
              Or.inl c1, rfl, hWs, hWR,
              (show W.id ≠ s.nextId by omega)⟩)
          · show R.id ≠ s.nextId
            omega
          · exact hBpos
          · exact hRs
          · rfl
          · exact hNsz
          · exact c2
          · exact c3
          · exact c4
          · exact c5
          · exact c6
          · exact c7
          · exact c8
          · exact c9
          · exact c10
          · exact c11
          · rw [c12, c14, f14, f13, htr]
          · rw [c13, c15, f9, f12, htw]
          · have hq : ({ R with bytesInBuffer := t.statusBlockInfo }
                : FileChunk).bytesInBuffer = t.statusBlockInfo := rfl
            rw [c14, c15, f13, f12, f11, hq, hwpb, ← hoff]
          · rw [c14, f13]
            exact hBle
          · rw [c16]
            exact hrem2lt
          · rw [c17, c1]
            rfl
          · intro c hc
            rw [c18]
            rw [c1] at hc
            rcases List.mem_cons.mp hc with h1 | h1
            · rw [h1]
              show R.id < s.nextId + 1
              omega
            · rcases List.mem_cons.mp h1 with h2 | h2
              · rw [h2]
                show s.nextId < s.nextId + 1
                omega
              · rcases List.mem_cons.mp h2 with h3 | h3
                · rw [h3]
                  show W.id < s.nextId + 1
                  omega
                · simp at h3
        exact ⟨_, rfl, hphase _ rfl⟩
      · -- ring [W, R, x]: the successor of R is the empty chunk x, reuse it
        have hxmem : x ∈ s.chunks := by
          rw [hsh3]
          simp
        have hxlt : x.id < s.nextId := hfresh x hxmem
        have hu2ch : u2.chunks = [W, { R with bytesInBuffer := t.statusBlockInfo }, x] := by
          show setChunkBytes t.chunks R.id t.statusBlockInfo = _
          rw [f7, hsh3, setChunkBytes_skip _ _ hWR, setChunkBytes_head,
            setChunkBytes_skip _ _ hxr, setChunkBytes_nil]
        have hu2len : u2.chunkListLength = 3 := by
          show t.chunkListLength = 3
          rw [f16, hlen, hsh3]
          rfl
        have hbW : (W.id == R.id) = false := by simp [hWR]
        have hiR : findIdxOf [W, { R with bytesInBuffer := t.statusBlockInfo }, x] R.id = 1 := by
          rw [findIdxOf, List.findIdx_cons, List.findIdx_cons]
          simp [hbW]
        have hrd : lcGetNextAvailableChunkRead u2.chunks u2.chunkListLength u2.nextId
            u2.readChunk u2.remainingBytes =
            { chunks := [W, { R with bytesInBuffer := t.statusBlockInfo }, x],
              listLength := 3, nextId := s.nextId, cursor := x.id } := by
          rw [hu2ch, hu2len, hu2nid, hu2rdc, hu2rem]
          simp [lcGetNextAvailableChunkRead, ringNextIdx, hiR, hxb]
        have e4 : readCursorAdvance u2 =
            { u2 with
                chunks := [W, { R with bytesInBuffer := t.statusBlockInfo }, x],
                chunkListLength := 3, nextId := s.nextId,
                readChunk := some x.id } := by
          rw [readCursorAdvance, hrd]
        rw [e4]
        set u3 : FetchState := { u2 with
          chunks := [W, { R with bytesInBuffer := t.statusBlockInfo }, x],
          chunkListLength := 3, nextId := s.nextId,
          readChunk := some x.id } with hU3
        have hx1 : u3.readChunk = some x.id := by rw [hU3]
        have hx2 : getChunk u3.chunks x.id = some x := by
          have hy : u3.chunks = [W, { R with bytesInBuffer := t.statusBlockInfo }, x] := by rw [hU3]
          rw [hy]
          rw [getChunk_cons_ne _ (Ne.symm hxw)]
          rw [getChunk_cons_ne _
            (show ({ R with bytesInBuffer := t.statusBlockInfo } : FileChunk).id ≠ x.id from Ne.symm hxr)]
          exact getChunk_cons_eq _ rfl
        have e5 : readIssue u3 = { u3 with
            readPending := true,
            readReqSize := x.bufferSize,
            readReqOff := u3.sourceFileOffset } := readIssue_go hx1 hx2
        rw [e5]
        set u4 : FetchState := { u3 with
          readPending := true,
          readReqSize := x.bufferSize,
          readReqOff := u3.sourceFileOffset } with hU4
        have g2 : u4.waitingForRead = false := f2
        have g3 : u4.writeChunk = some W.id := f6
        have g4 : ntSuccess u4.writeCbStatus = true := by
          have h : u4.writeCbStatus = STATUS_SUCCESS := f10
          rw [h]
          decide
        rw [writeAdvance_eval g2 g3 g4]
        simp only [onNext_next]
        have hy4 : u4.chunks = [W, { R with bytesInBuffer := t.statusBlockInfo }, x] := by rw [hU4, hU3]
        have hRbW : ({ R with bytesInBuffer := t.statusBlockInfo } : FileChunk).id
            ≠ W.id := hRW
        have hwch : (writeAccount u4 W.id).chunks
            = [{ W with bytesInBuffer := 0 },
               { R with bytesInBuffer := t.statusBlockInfo }, x] := by
          show setChunkBytes u4.chunks W.id 0 = _
          rw [hy4, setChunkBytes_head, setChunkBytes_skip _ _ hRbW,
            setChunkBytes_skip _ _ hxw, setChunkBytes_nil]
        have hiW : findIdxOf [{ W with bytesInBuffer := 0 },
               { R with bytesInBuffer := t.statusBlockInfo }, x] W.id = 0 := by
          rw [findIdxOf, List.findIdx_cons]
          simp
        have gw : ({ writeCursorAdvance (writeAccount u4 W.id) with
            waitingForRead := false } : FetchState).writeChunk = some R.id := by
          show lcGetNextAvailableChunkWrite (writeAccount u4 W.id).chunks
              (writeAccount u4 W.id).writeChunk = some R.id
          have hwwc : (writeAccount u4 W.id).writeChunk = some W.id := g3
          rw [hwch, hwwc]
          simp [lcGetNextAvailableChunkWrite, ringNextIdx, hiW]
        have gc : getChunk ({ writeCursorAdvance (writeAccount u4 W.id) with
            waitingForRead := false } : FetchState).chunks R.id
            = some { R with bytesInBuffer := t.statusBlockInfo } := by
          show getChunk (writeAccount u4 W.id).chunks R.id = _
          rw [hwch]
          rw [getChunk_cons_ne _
            (show ({ W with bytesInBuffer := 0 } : FileChunk).id ≠ R.id from hWR)]
          exact getChunk_cons_eq _ rfl
        have gb : ({ R with bytesInBuffer := t.statusBlockInfo }
            : FileChunk).bytesInBuffer ≠ 0 := by
          show t.statusBlockInfo ≠ 0
          omega
        rw [writeIssue_write gw gc gb]
        have hphase : ∀ sF : FetchState,
            sF = { { writeCursorAdvance (writeAccount u4 W.id) with
                waitingForRead := false } with
              writeEventSignaled := false, writePending := true,
              writePendingBytes := ({ R with bytesInBuffer := t.statusBlockInfo }
                : FileChunk).bytesInBuffer } →
            SyncPhase declared actual sF := by
          intro sF hSF
          have c1 : sF.chunks = [{ W with bytesInBuffer := 0 },
              { R with bytesInBuffer := t.statusBlockInfo }, x] := by
            rw [hSF]
            exact hwch
          have c2 : sF.eof = false := by rw [hSF]; exact f1
          have c3 : sF.waitingForRead = false := by rw [hSF]
          have c4 : sF.readChunk = some x.id := by rw [hSF]; rfl
          have c5 : sF.writeChunk = some R.id := by rw [hSF]; exact gw
          have c6 : sF.readPending = true := by rw [hSF]; rfl
          have c7 : sF.readReqSize = x.bufferSize := by rw [hSF]; rfl
          have c8 : sF.readReqOff = sF.sourceFileOffset := by rw [hSF]; rfl
          have c9 : sF.writePending = true := by rw [hSF]
          have c10 : sF.writeEventSignaled = false := by rw [hSF]
          have c11 : sF.writePendingBytes = t.statusBlockInfo := by rw [hSF]
          have c12 : sF.totalBytesRead
              = t.totalBytesRead + (t.statusBlockInfo : Int) := by rw [hSF]; rfl
          have c13 : sF.totalBytesWritten
              = t.totalBytesWritten + (t.writeCbBytes : Int) := by rw [hSF]; rfl
          have c14 : sF.sourceFileOffset
              = t.sourceFileOffset + (t.statusBlockInfo : Int) := by rw [hSF]; rfl
          have c15 : sF.destinationFileOffset
              = t.destinationFileOffset + (t.writeCbBytes : Int) := by rw [hSF]; rfl
          have c16 : sF.remainingBytes = rem2 := by rw [hSF]; rfl
          have c17 : sF.chunkListLength = 3 := by rw [hSF]; rfl
          have c18 : sF.nextId = s.nextId := by rw [hSF]; rfl
          refine SyncPhase.steady sF { R with bytesInBuffer := t.statusBlockInfo } x
            ?_ ?_ ?_ ?_ ?_ ?_ ?_ ?_ ?_ ?_ ?_ ?_ ?_ ?_ ?_ ?_ ?_ ?_ ?_ ?_ ?_ ?_ ?_
          · exact Or.inr (Or.inr ⟨{ W with bytesInBuffer := 0 },
              Or.inr (Or.inl c1), rfl, hWs, hWR,
              (show W.id ≠ x.id from Ne.symm hxw)⟩)
          · show R.id ≠ x.id
            exact Ne.symm hxr
          · exact hBpos
          · exact hRs
          · exact hxb
          · exact hxs
          · exact c2
          · exact c3
          · exact c4
          · exact c5
          · exact c6
          · exact c7
          · exact c8
          · exact c9
          · exact c10
          · exact c11
          · rw [c12, c14, f14, f13, htr]
          · rw [c13, c15, f9, f12, htw]
          · have hq : ({ R with bytesInBuffer := t.statusBlockInfo }
                : FileChunk).bytesInBuffer = t.statusBlockInfo := rfl
            rw [c14, c15, f13, f12, f11, hq, hwpb, ← hoff]
          · rw [c14, f13]
            exact hBle
          · rw [c16]
            exact hrem2lt
          · rw [c17, c1]
            rfl
          · intro c hc
            rw [c18]
            rw [c1] at hc
            rcases List.mem_cons.mp hc with h1 | h1
            · rw [h1]
              show W.id < s.nextId
              omega
            · rcases List.mem_cons.mp h1 with h2 | h2
              · rw [h2]
                show R.id < s.nextId
                omega
              · rcases List.mem_cons.mp h2 with h3 | h3
                · rw [h3]
                  omega
                · simp at h3
        exact ⟨_, rfl, hphase _ rfl⟩
      · -- ring [x, W, R]: the successor of R is the empty chunk x, reuse it
        have hxmem : x ∈ s.chunks := by
          rw [hsh4]
          simp
        have hxlt : x.id < s.nextId := hfresh x hxmem
        have hu2ch : u2.chunks = [x, W, { R with bytesInBuffer := t.statusBlockInfo }] := by
          show setChunkBytes t.chunks R.id t.statusBlockInfo = _
          rw [f7, hsh4, setChunkBytes_skip _ _ hxr, setChunkBytes_skip _ _ hWR,
            setChunkBytes_head, setChunkBytes_nil]
        have hu2len : u2.chunkListLength = 3 := by
          show t.chunkListLength = 3
          rw [f16, hlen, hsh4]
          rfl
        have hbx : (x.id == R.id) = false := by simp [hxr]
        have hbW : (W.id == R.id) = false := by simp [hWR]
        have hiR : findIdxOf [x, W, { R with bytesInBuffer := t.statusBlockInfo }] R.id = 2 := by
          rw [findIdxOf, List.findIdx_cons, List.findIdx_cons, List.findIdx_cons]
          simp [hbx, hbW]
        have hrd : lcGetNextAvailableChunkRead u2.chunks u2.chunkListLength u2.nextId
            u2.readChunk u2.remainingBytes =
            { chunks := [x, W, { R with bytesInBuffer := t.statusBlockInfo }],
              listLength := 3, nextId := s.nextId, cursor := x.id } := by
          rw [hu2ch, hu2len, hu2nid, hu2rdc, hu2rem]
          simp [lcGetNextAvailableChunkRead, ringNextIdx, hiR, hxb]
        have e4 : readCursorAdvance u2 =
            { u2 with
                chunks := [x, W, { R with bytesInBuffer := t.statusBlockInfo }],
                chunkListLength := 3, nextId := s.nextId,
                readChunk := some x.id } := by
          rw [readCursorAdvance, hrd]
        rw [e4]
        set u3 : FetchState := { u2 with
          chunks := [x, W, { R with bytesInBuffer := t.statusBlockInfo }],
          chunkListLength := 3, nextId := s.nextId,
          readChunk := some x.id } with hU3
        have hx1 : u3.readChunk = some x.id := by rw [hU3]
        have hx2 : getChunk u3.chunks x.id = some x := by
          have hy : u3.chunks = [x, W, { R with bytesInBuffer := t.statusBlockInfo }] := by rw [hU3]
          rw [hy]
          exact getChunk_cons_eq _ rfl
        have e5 : readIssue u3 = { u3 with
            readPending := true,
            readReqSize := x.bufferSize,
            readReqOff := u3.sourceFileOffset } := readIssue_go hx1 hx2
        rw [e5]
        set u4 : FetchState := { u3 with
          readPending := true,
          readReqSize := x.bufferSize,
          readReqOff := u3.sourceFileOffset } with hU4
        have g2 : u4.waitingForRead = false := f2
        have g3 : u4.writeChunk = some W.id := f6
        have g4 : ntSuccess u4.writeCbStatus = true := by
          have h : u4.writeCbStatus = STATUS_SUCCESS := f10
          rw [h]
          decide
        rw [writeAdvance_eval g2 g3 g4]
        simp only [onNext_next]
        have hy4 : u4.chunks = [x, W, { R with bytesInBuffer := t.statusBlockInfo }] := by rw [hU4, hU3]
        have hRbW : ({ R with bytesInBuffer := t.statusBlockInfo } : FileChunk).id
            ≠ W.id := hRW
        have hwch : (writeAccount u4 W.id).chunks
            = [x, { W with bytesInBuffer := 0 },
               { R with bytesInBuffer := t.statusBlockInfo }] := by
          show setChunkBytes u4.chunks W.id 0 = _
          rw [hy4, setChunkBytes_skip _ _ hxw, setChunkBytes_head,
            setChunkBytes_skip _ _ hRbW, setChunkBytes_nil]
        have hbxW : (x.id == W.id) = false := by simp [hxw]
        have hiW : findIdxOf [x, { W with bytesInBuffer := 0 },
               { R with bytesInBuffer := t.statusBlockInfo }] W.id = 1 := by
          rw [findIdxOf, List.findIdx_cons, List.findIdx_cons]
          simp [hbxW]
        have gw : ({ writeCursorAdvance (writeAccount u4 W.id) with
            waitingForRead := false } : FetchState).writeChunk = some R.id := by
          show lcGetNextAvailableChunkWrite (writeAccount u4 W.id).chunks
              (writeAccount u4 W.id).writeChunk = some R.id
          have hwwc : (writeAccount u4 W.id).writeChunk = some W.id := g3
          rw [hwch, hwwc]
          simp [lcGetNextAvailableChunkWrite, ringNextIdx, hiW]
        have gc : getChunk ({ writeCursorAdvance (writeAccount u4 W.id) with
            waitingForRead := false } : FetchState).chunks R.id
            = some { R with bytesInBuffer := t.statusBlockInfo } := by
          show getChunk (writeAccount u4 W.id).chunks R.id = _
          rw [hwch]
          rw [getChunk_cons_ne _ hxr]
          rw [getChunk_cons_ne _
            (show ({ W with bytesInBuffer := 0 } : FileChunk).id ≠ R.id from hWR)]
          exact getChunk_cons_eq _ rfl
        have gb : ({ R with bytesInBuffer := t.statusBlockInfo }
            : FileChunk).bytesInBuffer ≠ 0 := by
          show t.statusBlockInfo ≠ 0
          omega
        rw [writeIssue_write gw gc gb]
        have hphase : ∀ sF : FetchState,
            sF = { { writeCursorAdvance (writeAccount u4 W.id) with
                waitingForRead := false } with
              writeEventSignaled := false, writePending := true,
              writePendingBytes := ({ R with bytesInBuffer := t.statusBlockInfo }
                : FileChunk).bytesInBuffer } →
            SyncPhase declared actual sF := by
          intro sF hSF
          have c1 : sF.chunks = [x, { W with bytesInBuffer := 0 },
              { R with bytesInBuffer := t.statusBlockInfo }] := by
            rw [hSF]
            exact hwch
          have c2 : sF.eof = false := by rw [hSF]; exact f1
          have c3 : sF.waitingForRead = false := by rw [hSF]
          have c4 : sF.readChunk = some x.id := by rw [hSF]; rfl
          have c5 : sF.writeChunk = some R.id := by rw [hSF]; exact gw
          have c6 : sF.readPending = true := by rw [hSF]; rfl
          have c7 : sF.readReqSize = x.bufferSize := by rw [hSF]; rfl
          have c8 : sF.readReqOff = sF.sourceFileOffset := by rw [hSF]; rfl
          have c9 : sF.writePending = true := by rw [hSF]
          have c10 : sF.writeEventSignaled = false := by rw [hSF]
          have c11 : sF.writePendingBytes = t.statusBlockInfo := by rw [hSF]
          have c12 : sF.totalBytesRead
              = t.totalBytesRead + (t.statusBlockInfo : Int) := by rw [hSF]; rfl
          have c13 : sF.totalBytesWritten
              = t.totalBytesWritten + (t.writeCbBytes : Int) := by rw [hSF]; rfl
          have c14 : sF.sourceFileOffset
              = t.sourceFileOffset + (t.statusBlockInfo : Int) := by rw [hSF]; rfl
          have c15 : sF.destinationFileOffset
              = t.destinationFileOffset + (t.writeCbBytes : Int) := by rw [hSF]; rfl
          have c16 : sF.remainingBytes = rem2 := by rw [hSF]; rfl
          have c17 : sF.chunkListLength = 3 := by rw [hSF]; rfl
          have c18 : sF.nextId = s.nextId := by rw [hSF]; rfl
          refine SyncPhase.steady sF { R with bytesInBuffer := t.statusBlockInfo } x
            ?_ ?_ ?_ ?_ ?_ ?_ ?_ ?_ ?_ ?_ ?_ ?_ ?_ ?_ ?_ ?_ ?_ ?_ ?_ ?_ ?_ ?_ ?_
          · exact Or.inr (Or.inr ⟨{ W with bytesInBuffer := 0 },
              Or.inr (Or.inr c1), rfl, hWs, hWR,
              (show W.id ≠ x.id from Ne.symm hxw)⟩)
          · show R.id ≠ x.id
            exact Ne.symm hxr
          · exact hBpos
          · exact hRs
          · exact hxb
          · exact hxs
          · exact c2
          · exact c3
          · exact c4
          · exact c5
          · exact c6
          · exact c7
          · exact c8
          · exact c9
          · exact c10
          · exact c11
          · rw [c12, c14, f14, f13, htr]
          · rw [c13, c15, f9, f12, htw]
          · have hq : ({ R with bytesInBuffer := t.statusBlockInfo }
                : FileChunk).bytesInBuffer = t.statusBlockInfo := rfl
            rw [c14, c15, f13, f12, f11, hq, hwpb, ← hoff]
          · rw [c14, f13]
            exact hBle
          · rw [c16]
            exact hrem2lt
          · rw [c17, c1]
            rfl
          · intro c hc
            rw [c18]
            rw [c1] at hc
            rcases List.mem_cons.mp hc with h1 | h1
            · rw [h1]
              omega
            · rcases List.mem_cons.mp h1 with h2 | h2
              · rw [h2]
                show W.id < s.nextId
                omega
              · rcases List.mem_cons.mp h2 with h3 | h3
                · rw [h3]
                  show R.id < s.nextId
                  omega
                · simp at h3
        exact ⟨_, rfl, hphase _ rfl⟩
      · -- ring [R, x, W]: the successor of R is the empty chunk x, reuse it
        have hxmem : x ∈ s.chunks := by
          rw [hsh5]
          simp
        have hxlt : x.id < s.nextId := hfresh x hxmem
        have hu2ch : u2.chunks = [{ R with bytesInBuffer := t.statusBlockInfo }, x, W] := by
          show setChunkBytes t.chunks R.id t.statusBlockInfo = _
          rw [f7, hsh5, setChunkBytes_head, setChunkBytes_skip _ _ hxr,
            setChunkBytes_skip _ _ hWR, setChunkBytes_nil]
        have hu2len : u2.chunkListLength = 3 := by
          show t.chunkListLength = 3
          rw [f16, hlen, hsh5]
          rfl
        have hiR : findIdxOf [{ R with bytesInBuffer := t.statusBlockInfo }, x, W] R.id = 0 := by
          rw [findIdxOf, List.findIdx_cons]
          simp
        have hrd : lcGetNextAvailableChunkRead u2.chunks u2.chunkListLength u2.nextId
            u2.readChunk u2.remainingBytes =
            { chunks := [{ R with bytesInBuffer := t.statusBlockInfo }, x, W],
              listLength := 3, nextId := s.nextId, cursor := x.id } := by
          rw [hu2ch, hu2len, hu2nid, hu2rdc, hu2rem]
          simp [lcGetNextAvailableChunkRead, ringNextIdx, hiR, hxb]
        have e4 : readCursorAdvance u2 =
            { u2 with
                chunks := [{ R with bytesInBuffer := t.statusBlockInfo }, x, W],
                chunkListLength := 3, nextId := s.nextId,
                readChunk := some x.id } := by
          rw [readCursorAdvance, hrd]
        rw [e4]
        set u3 : FetchState := { u2 with
          chunks := [{ R with bytesInBuffer := t.statusBlockInfo }, x, W],
          chunkListLength := 3, nextId := s.nextId,
          readChunk := some x.id } with hU3
        have hx1 : u3.readChunk = some x.id := by rw [hU3]
        have hx2 : getChunk u3.chunks x.id = some x := by
          have hy : u3.chunks = [{ R with bytesInBuffer := t.statusBlockInfo }, x, W] := by rw [hU3]
          rw [hy]
          rw [getChunk_cons_ne _
            (show ({ R with bytesInBuffer := t.statusBlockInfo } : FileChunk).id ≠ x.id from Ne.symm hxr)]
          exact getChunk_cons_eq _ rfl
        have e5 : readIssue u3 = { u3 with
            readPending := true,
            readReqSize := x.bufferSize,
            readReqOff := u3.sourceFileOffset } := readIssue_go hx1 hx2
        rw [e5]
        set u4 : FetchState := { u3 with
          readPending := true,
          readReqSize := x.bufferSize,
          readReqOff := u3.sourceFileOffset } with hU4
        have g2 : u4.waitingForRead = false := f2
        have g3 : u4.writeChunk = some W.id := f6
        have g4 : ntSuccess u4.writeCbStatus = true := by
          have h : u4.writeCbStatus = STATUS_SUCCESS := f10
          rw [h]
          decide
        rw [writeAdvance_eval g2 g3 g4]
        simp only [onNext_next]
        have hy4 : u4.chunks = [{ R with bytesInBuffer := t.statusBlockInfo }, x, W] := by rw [hU4, hU3]
        have hRbW : ({ R with bytesInBuffer := t.statusBlockInfo } : FileChunk).id
            ≠ W.id := hRW
        have hwch : (writeAccount u4 W.id).chunks
            = [{ R with bytesInBuffer := t.statusBlockInfo }, x,
               { W with bytesInBuffer := 0 }] := by
          show setChunkBytes u4.chunks W.id 0 = _
          rw [hy4, setChunkBytes_skip _ _ hRbW, setChunkBytes_skip _ _ hxw,
            setChunkBytes_head, setChunkBytes_nil]
        have hbRb : (R.id == W.id) = false := by simp [hRW]
        have hbxW : (x.id == W.id) = false := by simp [hxw]
        have hiW : findIdxOf [{ R with bytesInBuffer := t.statusBlockInfo }, x,
               { W with bytesInBuffer := 0 }] W.id = 2 := by
          rw [findIdxOf, List.findIdx_cons, List.findIdx_cons, List.findIdx_cons]
          simp [hbRb, hbxW]
        have gw : ({ writeCursorAdvance (writeAccount u4 W.id) with
            waitingForRead := false } : FetchState).writeChunk = some R.id := by
          show lcGetNextAvailableChunkWrite (writeAccount u4 W.id).chunks
              (writeAccount u4 W.id).writeChunk = some R.id
          have hwwc : (writeAccount u4 W.id).writeChunk = some W.id := g3
          rw [hwch, hwwc]
          simp [lcGetNextAvailableChunkWrite, ringNextIdx, hiW]
        have gc : getChunk ({ writeCursorAdvance (writeAccount u4 W.id) with
            waitingForRead := false } : FetchState).chunks R.id
            = some { R with bytesInBuffer := t.statusBlockInfo } := by
          show getChunk (writeAccount u4 W.id).chunks R.id = _
          rw [hwch]
          exact getChunk_cons_eq _ rfl
        have gb : ({ R with bytesInBuffer := t.statusBlockInfo }
            : FileChunk).bytesInBuffer ≠ 0 := by
          show t.statusBlockInfo ≠ 0
          omega
        rw [writeIssue_write gw gc gb]
        have hphase : ∀ sF : FetchState,
            sF = { { writeCursorAdvance (writeAccount u4 W.id) with
                waitingForRead := false } with
              writeEventSignaled := false, writePending := true,
              writePendingBytes := ({ R with bytesInBuffer := t.statusBlockInfo }
                : FileChunk).bytesInBuffer } →
            SyncPhase declared actual sF := by
          intro sF hSF
          have c1 : sF.chunks = [{ R with bytesInBuffer := t.statusBlockInfo }, x,
              { W with bytesInBuffer := 0 }] := by
            rw [hSF]
            exact hwch
          have c2 : sF.eof = false := by rw [hSF]; exact f1
          have c3 : sF.waitingForRead = false := by rw [hSF]
          have c4 : sF.readChunk = some x.id := by rw [hSF]; rfl
          have c5 : sF.writeChunk = some R.id := by rw [hSF]; exact gw
          have c6 : sF.readPending = true := by rw [hSF]; rfl
          have c7 : sF.readReqSize = x.bufferSize := by rw [hSF]; rfl
          have c8 : sF.readReqOff = sF.sourceFileOffset := by rw [hSF]; rfl
          have c9 : sF.writePending = true := by rw [hSF]
          have c10 : sF.writeEventSignaled = false := by rw [hSF]
          have c11 : sF.writePendingBytes = t.statusBlockInfo := by rw [hSF]
          have c12 : sF.totalBytesRead
              = t.totalBytesRead + (t.statusBlockInfo : Int) := by rw [hSF]; rfl
          have c13 : sF.totalBytesWritten
              = t.totalBytesWritten + (t.writeCbBytes : Int) := by rw [hSF]; rfl
          have c14 : sF.sourceFileOffset
              = t.sourceFileOffset + (t.statusBlockInfo : Int) := by rw [hSF]; rfl
          have c15 : sF.destinationFileOffset
              = t.destinationFileOffset + (t.writeCbBytes : Int) := by rw [hSF]; rfl
          have c16 : sF.remainingBytes = rem2 := by rw [hSF]; rfl
          have c17 : sF.chunkListLength = 3 := by rw [hSF]; rfl
          have c18 : sF.nextId = s.nextId := by rw [hSF]; rfl
          refine SyncPhase.steady sF { R with bytesInBuffer := t.statusBlockInfo } x
            ?_ ?_ ?_ ?_ ?_ ?_ ?_ ?_ ?_ ?_ ?_ ?_ ?_ ?_ ?_ ?_ ?_ ?_ ?_ ?_ ?_ ?_ ?_
          · exact Or.inr (Or.inr ⟨{ W with bytesInBuffer := 0 },
              Or.inl c1, rfl, hWs, hWR,
              (show W.id ≠ x.id from Ne.symm hxw)⟩)
          · show R.id ≠ x.id
            exact Ne.symm hxr
          · exact hBpos
          · exact hRs
          · exact hxb
          · exact hxs
          · exact c2
          · exact c3
          · exact c4
          · exact c5
          · exact c6
          · exact c7
          · exact c8
          · exact c9
          · exact c10
          · exact c11
          · rw [c12, c14, f14, f13, htr]
          · rw [c13, c15, f9, f12, htw]
          · have hq : ({ R with bytesInBuffer := t.statusBlockInfo }
                : FileChunk).bytesInBuffer = t.statusBlockInfo := rfl
            rw [c14, c15, f13, f12, f11, hq, hwpb, ← hoff]
          · rw [c14, f13]
            exact hBle
          · rw [c16]
            exact hrem2lt
          · rw [c17, c1]
            rfl
          · intro c hc
            rw [c18]
            rw [c1] at hc
            rcases List.mem_cons.mp hc with h1 | h1
            · rw [h1]
              show R.id < s.nextId
              omega
            · rcases List.mem_cons.mp h1 with h2 | h2
              · rw [h2]
                omega
              · rcases List.mem_cons.mp h2 with h3 | h3
                · rw [h3]
                  show W.id < s.nextId
                  omega
                · simp at h3
        exact ⟨_, rfl, hphase _ rfl⟩

theorem syncPhase_step {declared : Int} {actual : Nat} {s : FetchState}
    (h : SyncPhase declared actual s) :
    (∃ s2, loopIter actual true true s = LoopOut.next s2 ∧
       SyncPhase declared actual s2) ∨
    (∃ s2, loopIter actual true true s = LoopOut.done (actual : Int) s2 ∧
       s2.totalBytesWritten = (actual : Int)) := by
  cases h with
  | init h1 h2 =>
    left
    by_cases hrem1 : declared - ((min ChunkSize (ulongCast declared) : Nat) : Int) ≤ 0
    · -- a single preallocated chunk covers the declared size
      have hr : lcInitializeChunksList declared
          = ([⟨0, min ChunkSize (ulongCast declared), 0⟩], 1, 1) := by
        simp only [lcInitializeChunksList]
        rw [if_pos hrem1]
        simp [lcAddNewChunk]
      have hch : (initFetchState declared).chunks
          = [(⟨0, min ChunkSize (ulongCast declared), 0⟩ : FileChunk)] := by
        show (lcInitializeChunksList declared).1 = _
        rw [hr]
      have hlen1 : (initFetchState declared).chunkListLength = 1 := by
        show (lcInitializeChunksList declared).2.1 = 1
        rw [hr]
      have hnid : (initFetchState declared).nextId = 1 := by
        show (lcInitializeChunksList declared).2.2 = 1
        rw [hr]
      have hnr : ¬ (initFetchState declared).remainingBytes ≤ 0 := by
        show ¬ declared ≤ 0
        omega
      have hsz : 0 < min ChunkSize (ulongCast declared) := by
        refine Nat.lt_min.mpr ⟨by decide, ?_⟩
        rw [ulongCast, Int.emod_eq_of_lt (le_of_lt h1) h2]
        omega
      have hstep := @syncStep_initLike actual (initFetchState declared) _ _
        hch rfl rfl rfl rfl rfl rfl rfl rfl hnr
      refine ⟨_, hstep, ?_⟩
      have hphase : ∀ sF : FetchState,
          sF = { initFetchState declared with
            readChunk :=
              some (⟨0, min ChunkSize (ulongCast declared), 0⟩ : FileChunk).id,
            writeChunk :=
              some (⟨0, min ChunkSize (ulongCast declared), 0⟩ : FileChunk).id,
            readPending := true,
            readReqSize :=
              (⟨0, min ChunkSize (ulongCast declared), 0⟩ : FileChunk).bufferSize,
            readReqOff := (initFetchState declared).sourceFileOffset,
            waitingForRead := true } →
          SyncPhase declared actual sF := by
        intro sF hSF
        have d1 : sF.chunks
            = [(⟨0, min ChunkSize (ulongCast declared), 0⟩ : FileChunk)] := by
          rw [hSF]
          exact hch
        have d2 : sF.chunkListLength = 1 := by rw [hSF]; exact hlen1
        have d3 : sF.nextId = 1 := by rw [hSF]; exact hnid
        have d4 : sF.sourceFileOffset = 0 := by rw [hSF]; rfl
        have d5 : sF.remainingBytes = declared := by rw [hSF]; rfl
        refine SyncPhase.warm sF
          (⟨0, min ChunkSize (ulongCast declared), 0⟩ : FileChunk) []
          ?_ ?_ ?_ ?_ ?_ ?_ ?_ ?_ ?_ ?_ ?_ ?_ ?_ ?_ ?_ ?_ ?_ ?_ ?_ ?_
        · exact d1
        · exact Or.inl rfl
        · rfl
        · exact hsz
        · rw [hSF]; rfl
        · rw [hSF]
        · rw [hSF]
        · rw [hSF]
        · rw [hSF]
        · rw [hSF]
        · rw [hSF]
        · rw [hSF]; rfl
        · rw [hSF]; rfl
        · rw [hSF]; rfl
        · rw [hSF]; rfl
        · rw [hSF]; rfl
        · rw [d4]
          omega
        · rw [d5]
          exact h2
        · rw [d2, d1]
          rfl
        · intro c hc
          rw [d3]
          rw [d1] at hc
          rcases List.mem_cons.mp hc with hcc | hcc
          · rw [hcc]
            show (0 : Nat) < 1
            decide
          · simp at hcc
      exact hphase _ rfl
    · -- two preallocated chunks
      have hr : lcInitializeChunksList declared
          = ([⟨0, min ChunkSize (ulongCast declared), 0⟩,
              ⟨1, min ChunkSize (ulongCast (declared
                - ((min ChunkSize (ulongCast declared) : Nat) : Int))), 0⟩], 2, 2) := by
        simp only [lcInitializeChunksList]
        rw [if_neg hrem1]
        simp [lcAddNewChunk]
      have hch : (initFetchState declared).chunks
          = (⟨0, min ChunkSize (ulongCast declared), 0⟩ : FileChunk) ::
            [(⟨1, min ChunkSize (ulongCast (declared
                - ((min ChunkSize (ulongCast declared) : Nat) : Int))), 0⟩
              : FileChunk)] := by
        show (lcInitializeChunksList declared).1 = _
        rw [hr]
      have hlen1 : (initFetchState declared).chunkListLength = 2 := by
        show (lcInitializeChunksList declared).2.1 = 2
        rw [hr]
      have hnid : (initFetchState declared).nextId = 2 := by
        show (lcInitializeChunksList declared).2.2 = 2
        rw [hr]
      have hnr : ¬ (initFetchState declared).remainingBytes ≤ 0 := by
        show ¬ declared ≤ 0
        omega
      have hsz : 0 < min ChunkSize (ulongCast declared) := by
        refine Nat.lt_min.mpr ⟨by decide, ?_⟩
        rw [ulongCast, Int.emod_eq_of_lt (le_of_lt h1) h2]
        omega
      have hnn : (0 : Int) ≤ ((min ChunkSize (ulongCast declared) : Nat) : Int) :=
        Int.ofNat_nonneg _
      have hpos2 : 0 < declared
          - ((min ChunkSize (ulongCast declared) : Nat) : Int) := by omega
      have hlt2 : declared
          - ((min ChunkSize (ulongCast declared) : Nat) : Int) < 2 ^ 32 := by omega
      have hd0s : 0 < min ChunkSize (ulongCast (declared
          - ((min ChunkSize (ulongCast declared) : Nat) : Int))) := by
        refine Nat.lt_min.mpr ⟨by decide, ?_⟩
        rw [ulongCast, Int.emod_eq_of_lt (le_of_lt hpos2) hlt2]
        omega
      have hstep := @syncStep_initLike actual (initFetchState declared) _ _
        hch rfl rfl rfl rfl rfl rfl rfl rfl hnr
      refine ⟨_, hstep, ?_⟩
      have hphase : ∀ sF : FetchState,
          sF = { initFetchState declared with
            readChunk :=
              some (⟨0, min ChunkSize (ulongCast declared), 0⟩ : FileChunk).id,
            writeChunk :=
              some (⟨0, min ChunkSize (ulongCast declared), 0⟩ : FileChunk).id,
            readPending := true,
            readReqSize :=
              (⟨0, min ChunkSize (ulongCast declared), 0⟩ : FileChunk).bufferSize,
            readReqOff := (initFetchState declared).sourceFileOffset,
            waitingForRead := true } →
          SyncPhase declared actual sF := by
        intro sF hSF
        have d1 : sF.chunks
            = (⟨0, min ChunkSize (ulongCast declared), 0⟩ : FileChunk) ::
              [(⟨1, min ChunkSize (ulongCast (declared
                  - ((min ChunkSize (ulongCast declared) : Nat) : Int))), 0⟩
                : FileChunk)] := by
          rw [hSF]
          exact hch
        have d2 : sF.chunkListLength = 2 := by rw [hSF]; exact hlen1
        have d3 : sF.nextId = 2 := by rw [hSF]; exact hnid
        have d4 : sF.sourceFileOffset = 0 := by rw [hSF]; rfl
        have d5 : sF.remainingBytes = declared := by rw [hSF]; rfl
        refine SyncPhase.warm sF
          (⟨0, min ChunkSize (ulongCast declared), 0⟩ : FileChunk)
          [(⟨1, min ChunkSize (ulongCast (declared
              - ((min ChunkSize (ulongCast declared) : Nat) : Int))), 0⟩
            : FileChunk)]
          ?_ ?_ ?_ ?_ ?_ ?_ ?_ ?_ ?_ ?_ ?_ ?_ ?_ ?_ ?_ ?_ ?_ ?_ ?_ ?_
        · exact d1
        · exact Or.inr ⟨_, rfl, rfl, hd0s, by show (1 : Nat) ≠ 0; decide⟩
        · rfl
        · exact hsz
        · rw [hSF]; rfl
        · rw [hSF]
        · rw [hSF]
        · rw [hSF]
        · rw [hSF]
        · rw [hSF]
        · rw [hSF]
        · rw [hSF]; rfl
        · rw [hSF]; rfl
        · rw [hSF]; rfl
        · rw [hSF]; rfl
        · rw [hSF]; rfl
        · rw [d4]
          omega
        · rw [d5]
          exact h2
        · rw [d2, d1]
          rfl
        · intro c hc
          rw [d3]
          rw [d1] at hc
          rcases List.mem_cons.mp hc with hcc | hcc
          · rw [hcc]
            show (0 : Nat) < 2
            decide
          · rcases List.mem_cons.mp hcc with hcd | hcd
            · rw [hcd]
              show (1 : Nat) < 2
              decide
            · simp at hcd
      exact hphase _ rfl
  | warm s1 c0 rest hch hrest hc0b hc0s heof hwait hrc hwc hrp hrq hro hwp hev
      htr htw hoff hle hrem hlen hfresh =>
    exact syncStep_warm hch hrest hc0b hc0s heof hwait hrc hwc hrp hrq hro hwp
      hev htr htw hoff hle hrem hlen hfresh
  | steady s1 W R hsh hWR hWb hWs hRb hRs heof hwait hrc hwc hrp hrq hro hwp
      hev hwpb htr htw hoff hle hrem hlen hfresh =>
    exact syncStep_steady hsh hWR hWb hWs hRb hRs heof hwait hrc hwc hrp hrq hro
      hwp hev hwpb htr htw hoff hle hrem hlen hfresh
  | drain s1 W hmem hwc hothers hWb heof hwait hrp hwp hev hacc =>
    right
    exact syncStep_drain hmem hwc hothers heof hwait hrp hwp hacc

theorem runLoop_sync {declared : Int} {actual : Nat} :
    ∀ (fuel k : Nat) (s : FetchState), SyncPhase declared actual s →
    ∀ {b : Int} {sf : FetchState},
      runLoop actual syncSched fuel k s = LoopOut.done b sf →
      b = (actual : Int) ∧ sf.totalBytesWritten = (actual : Int) := by
  intro fuel
  induction fuel with
  | zero =>
    intro k s hph b sf hrun
    simp only [runLoop] at hrun
    exact LoopOut.noConfusion hrun
  | succ n ih =>
    intro k s hph b sf hrun
    simp only [runLoop] at hrun
    have hs1 : (syncSched k).1 = true := rfl
    have hs2 : (syncSched k).2 = true := rfl
    rw [hs1, hs2] at hrun
    rcases syncPhase_step hph with ⟨s2, hstep, hph2⟩ | ⟨s2, hstep, htot⟩
    · rw [hstep] at hrun
      exact ih (k + 1) s2 hph2 hrun
    · rw [hstep] at hrun
      have hb : (actual : Int) = b ∧ s2 = sf := by
        cases hrun
        exact ⟨rfl, rfl⟩
      rcases hb with ⟨hb1, hb2⟩
      rw [← hb1, ← hb2]
      exact ⟨rfl, htot⟩

/-- C2: for every fetch under the synchronous completion schedule that ends in
the loop's `break` (a committed fetch), the reported `*BytesCopied` equals the
byte count actually held by the source - not `min(actual, declared)` - and it
equals the cumulative count of bytes accumulated into `totalBytesWritten` by
the write completions. -/
theorem C2_fetch_bytes_copied {declared : Int} {actual fuel : Nat} {b : Int}
    {sf : FetchState}
    (h1 : 0 < declared) (h2 : declared < 2 ^ 32)
    (hrun : lcFetchFileByChunks declared actual syncSched fuel = LoopOut.done b sf) :
    b = (actual : Int) ∧ b = sf.totalBytesWritten := by
  have h := runLoop_sync fuel 0 (initFetchState declared)
    (SyncPhase.init h1 h2) hrun
  exact ⟨h.1, by rw [h.1, h.2]⟩

theorem C2_fetch_bytes_copied_witness :
    (25 : Int) = ((25 : Nat) : Int) ∧
      (25 : Int) = (stateOf (lcFetchFileByChunks 12 25 syncSched 8)).totalBytesWritten :=
  @C2_fetch_bytes_copied 12 25 8 25
    (stateOf (lcFetchFileByChunks 12 25 syncSched 8))
    (by decide) (by decide) (by decide)

end Fetch

end LazyCopy